import Mathlib

/-!
# Hodgkin–Huxley simulator (`HHsimulatorWrapper_deprecated.c`)

A shallow embedding of the simulator: the kinetics functions, the integrator
`runHH` and the exported `wrapper`.

Modelling conventions.

* `double` arithmetic is carried out in a linearly ordered field `α`, the
  reals in the theorems that need the exponential; rounding, `NaN` and
  infinities are not modelled.  A quotient by zero is 0 in the field; the
  checked run `runHH_state_checked` faults instead where the loop divides by
  zero.
* The `<cmath>` functions `exp` and `pow` are the two fields of `Libm`.  Over
  the reals they are `Real.exp` and `Real.rpow`.
* `normal seed k` is the value returned by the `k`-th call (`k = 1, 2, …`) of
  `distribution(generator)` after `default_random_engine generator(seed)`.
* The process-wide variables of lines 14–32 are the record `Globals`; a function
  that reads or writes them takes the record and, if it writes, returns it.
* Heap and stack arrays are `Block`s: lists of cells, a cell being `none`
  until it is first written.  Every load and store is bounds-checked, and an
  access outside the block (or a load of an unwritten cell) is a fault
  (`none`), the model of undefined behaviour.
-/

namespace HHsim

/-- The two `<cmath>` functions the simulator calls. -/
structure Libm (α : Type) where
  /-- `exp(x)` -/
  exp : α → α
  /-- `pow(x, y)` -/
  pow : α → α → α

/-- The process-wide variables (source lines 14–32). -/
structure Globals (α : Type) where
  gbar_Na : α
  gbar_K : α
  gbar_M : α
  g_leak : α
  tau_max : α
  Vt : α
  E_leak : α
  I_scale : α
  rate_to_SS_factor : α

section Kinetics

variable {α : Type} [LinearOrderedField α]

/-- Globals of a freshly loaded module: objects of static storage duration are
zero-initialised. -/
def Globals.zeroInit : Globals α :=
  { gbar_Na := 0, gbar_K := 0, gbar_M := 0, g_leak := 0, tau_max := 0,
    Vt := 0, E_leak := 0, I_scale := 0, rate_to_SS_factor := 0 }

/-- Source lines 35–44. -/
def efun (L : Libm α) (z : α) : α :=
  if |z| < 0.0001 then
    1 - z / 2
  else
    z / (L.exp z - 1)

/-- Source lines 46–49. -/
def alpha_m (L : Libm α) (G : Globals α) (x : α) : α :=
  let v1 := x - G.Vt - 13.0
  0.32 * efun L (-0.25 * v1) / 0.25

/-- Source lines 51–54. -/
def beta_m (L : Libm α) (G : Globals α) (x : α) : α :=
  let v1 := x - G.Vt - 40.0
  0.28 * efun L (0.2 * v1) / 0.2

/-- Source lines 56–59. -/
def alpha_h (L : Libm α) (G : Globals α) (x : α) : α :=
  let v1 := x - G.Vt - 17.0
  0.128 * L.exp (-v1 / 18.0)

/-- Source lines 61–64. -/
def beta_h (L : Libm α) (G : Globals α) (x : α) : α :=
  let v1 := x - G.Vt - 40.0
  4.0 / (1 + L.exp (-0.2 * v1))

/-- Source lines 66–69. -/
def alpha_n (L : Libm α) (G : Globals α) (x : α) : α :=
  let v1 := x - G.Vt - 15
  0.032 * efun L (-0.2 * v1) / 0.2

/-- Source lines 71–74. -/
def beta_n (L : Libm α) (G : Globals α) (x : α) : α :=
  let v1 := x - G.Vt - 10.0
  0.5 * L.exp (-v1 / 40)

/-- Source lines 77–79. -/
def tau_n (L : Libm α) (G : Globals α) (x : α) : α :=
  G.rate_to_SS_factor * 1.0 / (alpha_n L G x + beta_n L G x)

/-- Source lines 81–83. -/
def n_inf (L : Libm α) (G : Globals α) (x : α) : α :=
  alpha_n L G x / (alpha_n L G x + beta_n L G x)

/-- Source lines 85–87. -/
def tau_m (L : Libm α) (G : Globals α) (x : α) : α :=
  G.rate_to_SS_factor * 1.0 / (alpha_m L G x + beta_m L G x)

/-- Source lines 89–91. -/
def m_inf (L : Libm α) (G : Globals α) (x : α) : α :=
  alpha_m L G x / (alpha_m L G x + beta_m L G x)

/-- Source lines 93–95. -/
def tau_h (L : Libm α) (G : Globals α) (x : α) : α :=
  G.rate_to_SS_factor * 1.0 / (alpha_h L G x + beta_h L G x)

/-- Source lines 97–99. -/
def h_inf (L : Libm α) (G : Globals α) (x : α) : α :=
  alpha_h L G x / (alpha_h L G x + beta_h L G x)

/-- Source lines 102–105.  Reads no global. -/
def p_inf (L : Libm α) (x : α) : α :=
  let v1 := x + 35.0
  1.0 / (1.0 + L.exp (-0.1 * v1))

/-- Source lines 107–110. -/
def tau_p (L : Libm α) (G : Globals α) (x : α) : α :=
  let v1 := x + 35.0
  G.tau_max / (3.3 * L.exp (0.05 * v1) + L.exp (-0.05 * v1))

end Kinetics

/-! ## Memory -/

/-- An allocated array of `double`: one cell per element, `none` while the
cell has not been written. -/
abbrev Block (α : Type) := List (Option α)

/-- A fresh block of `n` cells (`malloc`, or a variable-length array). -/
def Block.alloc {α : Type} (n : Nat) : Block α :=
  List.replicate n none

/-- Bounds-checked read `b[i]`; a fault outside the block or on an unwritten
cell. -/
def Block.load {α : Type} (b : Block α) (i : Nat) : Option α :=
  (b[i]?).join

/-- Bounds-checked write `b[i] = v`; a fault outside the block. -/
def Block.store {α : Type} (b : Block α) (i : Nat) (v : α) : Option (Block α) :=
  if i < b.length then some (b.set i (some v)) else none

/-- Read `count` consecutive cells starting at cell `i` (the copy made by
`py::array_t<double>(count, ptr)`). -/
def Block.read {α : Type} (b : Block α) : Nat → Nat → Option (List α)
  | _, 0 => some []
  | i, count + 1 => do
    let x ← Block.load b i
    let xs ← Block.read b (i + 1) count
    pure (x :: xs)

/-- The five arrays of `runHH` (source lines 119–123). -/
structure Mem (α : Type) where
  V : Block α
  n : Block α
  m : Block α
  h : Block α
  p : Block α

section Integrator

variable {α : Type} [LinearOrderedField α]

/-- The conversion `int(x)` of a `double`: truncation toward zero, undefined
(a fault) when the truncated value is not representable in a 32-bit `int`. -/
def toInt [FloorRing α] (x : α) : Option Int :=
  let t : Int := if 0 ≤ x then ⌊x⌋ else ⌈x⌉
  if -2147483648 ≤ t ∧ t ≤ 2147483647 then some t else none

/-- Source line 145. -/
def nois_fact : α := 0.1

/-- Source line 146. -/
def C : α := 1

/-- Source line 147. -/
def E_Na : α := 53.0

/-- Source line 148. -/
def E_K : α := -90.0

/-- Source line 149. -/
def Q10 : α := 3.0

/-- Source line 150. -/
def T_1 : α := 36.0

/-- Source line 151. -/
def T_2 : α := 34.0

/-- Source line 152. -/
def T_adj_factor (L : Libm α) : α :=
  L.pow Q10 ((T_2 - T_1) / 10)

/-- Source lines 162–176: the value assigned to `V[i]`, from the cells
`V[i-1]`, `n[i-1]`, `m[i-1]`, `h[i-1]`, `p[i-1]`, the sample `I[i-1]` and the
draw `xi` of `distribution(generator)`.  Where the divisor `tau_V_inv * C` is
zero the field's `x / 0 = 0` stands in for a value the code does not have;
`loopBody_checked` faults there. -/
def V_next (L : Libm α) (G : Globals α) (dt I1 xi V1 n1 m1 h1 p1 : α) : α :=
  let tau_V_inv := (
      (L.pow m1 3) * G.gbar_Na * h1
      + (L.pow n1 4) * G.gbar_K
      + G.g_leak
      + G.gbar_M * p1
    ) / C
  let V_inf := (
      (L.pow m1 3) * G.gbar_Na * h1 * E_Na
      + (L.pow n1 4) * G.gbar_K * E_K
      + G.g_leak * G.E_leak
      + G.gbar_M * p1 * E_K
      + I1
      + nois_fact * xi / (L.pow dt 0.5)
    ) / (tau_V_inv * C)
  V_inf + (V1 - V_inf) * L.exp (-dt * tau_V_inv)

/-- Source lines 177–180: the value assigned to `x[i]` for a gating variable
with steady state `x_inf` and time constant `tau_x` (both already evaluated at
`V[i]`) and previous value `x1 = x[i-1]`. -/
def gate_next (L : Libm α) (dt x_inf tau_x x1 : α) : α :=
  x_inf + (x1 - x_inf) * L.exp (-dt * T_adj_factor L / tau_x)

/-- Source lines 162–167: the total conductance rate `tau_V_inv`; multiplied
by `C` it is the divisor of `V_inf` at line 175. -/
def tau_V_inv (L : Libm α) (G : Globals α) (n1 m1 h1 p1 : α) : α :=
  (
      (L.pow m1 3) * G.gbar_Na * h1
      + (L.pow n1 4) * G.gbar_K
      + G.g_leak
      + G.gbar_M * p1
    ) / C

/-- One iteration of the loop of source lines 161–181, for the index `i`. -/
def loopBody (L : Libm α) (normal : Int → Nat → α) (G : Globals α)
    (random_seed : Int) (I : List α) (dt : α) (mem : Mem α) (i : Nat) :
    Option (Mem α) := do
  let m1 ← Block.load mem.m (i - 1)
  let h1 ← Block.load mem.h (i - 1)
  let n1 ← Block.load mem.n (i - 1)
  let p1 ← Block.load mem.p (i - 1)
  let I1 ← I[i - 1]?
  let xi := normal random_seed i
  let V1 ← Block.load mem.V (i - 1)
  let V ← Block.store mem.V i (V_next L G dt I1 xi V1 n1 m1 h1 p1)
  let Vi ← Block.load V i
  let n ← Block.store mem.n i (gate_next L dt (n_inf L G Vi) (tau_n L G Vi) n1)
  let m ← Block.store mem.m i (gate_next L dt (m_inf L G Vi) (tau_m L G Vi) m1)
  let h ← Block.store mem.h i (gate_next L dt (h_inf L G Vi) (tau_h L G Vi) h1)
  let p ← Block.store mem.p i (gate_next L dt (p_inf L Vi) (tau_p L G Vi) p1)
  pure { V := V, n := n, m := m, h := h, p := p }

/-- One iteration of the loop with the divisions of lines 174–180 made
partial.  In the field a quotient by zero is 0; the code has no real value
there (in `double` arithmetic an infinity or NaN, which reaches `V[i]` and the
gating cells as NaN).  Here the iteration faults when one of its divisors is
zero: `tau_V_inv * C` (line 175), `pow(dt, 0.5)` (line 174) or one of the four
time constants at `V[i]` (lines 177–180); otherwise it is `loopBody`. -/
def loopBody_checked (L : Libm α) (normal : Int → Nat → α) (G : Globals α)
    (random_seed : Int) (I : List α) (dt : α) (mem : Mem α) (i : Nat) :
    Option (Mem α) := do
  let m1 ← Block.load mem.m (i - 1)
  let h1 ← Block.load mem.h (i - 1)
  let n1 ← Block.load mem.n (i - 1)
  let p1 ← Block.load mem.p (i - 1)
  let I1 ← I[i - 1]?
  let V1 ← Block.load mem.V (i - 1)
  let Vi := V_next L G dt I1 (normal random_seed i) V1 n1 m1 h1 p1
  if tau_V_inv L G n1 m1 h1 p1 * C = 0 ∨ L.pow dt 0.5 = 0 ∨ tau_n L G Vi = 0
      ∨ tau_m L G Vi = 0 ∨ tau_h L G Vi = 0 ∨ tau_p L G Vi = 0 then
    none
  else
    loopBody L normal G random_seed I dt mem i

/-- Source lines 119–129: the five arrays are allocated with `size` cells and
their cells 0 are written.  The steady states are evaluated with the globals
`G` as they are at that point of the call, before the parameters are assigned. -/
def initMem (L : Libm α) (G : Globals α) (size : Int) (V0 : α) : Option (Mem α) := do
  let V : Block α := Block.alloc size.toNat
  let n : Block α := Block.alloc size.toNat
  let m : Block α := Block.alloc size.toNat
  let h : Block α := Block.alloc size.toNat
  let p : Block α := Block.alloc size.toNat
  let V : Block α ← Block.store V 0 V0
  let n : Block α ← Block.store n 0 (n_inf L G (← Block.load V 0))
  let m : Block α ← Block.store m 0 (m_inf L G (← Block.load V 0))
  let h : Block α ← Block.store h 0 (h_inf L G (← Block.load V 0))
  let p : Block α ← Block.store p 0 (p_inf L (← Block.load V 0))
  pure { V := V, n := n, m := m, h := h, p := p }

/-- Source lines 131–139: the globals are assigned from the parameter vector;
`I_scale` is not assigned. -/
def assignGlobals (G : Globals α) (parameters : List α) : Option (Globals α) := do
  let gbar_Na : α ← parameters[0]?
  let gbar_K : α ← parameters[1]?
  let gbar_M : α ← parameters[2]?
  let g_leak : α ← parameters[3]?
  let tau_max : α ← parameters[4]?
  let Vt : α ← parameters[5]?
  let E_leak : α ← parameters[6]?
  let rate_to_SS_factor : α ← parameters[7]?
  pure
    { gbar_Na := gbar_Na, gbar_K := gbar_K, gbar_M := gbar_M, g_leak := g_leak,
      tau_max := tau_max, Vt := Vt, E_leak := E_leak, I_scale := G.I_scale,
      rate_to_SS_factor := rate_to_SS_factor }

/-- Source lines 113–183, keeping the four gating arrays: the globals after
the call and the five arrays, or a fault.  `G` holds the globals on entry.
A zero `dt` is not singled out: in a field `x / 0 = 0`, so `size` is 0 and the
run faults at `V[0] = V0`; in C++ the conversion of the infinite or NaN
quotient to `int` is undefined as well. -/
def runHH_state [FloorRing α] (L : Libm α) (normal : Int → Nat → α) (G : Globals α)
    (parameters : List α) (random_seed : Int) (V0 : α) (I : List α)
    (dt tfin : α) : Option (Globals α × Mem α) := do
  let t_start : α := 0.0
  let t_dur : α := tfin - t_start
  let size : Int ← toInt (t_dur / dt)
  let mem : Mem α ← initMem L G size V0
  let G1 : Globals α ← assignGlobals G parameters
  let mem : Mem α ← (List.range' 1 (size.toNat - 1)).foldlM
    (loopBody L normal G1 random_seed I dt) mem
  pure (G1, mem)

/-- The run `runHH_state` with the divisions of the loop made partial
(`loopBody_checked`): a fault also when an iteration divides by zero. -/
def runHH_state_checked [FloorRing α] (L : Libm α) (normal : Int → Nat → α)
    (G : Globals α) (parameters : List α) (random_seed : Int) (V0 : α) (I : List α)
    (dt tfin : α) : Option (Globals α × Mem α) := do
  let t_start : α := 0.0
  let t_dur : α := tfin - t_start
  let size : Int ← toInt (t_dur / dt)
  let mem : Mem α ← initMem L G size V0
  let G1 : Globals α ← assignGlobals G parameters
  let mem : Mem α ← (List.range' 1 (size.toNat - 1)).foldlM
    (loopBody_checked L normal G1 random_seed I dt) mem
  pure (G1, mem)

/-- Source lines 113–183: the globals after the call and the block `V` whose
address is returned. -/
def runHH [FloorRing α] (L : Libm α) (normal : Int → Nat → α) (G : Globals α)
    (parameters : List α) (random_seed : Int) (V0 : α) (I : List α)
    (dt tfin : α) : Option (Globals α × Block α) :=
  (runHH_state L normal G parameters random_seed V0 I dt tfin).map
    (fun r => (r.1, r.2.V))

/-- Source lines 187–205: the exported operation.  The returned array has
`buf3.size = buf2.size` elements, copied from the block returned by `runHH`
(the array allocated at line 191 only supplies that size). -/
def wrapper [FloorRing α] (L : Libm α) (normal : Int → Nat → α) (G : Globals α)
    (parameters : List α) (random_seed : Int) (V0 : α) (I : List α)
    (dt tfin : α) : Option (Globals α × List α) := do
  let buf2_size := I.length
  let buf3_size := buf2_size
  let (G1, V_out) ← runHH L normal G parameters random_seed V0 I dt tfin
  let V ← Block.read V_out 0 buf3_size
  pure (G1, V)

end Integrator

/-! ## The run as a sequence of rows

The definitions below are not part of the program: they describe the contents
of the five arrays after the loop has reached a given index, and are used to
state the loop invariant. -/

/-- The block of `size` cells whose first `c` cells hold `f 0, …, f (c-1)` and
whose other cells are unwritten. -/
def blk {α : Type} (f : Nat → α) (size c : Nat) : Block α :=
  (List.range c).map (fun j => some (f j)) ++ List.replicate (size - c) none

/-- The values of `V[i]`, `n[i]`, `m[i]`, `h[i]`, `p[i]` for one index `i`. -/
structure Row (α : Type) where
  V : α
  n : α
  m : α
  h : α
  p : α

section Rows

variable {α : Type} [LinearOrderedField α]

/-- The row written for index `i`: row 0 by the initialisation (with the
globals `G` of the entry to the call), row `i + 1` by the loop iteration
`i + 1` (with the globals `G1` assigned from the parameters) from row `i`. -/
def rowAt (L : Libm α) (normal : Int → Nat → α) (G G1 : Globals α)
    (random_seed : Int) (V0 : α) (I : List α) (dt : α) : Nat → Row α
  | 0 =>
    { V := V0, n := n_inf L G V0, m := m_inf L G V0, h := h_inf L G V0, p := p_inf L V0 }
  | i + 1 =>
    let r := rowAt L normal G G1 random_seed V0 I dt i
    let Vi := V_next L G1 dt (I.getD i 0) (normal random_seed (i + 1)) r.V r.n r.m r.h r.p
    { V := Vi
      n := gate_next L dt (n_inf L G1 Vi) (tau_n L G1 Vi) r.n
      m := gate_next L dt (m_inf L G1 Vi) (tau_m L G1 Vi) r.m
      h := gate_next L dt (h_inf L G1 Vi) (tau_h L G1 Vi) r.h
      p := gate_next L dt (p_inf L Vi) (tau_p L G1 Vi) r.p }

/-- The five arrays of `size` cells whose first `c` cells hold the rows
`T 0, …, T (c-1)`. -/
def memAt (T : Nat → Row α) (size c : Nat) : Mem α :=
  { V := blk (fun j => (T j).V) size c
    n := blk (fun j => (T j).n) size c
    m := blk (fun j => (T j).m) size c
    h := blk (fun j => (T j).h) size c
    p := blk (fun j => (T j).p) size c }

end Rows

/-! ## Memory lemmas -/

theorem blk_length {α : Type} (f : Nat → α) (size c : Nat) (hc : c ≤ size) :
    (blk f size c).length = size := by
  simp [blk]; omega

theorem blk_getElem? {α : Type} (f : Nat → α) (size c j : Nat) (hc : c ≤ size) :
    (blk f size c)[j]? =
      if j < c then some (some (f j)) else if j < size then some none else none := by
  unfold blk
  by_cases h1 : j < c
  · rw [List.getElem?_append_left (by simpa using h1)]
    simp [h1, List.getElem?_range]
  · rw [List.getElem?_append_right (by simpa using h1)]
    simp only [List.length_map, List.length_range, if_neg h1]
    by_cases h2 : j < size
    · rw [if_pos h2, List.getElem?_replicate, if_pos (by omega)]
    · rw [if_neg h2, List.getElem?_replicate, if_neg (by omega)]

theorem alloc_eq_blk {α : Type} (f : Nat → α) (size : Nat) :
    (Block.alloc size : Block α) = blk f size 0 := by
  simp [Block.alloc, blk]

theorem load_blk {α : Type} (f : Nat → α) (size c j : Nat) (hc : c ≤ size) (hj : j < c) :
    Block.load (blk f size c) j = some (f j) := by
  simp [Block.load, blk_getElem? f size c j hc, hj]

theorem store_blk {α : Type} (f : Nat → α) (size c : Nat) (hc : c < size) :
    Block.store (blk f size c) c (f c) = some (blk f size (c + 1)) := by
  unfold Block.store
  rw [if_pos (by rw [blk_length f size c hc.le]; exact hc)]
  congr 1
  apply List.ext_getElem?
  intro j
  rw [List.getElem?_set, blk_getElem? f size c j hc.le, blk_getElem? f size (c + 1) j hc,
    blk_length f size c hc.le]
  by_cases h1 : c = j
  · subst h1
    simp [hc]
  · by_cases h2 : j < c
    · simp [h1, h2, Nat.lt_succ_of_lt h2]
    · have h3 : ¬ j < c + 1 := by omega
      simp [h1, h2, h3]

theorem store_fault {α : Type} (b : Block α) (i : Nat) (v : α) (hi : b.length ≤ i) :
    Block.store b i v = none := by
  unfold Block.store
  rw [if_neg (by omega)]

theorem load_fault {α : Type} (b : Block α) (i : Nat) (hi : b.length ≤ i) :
    Block.load b i = none := by
  unfold Block.load
  rw [List.getElem?_eq_none hi]
  rfl

theorem read_length {α : Type} (b : Block α) (count : Nat) :
    ∀ (i : Nat) (out : List α), Block.read b i count = some out → out.length = count := by
  induction count with
  | zero =>
    intro i out h
    simp [Block.read] at h
    simp [← h]
  | succ k ih =>
    intro i out h
    simp only [Block.read, Option.bind_eq_bind, Option.bind_eq_some, Option.pure_def] at h
    obtain ⟨x, -, xs, hxs, hout⟩ := h
    simp only [Option.some.injEq] at hout
    rw [← hout, List.length_cons, ih (i + 1) xs hxs]

theorem read_blk {α : Type} (f : Nat → α) (size c count : Nat) (hc : c ≤ size) :
    ∀ i : Nat, i + count ≤ c →
      Block.read (blk f size c) i count = some ((List.range' i count).map f) := by
  induction count with
  | zero => intro i _; simp [Block.read]
  | succ k ih =>
    intro i hi
    simp only [Block.read, Option.bind_eq_bind, Option.pure_def]
    rw [load_blk f size c i hc (by omega), ih (i + 1) (by omega)]
    simp [List.range'_succ]

theorem read_fault {α : Type} (b : Block α) (count : Nat) :
    ∀ i : Nat, 0 < count → b.length < i + count → Block.read b i count = none := by
  induction count with
  | zero => intro i h; omega
  | succ k ih =>
    intro i _ hi
    simp only [Block.read, Option.bind_eq_bind, Option.pure_def]
    by_cases h : b.length ≤ i
    · rw [load_fault b i h]; rfl
    · rw [ih (i + 1) (by omega) (by omega)]
      cases Block.load b i <;> rfl

/-! ## The run -/


theorem assignGlobals_eq (G : Globals α) (parameters : List α)
    (hp : 8 ≤ parameters.length) :
    ∃ G1 : Globals α, assignGlobals G parameters = some G1 ∧
      parameters[0]? = some G1.gbar_Na ∧ parameters[1]? = some G1.gbar_K ∧
      parameters[2]? = some G1.gbar_M ∧ parameters[3]? = some G1.g_leak ∧
      parameters[4]? = some G1.tau_max ∧ parameters[5]? = some G1.Vt ∧
      parameters[6]? = some G1.E_leak ∧ parameters[7]? = some G1.rate_to_SS_factor ∧
      G1.I_scale = G.I_scale := by
  match parameters, hp with
  | a0 :: a1 :: a2 :: a3 :: a4 :: a5 :: a6 :: a7 :: rest, _ =>
    exact ⟨{ gbar_Na := a0, gbar_K := a1, gbar_M := a2, g_leak := a3, tau_max := a4,
             Vt := a5, E_leak := a6, I_scale := G.I_scale, rate_to_SS_factor := a7 },
      by simp [assignGlobals], by simp, by simp, by simp, by simp, by simp, by simp,
      by simp, by simp, rfl⟩

section RunLemmas

variable {α : Type} [LinearOrderedField α]

theorem toInt_of_floor [FloorRing α] (x : α) (h1 : 1 ≤ ⌊x⌋) (h2 : ⌊x⌋ ≤ 2147483647) :
    toInt x = some ⌊x⌋ := by
  have hx : 0 ≤ x := by
    have : (0 : ℤ) ≤ ⌊x⌋ := by omega
    exact Int.floor_nonneg.mp this
  unfold toInt
  simp only [if_pos hx]
  rw [if_pos ⟨by omega, h2⟩]

theorem initMem_eq (L : Libm α) (G : Globals α) (size : Int) (V0 : α)
    (T : Nat → Row α)
    (hT : T 0 = { V := V0, n := n_inf L G V0, m := m_inf L G V0, h := h_inf L G V0,
                  p := p_inf L V0 })
    (hsize : 1 ≤ size) :
    initMem L G size V0 = some (memAt T size.toNat 1) := by
  have hpos : 0 < size.toNat := by omega
  have hV : Block.store (Block.alloc size.toNat : Block α) 0 V0
      = some (blk (fun j => (T j).V) size.toNat 1) := by
    rw [alloc_eq_blk (fun j => (T j).V)]
    have := store_blk (fun j => (T j).V) size.toNat 0 hpos
    simpa [hT] using this
  have hl : Block.load (blk (fun j => (T j).V) size.toNat 1) 0 = some V0 := by
    rw [load_blk _ _ _ _ hpos (by omega)]; simp [hT]
  have hn : Block.store (Block.alloc size.toNat : Block α) 0 (n_inf L G V0)
      = some (blk (fun j => (T j).n) size.toNat 1) := by
    rw [alloc_eq_blk (fun j => (T j).n)]
    have := store_blk (fun j => (T j).n) size.toNat 0 hpos
    simpa [hT] using this
  have hm : Block.store (Block.alloc size.toNat : Block α) 0 (m_inf L G V0)
      = some (blk (fun j => (T j).m) size.toNat 1) := by
    rw [alloc_eq_blk (fun j => (T j).m)]
    have := store_blk (fun j => (T j).m) size.toNat 0 hpos
    simpa [hT] using this
  have hh : Block.store (Block.alloc size.toNat : Block α) 0 (h_inf L G V0)
      = some (blk (fun j => (T j).h) size.toNat 1) := by
    rw [alloc_eq_blk (fun j => (T j).h)]
    have := store_blk (fun j => (T j).h) size.toNat 0 hpos
    simpa [hT] using this
  have hp : Block.store (Block.alloc size.toNat : Block α) 0 (p_inf L V0)
      = some (blk (fun j => (T j).p) size.toNat 1) := by
    rw [alloc_eq_blk (fun j => (T j).p)]
    have := store_blk (fun j => (T j).p) size.toNat 0 hpos
    simpa [hT] using this
  simp only [initMem, hV, hl, hn, hm, hh, hp, Option.bind_eq_bind, Option.some_bind,
    Option.pure_def, memAt]

theorem initMem_fault (L : Libm α) (G : Globals α) (size : Int) (V0 : α)
    (hsize : size ≤ 0) : initMem L G size V0 = none := by
  have h0 : size.toNat = 0 := by omega
  have hV : Block.store (Block.alloc size.toNat : Block α) 0 V0 = none := by
    apply store_fault
    simp [Block.alloc, h0]
  simp only [initMem, hV, Option.bind_eq_bind, Option.none_bind]

theorem loopBody_eq (L : Libm α) (normal : Int → Nat → α) (G G1 : Globals α)
    (random_seed : Int) (V0 : α) (I : List α) (dt : α) (size i : Nat)
    (hi1 : 1 ≤ i) (hi2 : i < size) (hI : i - 1 < I.length) :
    loopBody L normal G1 random_seed I dt
        (memAt (rowAt L normal G G1 random_seed V0 I dt) size i) i
      = some (memAt (rowAt L normal G G1 random_seed V0 I dt) size (i + 1)) := by
  obtain ⟨k, rfl⟩ : ∃ k, i = k + 1 := ⟨i - 1, by omega⟩
  have hIk : I[k]? = some (I.getD k 0) := by
    simp only [Nat.add_sub_cancel] at hI
    rw [List.getD_eq_getElem?_getD, List.getElem?_eq_getElem hI]
    rfl
  simp only [loopBody, memAt, Nat.add_sub_cancel, Option.bind_eq_bind, Option.pure_def]
  rw [load_blk _ _ _ _ hi2.le (by omega), load_blk _ _ _ _ hi2.le (by omega),
    load_blk _ _ _ _ hi2.le (by omega), load_blk _ _ _ _ hi2.le (by omega),
    load_blk _ _ _ _ hi2.le (by omega), hIk]
  simp only [Option.some_bind]
  have hV := store_blk (fun j => (rowAt L normal G G1 random_seed V0 I dt j).V) size (k + 1) hi2
  have hn := store_blk (fun j => (rowAt L normal G G1 random_seed V0 I dt j).n) size (k + 1) hi2
  have hm := store_blk (fun j => (rowAt L normal G G1 random_seed V0 I dt j).m) size (k + 1) hi2
  have hh := store_blk (fun j => (rowAt L normal G G1 random_seed V0 I dt j).h) size (k + 1) hi2
  have hp := store_blk (fun j => (rowAt L normal G G1 random_seed V0 I dt j).p) size (k + 1) hi2
  simp only [rowAt] at hV hn hm hh hp
  rw [hV]
  simp only [Option.some_bind]
  rw [load_blk _ _ _ _ (by omega) (by omega)]
  simp only [Option.some_bind, rowAt]
  rw [hn, hm, hh, hp]
  simp only [Option.some_bind]

theorem loop_eq (L : Libm α) (normal : Int → Nat → α) (G G1 : Globals α)
    (random_seed : Int) (V0 : α) (I : List α) (dt : α) (size : Nat) :
    ∀ k : Nat, k + 1 ≤ size → k ≤ I.length →
      (List.range' 1 k).foldlM (loopBody L normal G1 random_seed I dt)
          (memAt (rowAt L normal G G1 random_seed V0 I dt) size 1)
        = some (memAt (rowAt L normal G G1 random_seed V0 I dt) size (k + 1)) := by
  intro k
  induction k with
  | zero => intro _ _; rfl
  | succ k ih =>
    intro h1 h2
    rw [List.range'_1_concat, List.foldlM_append, ih (by omega) (by omega)]
    simp only [Option.bind_eq_bind, Option.some_bind, List.foldlM_cons, List.foldlM_nil]
    rw [Nat.add_comm 1 k, loopBody_eq L normal G G1 random_seed V0 I dt size (k + 1)
      (by omega) (by omega) (by omega)]
    rfl

theorem runHH_state_eq [FloorRing α] (L : Libm α) (normal : Int → Nat → α)
    (G G1 : Globals α) (parameters : List α) (random_seed : Int) (V0 : α) (I : List α)
    (dt tfin : α) (hN1 : 1 ≤ ⌊tfin / dt⌋) (hN2 : ⌊tfin / dt⌋ ≤ 2147483647)
    (hG1 : assignGlobals G parameters = some G1)
    (hI : ⌊tfin / dt⌋.toNat - 1 ≤ I.length) :
    runHH_state L normal G parameters random_seed V0 I dt tfin
      = some (G1, memAt (rowAt L normal G G1 random_seed V0 I dt)
          ⌊tfin / dt⌋.toNat ⌊tfin / dt⌋.toNat) := by
  have h0 : tfin - (0.0 : α) = tfin := by norm_num
  have hsz : ⌊tfin / dt⌋.toNat - 1 + 1 = ⌊tfin / dt⌋.toNat := by omega
  simp only [runHH_state, h0, toInt_of_floor (tfin / dt) hN1 hN2, Option.bind_eq_bind,
    Option.some_bind, Option.pure_def, hG1,
    initMem_eq L G ⌊tfin / dt⌋ V0 (rowAt L normal G G1 random_seed V0 I dt) rfl hN1,
    loop_eq L normal G G1 random_seed V0 I dt ⌊tfin / dt⌋.toNat (⌊tfin / dt⌋.toNat - 1)
      (by omega) hI, hsz]

theorem runHH_state_fault [FloorRing α] (L : Libm α) (normal : Int → Nat → α)
    (G : Globals α) (parameters : List α) (random_seed : Int) (V0 : α) (I : List α)
    (dt tfin : α) (h0 : 0 ≤ tfin / dt) (h1 : tfin / dt < 1) :
    runHH_state L normal G parameters random_seed V0 I dt tfin = none := by
  have hs : tfin - (0.0 : α) = tfin := by norm_num
  have hfl : ⌊tfin / dt⌋ = 0 := by
    rw [Int.floor_eq_iff]
    constructor
    · simpa using h0
    · simpa using h1
  have ht : toInt (tfin / dt) = some 0 := by
    unfold toInt
    simp only [if_pos h0, hfl]
    rfl
  simp only [runHH_state, hs, ht, Option.bind_eq_bind, Option.some_bind,
    initMem_fault L G 0 V0 le_rfl, Option.none_bind]

theorem runHH_eq [FloorRing α] (L : Libm α) (normal : Int → Nat → α)
    (G G1 : Globals α) (parameters : List α) (random_seed : Int) (V0 : α) (I : List α)
    (dt tfin : α) (hN1 : 1 ≤ ⌊tfin / dt⌋) (hN2 : ⌊tfin / dt⌋ ≤ 2147483647)
    (hG1 : assignGlobals G parameters = some G1)
    (hI : ⌊tfin / dt⌋.toNat - 1 ≤ I.length) :
    runHH L normal G parameters random_seed V0 I dt tfin
      = some (G1, blk (fun j => (rowAt L normal G G1 random_seed V0 I dt j).V)
          ⌊tfin / dt⌋.toNat ⌊tfin / dt⌋.toNat) := by
  rw [runHH, runHH_state_eq L normal G G1 parameters random_seed V0 I dt tfin hN1 hN2 hG1 hI]
  rfl

theorem runHH_fault [FloorRing α] (L : Libm α) (normal : Int → Nat → α)
    (G : Globals α) (parameters : List α) (random_seed : Int) (V0 : α) (I : List α)
    (dt tfin : α) (h0 : 0 ≤ tfin / dt) (h1 : tfin / dt < 1) :
    runHH L normal G parameters random_seed V0 I dt tfin = none := by
  rw [runHH, runHH_state_fault L normal G parameters random_seed V0 I dt tfin h0 h1]
  rfl

theorem wrapper_eq [FloorRing α] (L : Libm α) (normal : Int → Nat → α)
    (G G1 : Globals α) (parameters : List α) (random_seed : Int) (V0 : α) (I : List α)
    (dt tfin : α) (hN1 : 1 ≤ ⌊tfin / dt⌋) (hN2 : ⌊tfin / dt⌋ ≤ 2147483647)
    (hG1 : assignGlobals G parameters = some G1)
    (hI : ⌊tfin / dt⌋.toNat - 1 ≤ I.length) (hI2 : I.length ≤ ⌊tfin / dt⌋.toNat) :
    wrapper L normal G parameters random_seed V0 I dt tfin
      = some (G1, (List.range' 0 I.length).map
          (fun j => (rowAt L normal G G1 random_seed V0 I dt j).V)) := by
  simp only [wrapper, runHH_eq L normal G G1 parameters random_seed V0 I dt tfin hN1 hN2 hG1 hI,
    Option.bind_eq_bind, Option.some_bind, Option.pure_def]
  rw [read_blk _ _ _ _ le_rfl 0 (by omega)]
  rfl

theorem wrapper_fault_of_long_input [FloorRing α] (L : Libm α) (normal : Int → Nat → α)
    (G : Globals α) (parameters : List α) (random_seed : Int) (V0 : α) (I : List α)
    (dt tfin : α) (hN1 : 1 ≤ ⌊tfin / dt⌋) (hN2 : ⌊tfin / dt⌋ ≤ 2147483647)
    (hp : 8 ≤ parameters.length) (hI : ⌊tfin / dt⌋.toNat < I.length) :
    wrapper L normal G parameters random_seed V0 I dt tfin = none := by
  obtain ⟨G1, hG1, -⟩ := assignGlobals_eq G parameters hp
  simp only [wrapper, runHH_eq L normal G G1 parameters random_seed V0 I dt tfin hN1 hN2 hG1
    (by omega), Option.bind_eq_bind, Option.some_bind, Option.pure_def]
  rw [read_fault _ _ 0 (by omega) (by rw [blk_length _ _ _ le_rfl]; omega)]
  rfl

theorem wrapper_length [FloorRing α] (L : Libm α) (normal : Int → Nat → α)
    (G : Globals α) (parameters : List α) (random_seed : Int) (V0 : α) (I : List α)
    (dt tfin : α) (G1 : Globals α) (out : List α)
    (h : wrapper L normal G parameters random_seed V0 I dt tfin = some (G1, out)) :
    out.length = I.length := by
  simp only [wrapper, Option.bind_eq_bind, Option.bind_eq_some, Option.pure_def,
    Option.some.injEq, Prod.mk.injEq] at h
  obtain ⟨r, -, V, hV, -, rfl⟩ := h
  exact read_length _ _ _ _ hV

end RunLemmas

/-! ## Output length and first sample -/

/-- C3 (amended).  When the current trace has exactly `floor(tfin/dt)` samples
(and `1 ≤ floor(tfin/dt)` fits an `int`, with at least the eight parameters
present), the exported operation returns an array of length `floor(tfin/dt)`;
and whatever the inputs, an array it returns has as many elements as `I`. -/
theorem wrapper_length_law {α : Type} [LinearOrderedField α] [FloorRing α]
    (L : Libm α) (normal : Int → Nat → α)
    (G : Globals α) (parameters : List α) (random_seed : Int) (V0 : α) (I : List α)
    (dt tfin : α) (_hdt : 0 < dt) (_htfin : 0 < tfin)
    (hN1 : 1 ≤ ⌊tfin / dt⌋) (hN2 : ⌊tfin / dt⌋ ≤ 2147483647)
    (hp : 8 ≤ parameters.length) (hI : (I.length : ℤ) = ⌊tfin / dt⌋) :
    (∃ G1 out, wrapper L normal G parameters random_seed V0 I dt tfin = some (G1, out) ∧
      (out.length : ℤ) = ⌊tfin / dt⌋) ∧
    (∀ I2 G2 out2, wrapper L normal G parameters random_seed V0 I2 dt tfin = some (G2, out2) →
      out2.length = I2.length) := by
  obtain ⟨G1, hG1, -⟩ := assignGlobals_eq G parameters hp
  refine ⟨⟨G1, _, wrapper_eq L normal G G1 parameters random_seed V0 I dt tfin hN1 hN2 hG1
    (by omega) (by omega), ?_⟩, ?_⟩
  · simpa using hI
  · intro I2 G2 out2 h
    exact wrapper_length L normal G parameters random_seed V0 I2 dt tfin G2 out2 h

/-- C3, an instance of the amended law: two samples, `dt = 1`, `tfin = 2`. -/
theorem wrapper_length_law_witness :
    (∃ G1 out, wrapper (⟨Real.exp, Real.rpow⟩ : Libm ℝ) (fun _ _ => 0) Globals.zeroInit
        [50, 50, 0, 0.1, 100, -60, -65, 1] 0 (-65) [0, 0] 1 2 = some (G1, out) ∧
      (out.length : ℤ) = ⌊(2 : ℝ) / 1⌋) ∧
    (∀ I2 G2 out2, wrapper (⟨Real.exp, Real.rpow⟩ : Libm ℝ) (fun _ _ => 0) Globals.zeroInit
        [50, 50, 0, 0.1, 100, -60, -65, 1] 0 (-65) I2 1 2 = some (G2, out2) →
      out2.length = I2.length) :=
  wrapper_length_law _ _ _ _ 0 (-65) [0, 0] 1 2 (by norm_num) (by norm_num)
    (by norm_num) (by norm_num) (by simp) (by norm_num)

/-- C3 as stated fails.  With `dt = 1`, `tfin = 2` (so `floor(tfin/dt) = 2`)
and a one-sample current trace the exported operation returns the one-element
array `[V0]`; and on the example of the specification (1000 samples,
`dt = 0.1`, `tfin = 50`, `floor(tfin/dt) = 500`) it returns no array of 500
elements: the copy of `buf3.size = 1000` cells runs past the 500-cell block. -/
theorem wrapper_length_not_floor :
    ((0 : ℝ) < 1 ∧ (0 : ℝ) < 2 ∧ ⌊(2 : ℝ) / 1⌋ = 2 ∧
      (wrapper (⟨Real.exp, Real.rpow⟩ : Libm ℝ) (fun _ _ => 0) Globals.zeroInit
        [50, 50, 0, 0.1, 100, -60, -65, 1] 0 (-65) [0] 1 2).map (fun r => r.2)
        = some [-65]) ∧
    ((0 : ℝ) < 0.1 ∧ (0 : ℝ) < 50 ∧ ⌊(50 : ℝ) / 0.1⌋ = 500 ∧
      wrapper (⟨Real.exp, Real.rpow⟩ : Libm ℝ) (fun _ _ => 0) Globals.zeroInit
        [50, 50, 0, 0.1, 100, -60, -65, 1] 0 (-65) (List.replicate 1000 0) 0.1 50
        = none) := by
  have hfl1 : ⌊(2 : ℝ) / 1⌋ = 2 := by norm_num
  have hfl2 : ⌊(50 : ℝ) / 0.1⌋ = 500 := by norm_num
  refine ⟨⟨by norm_num, by norm_num, hfl1, ?_⟩, by norm_num, by norm_num, hfl2, ?_⟩
  · obtain ⟨G1, hG1, -⟩ := assignGlobals_eq (Globals.zeroInit : Globals ℝ)
      [50, 50, 0, 0.1, 100, -60, -65, 1] (by simp)
    rw [wrapper_eq _ _ _ G1 _ 0 (-65) [0] 1 2 (by rw [hfl1]; norm_num)
      (by rw [hfl1]; norm_num) hG1 (by rw [hfl1]; simp) (by rw [hfl1]; simp)]
    simp [rowAt]
  · apply wrapper_fault_of_long_input
    · rw [hfl2]; norm_num
    · rw [hfl2]; norm_num
    · simp
    · rw [hfl2, List.length_replicate]; decide

/-- C4.  An array returned by the exported operation has exactly as many
elements as the current trace `I` (first part, all inputs); and the operation
does return one whenever the run is within bounds: `1 ≤ floor(tfin/dt)` fits an
`int`, the eight parameters are present and `I` has `floor(tfin/dt) - 1` or
`floor(tfin/dt)` samples (second part). -/
theorem wrapper_length_eq_input_length {α : Type} [LinearOrderedField α] [FloorRing α]
    (L : Libm α) (normal : Int → Nat → α)
    (G : Globals α) (parameters : List α) (random_seed : Int) (V0 : α) (I : List α)
    (dt tfin : α) :
    (∀ G1 out, wrapper L normal G parameters random_seed V0 I dt tfin = some (G1, out) →
      out.length = I.length) ∧
    (1 ≤ ⌊tfin / dt⌋ → ⌊tfin / dt⌋ ≤ 2147483647 → 8 ≤ parameters.length →
      ⌊tfin / dt⌋.toNat - 1 ≤ I.length → I.length ≤ ⌊tfin / dt⌋.toNat →
      ∃ G1 out, wrapper L normal G parameters random_seed V0 I dt tfin = some (G1, out) ∧
        out.length = I.length) := by
  refine ⟨fun G1 out h =>
    wrapper_length L normal G parameters random_seed V0 I dt tfin G1 out h, ?_⟩
  intro hN1 hN2 hp hI hI2
  obtain ⟨G1, hG1, -⟩ := assignGlobals_eq G parameters hp
  refine ⟨G1, _, wrapper_eq L normal G G1 parameters random_seed V0 I dt tfin hN1 hN2 hG1
    hI hI2, ?_⟩
  simp

/-- C4, an instance: three samples, `dt = 1`, `tfin = 3` return three values. -/
theorem wrapper_length_eq_input_length_witness :
    ∃ G1 out, wrapper (⟨Real.exp, Real.rpow⟩ : Libm ℝ) (fun _ _ => 0) Globals.zeroInit
        [50, 50, 0, 0.1, 100, -60, -65, 1] 0 (-65) [0, 0, 0] 1 3 = some (G1, out) ∧
      out.length = ([0, 0, 0] : List ℝ).length :=
  (wrapper_length_eq_input_length (⟨Real.exp, Real.rpow⟩ : Libm ℝ) (fun _ _ => 0)
    Globals.zeroInit [50, 50, 0, 0.1, 100, -60, -65, 1] 0 (-65) [0, 0, 0] 1 3).2
    (by norm_num) (by norm_num) (by simp) (by norm_num) (by norm_num)

/-- C5 (amended).  When `1 ≤ floor(tfin/dt)` fits an `int`, the eight
parameters are present and `I` has at least `floor(tfin/dt)` samples, `runHH`
returns a block of `floor(tfin/dt)` cells whose cell 0 holds `V0`, whatever the
parameters, the seed, the noise, the prior globals and `I` are.  If `I` has
exactly `floor(tfin/dt)` samples, the array returned by the exported operation
starts with `V0`. -/
theorem runHH_first_sample {α : Type} [LinearOrderedField α] [FloorRing α]
    (L : Libm α) (normal : Int → Nat → α)
    (G : Globals α) (parameters : List α) (random_seed : Int) (V0 : α) (I : List α)
    (dt tfin : α) (_hdt : 0 < dt) (_htfin : 0 < tfin)
    (hN1 : 1 ≤ ⌊tfin / dt⌋) (hN2 : ⌊tfin / dt⌋ ≤ 2147483647)
    (hp : 8 ≤ parameters.length) (hI : ⌊tfin / dt⌋ ≤ (I.length : ℤ)) :
    (∃ G1 V, runHH L normal G parameters random_seed V0 I dt tfin = some (G1, V) ∧
      (V.length : ℤ) = ⌊tfin / dt⌋ ∧ Block.load V 0 = some V0) ∧
    ((I.length : ℤ) = ⌊tfin / dt⌋ →
      ∃ G1 out, wrapper L normal G parameters random_seed V0 I dt tfin = some (G1, out) ∧
        out.head? = some V0) := by
  obtain ⟨G1, hG1, -⟩ := assignGlobals_eq G parameters hp
  refine ⟨⟨G1, _, runHH_eq L normal G G1 parameters random_seed V0 I dt tfin hN1 hN2 hG1
    (by omega), ?_, ?_⟩, ?_⟩
  · rw [blk_length _ _ _ le_rfl]; omega
  · rw [load_blk _ _ _ _ le_rfl (by omega)]
    rfl
  · intro hIeq
    refine ⟨G1, _, wrapper_eq L normal G G1 parameters random_seed V0 I dt tfin hN1 hN2 hG1
      (by omega) (by omega), ?_⟩
    obtain ⟨k, hk⟩ : ∃ k, I.length = k + 1 := ⟨I.length - 1, by omega⟩
    rw [hk, List.range'_succ]
    rfl

/-- C5, an instance of the amended claim. -/
theorem runHH_first_sample_witness :
    ∃ G1 V, runHH (⟨Real.exp, Real.rpow⟩ : Libm ℝ) (fun _ _ => 0) Globals.zeroInit
        [50, 50, 0, 0.1, 100, -60, -65, 1] 0 (-65) [0, 0, 0] 1 3 = some (G1, V) ∧
      (V.length : ℤ) = ⌊(3 : ℝ) / 1⌋ ∧ Block.load V 0 = some (-65) :=
  And.left <| runHH_first_sample (⟨Real.exp, Real.rpow⟩ : Libm ℝ) (fun _ _ => 0) Globals.zeroInit
    [50, 50, 0, 0.1, 100, -60, -65, 1] 0 (-65) [0, 0, 0] 1 3
    (by norm_num) (by norm_num) (by norm_num) (by norm_num) (by simp) (by norm_num)

/-- C5 as stated fails.  `dt = 1`, `tfin = 1/2` and the empty current trace are
a valid input in the sense of the claim (`dt > 0`, `tfin > 0`,
`len(I) ≥ floor(tfin/dt) = 0`), but `size` is 0 and the write `V[0] = V0` falls
outside the block: no trace is returned, so there is no first element. -/
theorem runHH_no_first_sample :
    (0 : ℝ) < 1 ∧ (0 : ℝ) < 1 / 2 ∧ ⌊(1 / 2 : ℝ) / 1⌋ = 0 ∧
    ⌊(1 / 2 : ℝ) / 1⌋ ≤ ((([] : List ℝ).length : ℕ) : ℤ) ∧
    runHH (⟨Real.exp, Real.rpow⟩ : Libm ℝ) (fun _ _ => 0) Globals.zeroInit
        [50, 50, 0, 0.1, 100, -60, -65, 1] 0 (-65) [] 1 (1 / 2) = none ∧
    wrapper (⟨Real.exp, Real.rpow⟩ : Libm ℝ) (fun _ _ => 0) Globals.zeroInit
        [50, 50, 0, 0.1, 100, -60, -65, 1] 0 (-65) [] 1 (1 / 2) = none := by
  have hfl : ⌊(1 / 2 : ℝ) / 1⌋ = 0 := by
    rw [Int.floor_eq_iff]; norm_num
  have hrun : runHH (⟨Real.exp, Real.rpow⟩ : Libm ℝ) (fun _ _ => 0) Globals.zeroInit
      [50, 50, 0, 0.1, 100, -60, -65, 1] 0 (-65) [] 1 (1 / 2) = none :=
    runHH_fault _ _ _ _ _ _ _ _ _ (by norm_num) (by norm_num)
  refine ⟨by norm_num, by norm_num, hfl, by rw [hfl]; simp, hrun, ?_⟩
  simp only [wrapper, hrun, Option.bind_eq_bind, Option.none_bind]

/-! ## The update rules -/

theorem rpow_three (x : ℝ) : Real.rpow x 3 = x ^ 3 := by
  rw [Real.rpow_eq_pow, ← Real.rpow_natCast]; norm_num

theorem rpow_four (x : ℝ) : Real.rpow x 4 = x ^ 4 := by
  rw [Real.rpow_eq_pow, ← Real.rpow_natCast]; norm_num

theorem rpow_half (x : ℝ) : Real.rpow x 0.5 = √x := by
  rw [Real.rpow_eq_pow, Real.sqrt_eq_rpow]; norm_num

/-- C6.  In a run of `runHH` over the reals that stays within bounds
(`1 ≤ floor(tfin/dt)` fits an `int`, eight parameters, at least
`floor(tfin/dt) - 1` current samples) the call returns, the globals used by the
loop are the parameters, and for every index `1 ≤ i < N` the cell `V[i]` holds
`V_inf + (V[i-1] - V_inf) * exp(-dt * tau_V_inv)` with
`tau_V_inv = (m[i-1]^3 gbar_Na h[i-1] + n[i-1]^4 gbar_K + g_leak + gbar_M p[i-1]) / 1`
and `V_inf` the reversal-potential sum plus `I[i-1]` plus `0.1 * xi_i / sqrt dt`,
divided by `tau_V_inv * 1`, where `xi_i` is the `i`-th normal draw. -/
theorem runHH_voltage_step (normal : Int → Nat → ℝ) (G : Globals ℝ) (parameters : List ℝ)
    (random_seed : Int) (V0 : ℝ) (I : List ℝ) (dt tfin : ℝ)
    (hN1 : 1 ≤ ⌊tfin / dt⌋) (hN2 : ⌊tfin / dt⌋ ≤ 2147483647)
    (hp : 8 ≤ parameters.length) (hI : ⌊tfin / dt⌋.toNat - 1 ≤ I.length) :
    ∃ G1 mem,
      runHH_state (⟨Real.exp, Real.rpow⟩ : Libm ℝ) normal G parameters random_seed V0 I dt tfin
        = some (G1, mem) ∧
      runHH (⟨Real.exp, Real.rpow⟩ : Libm ℝ) normal G parameters random_seed V0 I dt tfin
        = some (G1, mem.V) ∧
      parameters[0]? = some G1.gbar_Na ∧ parameters[1]? = some G1.gbar_K ∧
      parameters[2]? = some G1.gbar_M ∧ parameters[3]? = some G1.g_leak ∧
      parameters[6]? = some G1.E_leak ∧
      ∀ i : Nat, 1 ≤ i → i < ⌊tfin / dt⌋.toNat →
        ∃ V1 n1 m1 h1 p1 I1 : ℝ,
          Block.load mem.V (i - 1) = some V1 ∧ Block.load mem.n (i - 1) = some n1 ∧
          Block.load mem.m (i - 1) = some m1 ∧ Block.load mem.h (i - 1) = some h1 ∧
          Block.load mem.p (i - 1) = some p1 ∧ I[i - 1]? = some I1 ∧
          Block.load mem.V i = some (
            let g := m1 ^ 3 * G1.gbar_Na * h1 + n1 ^ 4 * G1.gbar_K + G1.g_leak
              + G1.gbar_M * p1
            let tau_V_inv := g / 1
            let V_inf := (m1 ^ 3 * G1.gbar_Na * h1 * 53 + n1 ^ 4 * G1.gbar_K * (-90)
              + G1.g_leak * G1.E_leak + G1.gbar_M * p1 * (-90) + I1
              + 0.1 * normal random_seed i / √dt) / (tau_V_inv * 1)
            V_inf + (V1 - V_inf) * Real.exp (-dt * tau_V_inv)) := by
  obtain ⟨G1, hG1, h0, h1, h2, h3, -, -, h6, -, -⟩ := assignGlobals_eq G parameters hp
  have hrun := runHH_state_eq (⟨Real.exp, Real.rpow⟩ : Libm ℝ) normal G G1 parameters
    random_seed V0 I dt tfin hN1 hN2 hG1 hI
  refine ⟨G1, _, hrun, ?_, h0, h1, h2, h3, h6, ?_⟩
  · rw [runHH, hrun]; rfl
  · intro i hi1 hi2
    obtain ⟨k, rfl⟩ : ∃ k, i = k + 1 := ⟨i - 1, by omega⟩
    have hk : k < I.length := by omega
    refine ⟨_, _, _, _, _, I.getD k 0, load_blk _ _ _ _ le_rfl (by omega),
      load_blk _ _ _ _ le_rfl (by omega), load_blk _ _ _ _ le_rfl (by omega),
      load_blk _ _ _ _ le_rfl (by omega), load_blk _ _ _ _ le_rfl (by omega), ?_, ?_⟩
    · rw [Nat.add_sub_cancel, List.getD_eq_getElem?_getD, List.getElem?_eq_getElem hk]
      rfl
    · simp only [memAt, Nat.add_sub_cancel]
      rw [load_blk _ _ _ _ le_rfl hi2]
      simp only [rowAt, V_next, rpow_three, rpow_four, rpow_half, C, E_Na, E_K, nois_fact]
      norm_num

/-- C6, an instance: the spec's example parameters, three steps. -/
theorem runHH_voltage_step_witness :
    ∃ G1 mem,
      runHH_state (⟨Real.exp, Real.rpow⟩ : Libm ℝ) (fun _ _ => 0) Globals.zeroInit
        [50, 50, 0, 0.1, 100, -60, -65, 1] 0 (-65) [0, 0, 0] 1 3 = some (G1, mem) ∧
      runHH (⟨Real.exp, Real.rpow⟩ : Libm ℝ) (fun _ _ => 0) Globals.zeroInit
        [50, 50, 0, 0.1, 100, -60, -65, 1] 0 (-65) [0, 0, 0] 1 3 = some (G1, mem.V) ∧
      ([50, 50, 0, 0.1, 100, -60, -65, 1] : List ℝ)[0]? = some G1.gbar_Na ∧
      ([50, 50, 0, 0.1, 100, -60, -65, 1] : List ℝ)[1]? = some G1.gbar_K ∧
      ([50, 50, 0, 0.1, 100, -60, -65, 1] : List ℝ)[2]? = some G1.gbar_M ∧
      ([50, 50, 0, 0.1, 100, -60, -65, 1] : List ℝ)[3]? = some G1.g_leak ∧
      ([50, 50, 0, 0.1, 100, -60, -65, 1] : List ℝ)[6]? = some G1.E_leak ∧
      ∀ i : Nat, 1 ≤ i → i < ⌊(3 : ℝ) / 1⌋.toNat →
        ∃ V1 n1 m1 h1 p1 I1 : ℝ,
          Block.load mem.V (i - 1) = some V1 ∧ Block.load mem.n (i - 1) = some n1 ∧
          Block.load mem.m (i - 1) = some m1 ∧ Block.load mem.h (i - 1) = some h1 ∧
          Block.load mem.p (i - 1) = some p1 ∧ ([0, 0, 0] : List ℝ)[i - 1]? = some I1 ∧
          Block.load mem.V i = some (
            let g := m1 ^ 3 * G1.gbar_Na * h1 + n1 ^ 4 * G1.gbar_K + G1.g_leak
              + G1.gbar_M * p1
            let tau_V_inv := g / 1
            let V_inf := (m1 ^ 3 * G1.gbar_Na * h1 * 53 + n1 ^ 4 * G1.gbar_K * (-90)
              + G1.g_leak * G1.E_leak + G1.gbar_M * p1 * (-90) + I1
              + 0.1 * (fun _ _ => (0 : ℝ)) (0 : Int) i / √(1 : ℝ)) / (tau_V_inv * 1)
            V_inf + (V1 - V_inf) * Real.exp (-(1 : ℝ) * tau_V_inv)) :=
  runHH_voltage_step (fun _ _ => 0) Globals.zeroInit [50, 50, 0, 0.1, 100, -60, -65, 1]
    0 (-65) [0, 0, 0] 1 3 (by norm_num) (by norm_num) (by simp) (by norm_num)

theorem T_adj_factor_real :
    T_adj_factor (⟨Real.exp, Real.rpow⟩ : Libm ℝ) = (3 : ℝ) ^ (((34 : ℝ) - 36) / 10) := by
  simp only [T_adj_factor, Q10, T_1, T_2, Real.rpow_eq_pow]
  norm_num

/-- C7.  In a run of `runHH` over the reals that stays within bounds, for every
index `1 ≤ i < N` and each gating array `x` among `n`, `m`, `h`, `p` the cell
`x[i]` holds `x_inf(V[i]) + (x[i-1] - x_inf(V[i])) * exp(-dt * T / tau_x(V[i]))`,
where the steady state and the time constant are taken at the new voltage
`V[i]` under the globals assigned from the parameters, and
`T = 3 ^ ((34 - 36) / 10)` is the same for the four variables. -/
theorem runHH_gating_step (normal : Int → Nat → ℝ) (G : Globals ℝ) (parameters : List ℝ)
    (random_seed : Int) (V0 : ℝ) (I : List ℝ) (dt tfin : ℝ)
    (hN1 : 1 ≤ ⌊tfin / dt⌋) (hN2 : ⌊tfin / dt⌋ ≤ 2147483647)
    (hp : 8 ≤ parameters.length) (hI : ⌊tfin / dt⌋.toNat - 1 ≤ I.length) :
    ∃ G1 mem,
      runHH_state (⟨Real.exp, Real.rpow⟩ : Libm ℝ) normal G parameters random_seed V0 I dt tfin
        = some (G1, mem) ∧
      parameters[4]? = some G1.tau_max ∧ parameters[5]? = some G1.Vt ∧
      parameters[7]? = some G1.rate_to_SS_factor ∧
      ∀ i : Nat, 1 ≤ i → i < ⌊tfin / dt⌋.toNat →
        ∃ Vi n1 m1 h1 p1 : ℝ,
          Block.load mem.V i = some Vi ∧ Block.load mem.n (i - 1) = some n1 ∧
          Block.load mem.m (i - 1) = some m1 ∧ Block.load mem.h (i - 1) = some h1 ∧
          Block.load mem.p (i - 1) = some p1 ∧
          Block.load mem.n i = some (
            n_inf ⟨Real.exp, Real.rpow⟩ G1 Vi + (n1 - n_inf ⟨Real.exp, Real.rpow⟩ G1 Vi)
              * Real.exp (-dt * (3 : ℝ) ^ (((34 : ℝ) - 36) / 10)
                  / tau_n ⟨Real.exp, Real.rpow⟩ G1 Vi)) ∧
          Block.load mem.m i = some (
            m_inf ⟨Real.exp, Real.rpow⟩ G1 Vi + (m1 - m_inf ⟨Real.exp, Real.rpow⟩ G1 Vi)
              * Real.exp (-dt * (3 : ℝ) ^ (((34 : ℝ) - 36) / 10)
                  / tau_m ⟨Real.exp, Real.rpow⟩ G1 Vi)) ∧
          Block.load mem.h i = some (
            h_inf ⟨Real.exp, Real.rpow⟩ G1 Vi + (h1 - h_inf ⟨Real.exp, Real.rpow⟩ G1 Vi)
              * Real.exp (-dt * (3 : ℝ) ^ (((34 : ℝ) - 36) / 10)
                  / tau_h ⟨Real.exp, Real.rpow⟩ G1 Vi)) ∧
          Block.load mem.p i = some (
            p_inf ⟨Real.exp, Real.rpow⟩ Vi + (p1 - p_inf ⟨Real.exp, Real.rpow⟩ Vi)
              * Real.exp (-dt * (3 : ℝ) ^ (((34 : ℝ) - 36) / 10)
                  / tau_p ⟨Real.exp, Real.rpow⟩ G1 Vi)) := by
  obtain ⟨G1, hG1, -, -, -, -, h4, h5, -, h7, -⟩ := assignGlobals_eq G parameters hp
  have hrun := runHH_state_eq (⟨Real.exp, Real.rpow⟩ : Libm ℝ) normal G G1 parameters
    random_seed V0 I dt tfin hN1 hN2 hG1 hI
  refine ⟨G1, _, hrun, h4, h5, h7, ?_⟩
  intro i hi1 hi2
  obtain ⟨k, rfl⟩ : ∃ k, i = k + 1 := ⟨i - 1, by omega⟩
  refine ⟨_, _, _, _, _, load_blk _ _ _ _ le_rfl hi2,
    load_blk _ _ _ _ le_rfl (by omega), load_blk _ _ _ _ le_rfl (by omega),
    load_blk _ _ _ _ le_rfl (by omega), load_blk _ _ _ _ le_rfl (by omega), ?_, ?_, ?_, ?_⟩
  all_goals
    simp only [memAt, Nat.add_sub_cancel]
    rw [load_blk _ _ _ _ le_rfl hi2]
    simp only [rowAt, gate_next, T_adj_factor_real]

/-- C7, an instance: the spec's example parameters, three steps. -/
theorem runHH_gating_step_witness :
    ∃ G1 mem,
      runHH_state (⟨Real.exp, Real.rpow⟩ : Libm ℝ) (fun _ _ => 0) Globals.zeroInit
        [50, 50, 0, 0.1, 100, -60, -65, 1] 0 (-65) [0, 0, 0] 1 3 = some (G1, mem) ∧
      ([50, 50, 0, 0.1, 100, -60, -65, 1] : List ℝ)[4]? = some G1.tau_max ∧
      ([50, 50, 0, 0.1, 100, -60, -65, 1] : List ℝ)[5]? = some G1.Vt ∧
      ([50, 50, 0, 0.1, 100, -60, -65, 1] : List ℝ)[7]? = some G1.rate_to_SS_factor ∧
      ∀ i : Nat, 1 ≤ i → i < ⌊(3 : ℝ) / 1⌋.toNat →
        ∃ Vi n1 m1 h1 p1 : ℝ,
          Block.load mem.V i = some Vi ∧ Block.load mem.n (i - 1) = some n1 ∧
          Block.load mem.m (i - 1) = some m1 ∧ Block.load mem.h (i - 1) = some h1 ∧
          Block.load mem.p (i - 1) = some p1 ∧
          Block.load mem.n i = some (
            n_inf ⟨Real.exp, Real.rpow⟩ G1 Vi + (n1 - n_inf ⟨Real.exp, Real.rpow⟩ G1 Vi)
              * Real.exp (-(1 : ℝ) * (3 : ℝ) ^ (((34 : ℝ) - 36) / 10)
                  / tau_n ⟨Real.exp, Real.rpow⟩ G1 Vi)) ∧
          Block.load mem.m i = some (
            m_inf ⟨Real.exp, Real.rpow⟩ G1 Vi + (m1 - m_inf ⟨Real.exp, Real.rpow⟩ G1 Vi)
              * Real.exp (-(1 : ℝ) * (3 : ℝ) ^ (((34 : ℝ) - 36) / 10)
                  / tau_m ⟨Real.exp, Real.rpow⟩ G1 Vi)) ∧
          Block.load mem.h i = some (
            h_inf ⟨Real.exp, Real.rpow⟩ G1 Vi + (h1 - h_inf ⟨Real.exp, Real.rpow⟩ G1 Vi)
              * Real.exp (-(1 : ℝ) * (3 : ℝ) ^ (((34 : ℝ) - 36) / 10)
                  / tau_h ⟨Real.exp, Real.rpow⟩ G1 Vi)) ∧
          Block.load mem.p i = some (
            p_inf ⟨Real.exp, Real.rpow⟩ Vi + (p1 - p_inf ⟨Real.exp, Real.rpow⟩ Vi)
              * Real.exp (-(1 : ℝ) * (3 : ℝ) ^ (((34 : ℝ) - 36) / 10)
                  / tau_p ⟨Real.exp, Real.rpow⟩ G1 Vi)) :=
  runHH_gating_step (fun _ _ => 0) Globals.zeroInit [50, 50, 0, 0.1, 100, -60, -65, 1]
    0 (-65) [0, 0, 0] 1 3 (by norm_num) (by norm_num) (by simp) (by norm_num)

/-! ## Kinetics -/

/-- C8.  Over the reals `efun z` is `1 - z/2` when `|z| < 0.0001` and
`z / (exp z - 1)` otherwise, the denominator being non-zero on that branch; and
`efun 0 = 1`. -/
theorem efun_spec (z : ℝ) :
    (|z| < 0.0001 → efun (⟨Real.exp, Real.rpow⟩ : Libm ℝ) z = 1 - z / 2) ∧
    (¬ |z| < 0.0001 →
      efun (⟨Real.exp, Real.rpow⟩ : Libm ℝ) z = z / (Real.exp z - 1) ∧ Real.exp z - 1 ≠ 0) ∧
    efun (⟨Real.exp, Real.rpow⟩ : Libm ℝ) 0 = 1 := by
  refine ⟨fun h => ?_, fun h => ⟨?_, ?_⟩, ?_⟩
  · simp only [efun, if_pos h]
  · simp only [efun, if_neg h]
  · have hz : z ≠ 0 := by
      rintro rfl
      apply h
      norm_num
    intro h0
    have h1 : Real.exp z = 1 := by linarith
    exact hz (Real.exp_eq_one_iff z |>.mp h1)
  · have h : |(0 : ℝ)| < 0.0001 := by norm_num
    simp only [efun, if_pos h]
    norm_num

/-- C8, instances on both branches: `z = 0.00005` and `z = 1`. -/
theorem efun_spec_witness :
    efun (⟨Real.exp, Real.rpow⟩ : Libm ℝ) 0.00005 = 1 - 0.00005 / 2 ∧
    (efun (⟨Real.exp, Real.rpow⟩ : Libm ℝ) 1 = 1 / (Real.exp 1 - 1) ∧ Real.exp 1 - 1 ≠ 0) :=
  ⟨(efun_spec 0.00005).1 (by rw [abs_of_pos (by norm_num)]; norm_num),
    (efun_spec 1).2.1 (by rw [abs_one]; norm_num)⟩

/-- C9.  For `x` among `m`, `h`, `n`: `x_inf = alpha_x / (alpha_x + beta_x)` and
`tau_x = rate_to_SS_factor / (alpha_x + beta_x)`; the six rates are the stated
functions of `v - Vt - offset` with offsets 13, 40, 17, 40, 15, 10; hence rates
and steady states agree at any two (voltage, globals) pairs with the same
`v - Vt`, and so do the time constants if `rate_to_SS_factor` agrees too. -/
theorem kinetics_pairs {α : Type} [LinearOrderedField α] (L : Libm α) (G : Globals α)
    (v : α) :
    (m_inf L G v = alpha_m L G v / (alpha_m L G v + beta_m L G v) ∧
     h_inf L G v = alpha_h L G v / (alpha_h L G v + beta_h L G v) ∧
     n_inf L G v = alpha_n L G v / (alpha_n L G v + beta_n L G v)) ∧
    (tau_m L G v = G.rate_to_SS_factor / (alpha_m L G v + beta_m L G v) ∧
     tau_h L G v = G.rate_to_SS_factor / (alpha_h L G v + beta_h L G v) ∧
     tau_n L G v = G.rate_to_SS_factor / (alpha_n L G v + beta_n L G v)) ∧
    (alpha_m L G v = 0.32 * efun L (-0.25 * (v - G.Vt - 13)) / 0.25 ∧
     beta_m L G v = 0.28 * efun L (0.2 * (v - G.Vt - 40)) / 0.2 ∧
     alpha_h L G v = 0.128 * L.exp (-(v - G.Vt - 17) / 18) ∧
     beta_h L G v = 4 / (1 + L.exp (-0.2 * (v - G.Vt - 40))) ∧
     alpha_n L G v = 0.032 * efun L (-0.2 * (v - G.Vt - 15)) / 0.2 ∧
     beta_n L G v = 0.5 * L.exp (-(v - G.Vt - 10) / 40)) ∧
    (∀ (G2 : Globals α) (v2 : α), v2 - G2.Vt = v - G.Vt →
      (alpha_m L G2 v2 = alpha_m L G v ∧ beta_m L G2 v2 = beta_m L G v ∧
       alpha_h L G2 v2 = alpha_h L G v ∧ beta_h L G2 v2 = beta_h L G v ∧
       alpha_n L G2 v2 = alpha_n L G v ∧ beta_n L G2 v2 = beta_n L G v) ∧
      (m_inf L G2 v2 = m_inf L G v ∧ h_inf L G2 v2 = h_inf L G v ∧
       n_inf L G2 v2 = n_inf L G v) ∧
      (G2.rate_to_SS_factor = G.rate_to_SS_factor →
        tau_m L G2 v2 = tau_m L G v ∧ tau_h L G2 v2 = tau_h L G v ∧
        tau_n L G2 v2 = tau_n L G v)) := by
  have h13 : (13.0 : α) = 13 := by norm_num
  have h40 : (40.0 : α) = 40 := by norm_num
  have h17 : (17.0 : α) = 17 := by norm_num
  have h18 : (18.0 : α) = 18 := by norm_num
  have h10 : (10.0 : α) = 10 := by norm_num
  have h4 : (4.0 : α) = 4 := by norm_num
  have h1 : (1.0 : α) = 1 := by norm_num
  refine ⟨⟨rfl, rfl, rfl⟩, ⟨?_, ?_, ?_⟩, ⟨?_, ?_, ?_, ?_, ?_, ?_⟩, ?_⟩
  · simp only [tau_m, h1, mul_one]
  · simp only [tau_h, h1, mul_one]
  · simp only [tau_n, h1, mul_one]
  · simp only [alpha_m, h13]
  · simp only [beta_m, h40]
  · simp only [alpha_h, h17, h18]
  · simp only [beta_h, h40, h4]
  · simp only [alpha_n]
  · simp only [beta_n, h10]
  · intro G2 v2 hv
    have ham : alpha_m L G2 v2 = alpha_m L G v := by simp only [alpha_m, hv]
    have hbm : beta_m L G2 v2 = beta_m L G v := by simp only [beta_m, hv]
    have hah : alpha_h L G2 v2 = alpha_h L G v := by simp only [alpha_h, hv]
    have hbh : beta_h L G2 v2 = beta_h L G v := by simp only [beta_h, hv]
    have han : alpha_n L G2 v2 = alpha_n L G v := by simp only [alpha_n, hv]
    have hbn : beta_n L G2 v2 = beta_n L G v := by simp only [beta_n, hv]
    refine ⟨⟨ham, hbm, hah, hbh, han, hbn⟩, ⟨?_, ?_, ?_⟩, fun hr => ⟨?_, ?_, ?_⟩⟩
    · simp only [m_inf, ham, hbm]
    · simp only [h_inf, hah, hbh]
    · simp only [n_inf, han, hbn]
    · simp only [tau_m, ham, hbm, hr]
    · simp only [tau_h, hah, hbh, hr]
    · simp only [tau_n, han, hbn, hr]

/-- C9, an instance: shifting the voltage and `Vt` by 5 mV leaves the steady
states and, with the same `rate_to_SS_factor`, the time constants unchanged. -/
theorem kinetics_pairs_witness :
    (m_inf (⟨Real.exp, Real.rpow⟩ : Libm ℝ) ⟨50, 50, 0, 0.1, 100, -55, -65, 0, 1⟩ (-60)
        = m_inf ⟨Real.exp, Real.rpow⟩ ⟨50, 50, 0, 0.1, 100, -60, -65, 0, 1⟩ (-65) ∧
     h_inf (⟨Real.exp, Real.rpow⟩ : Libm ℝ) ⟨50, 50, 0, 0.1, 100, -55, -65, 0, 1⟩ (-60)
        = h_inf ⟨Real.exp, Real.rpow⟩ ⟨50, 50, 0, 0.1, 100, -60, -65, 0, 1⟩ (-65) ∧
     n_inf (⟨Real.exp, Real.rpow⟩ : Libm ℝ) ⟨50, 50, 0, 0.1, 100, -55, -65, 0, 1⟩ (-60)
        = n_inf ⟨Real.exp, Real.rpow⟩ ⟨50, 50, 0, 0.1, 100, -60, -65, 0, 1⟩ (-65)) ∧
    (tau_m (⟨Real.exp, Real.rpow⟩ : Libm ℝ) ⟨50, 50, 0, 0.1, 100, -55, -65, 0, 1⟩ (-60)
        = tau_m ⟨Real.exp, Real.rpow⟩ ⟨50, 50, 0, 0.1, 100, -60, -65, 0, 1⟩ (-65) ∧
     tau_h (⟨Real.exp, Real.rpow⟩ : Libm ℝ) ⟨50, 50, 0, 0.1, 100, -55, -65, 0, 1⟩ (-60)
        = tau_h ⟨Real.exp, Real.rpow⟩ ⟨50, 50, 0, 0.1, 100, -60, -65, 0, 1⟩ (-65) ∧
     tau_n (⟨Real.exp, Real.rpow⟩ : Libm ℝ) ⟨50, 50, 0, 0.1, 100, -55, -65, 0, 1⟩ (-60)
        = tau_n ⟨Real.exp, Real.rpow⟩ ⟨50, 50, 0, 0.1, 100, -60, -65, 0, 1⟩ (-65)) :=
  have h := (kinetics_pairs (⟨Real.exp, Real.rpow⟩ : Libm ℝ)
    ⟨50, 50, 0, 0.1, 100, -60, -65, 0, 1⟩ (-65)).2.2.2
    ⟨50, 50, 0, 0.1, 100, -55, -65, 0, 1⟩ (-60) (by norm_num)
  ⟨h.2.1, h.2.2 rfl⟩

/-- C10 (amended).  `rate_to_SS_factor` scales the time constants of `m`, `h`
and `n`: `tau_x` computed with the factor `r` is `r` times `tau_x` computed
with the factor 1.  The time constant `tau_p` of the slow channel does not read
`rate_to_SS_factor`: it is the same for every value of the factor. -/
theorem tau_scaling {α : Type} [LinearOrderedField α] (L : Libm α) (G : Globals α)
    (v r : α) :
    tau_m L { G with rate_to_SS_factor := r } v
      = r * tau_m L { G with rate_to_SS_factor := 1 } v ∧
    tau_h L { G with rate_to_SS_factor := r } v
      = r * tau_h L { G with rate_to_SS_factor := 1 } v ∧
    tau_n L { G with rate_to_SS_factor := r } v
      = r * tau_n L { G with rate_to_SS_factor := 1 } v ∧
    tau_p L { G with rate_to_SS_factor := r } v
      = tau_p L { G with rate_to_SS_factor := 1 } v := by
  have h1 : (1.0 : α) = 1 := by norm_num
  refine ⟨?_, ?_, ?_, rfl⟩
  · simp only [tau_m, h1, mul_one, mul_one_div]
    rfl
  · simp only [tau_h, h1, mul_one, mul_one_div]
    rfl
  · simp only [tau_n, h1, mul_one, mul_one_div]
    rfl

/-- C10 as stated fails for `p`.  With `tau_max = 100` and `v = -35` the time
constant `tau_p` is `100 / 4.3` whether `rate_to_SS_factor` is 2 or 1, so it is
not twice its value at factor 1. -/
theorem tau_p_not_scaled :
    tau_p (⟨Real.exp, Real.rpow⟩ : Libm ℝ) ⟨50, 50, 0, 0.1, 100, -60, -65, 0, 2⟩ (-35)
        = 100 / 4.3 ∧
    tau_p (⟨Real.exp, Real.rpow⟩ : Libm ℝ) ⟨50, 50, 0, 0.1, 100, -60, -65, 0, 1⟩ (-35)
        = 100 / 4.3 ∧
    tau_p (⟨Real.exp, Real.rpow⟩ : Libm ℝ) ⟨50, 50, 0, 0.1, 100, -60, -65, 0, 2⟩ (-35)
      ≠ 2 * tau_p (⟨Real.exp, Real.rpow⟩ : Libm ℝ) ⟨50, 50, 0, 0.1, 100, -60, -65, 0, 1⟩
          (-35) := by
  have h2 : tau_p (⟨Real.exp, Real.rpow⟩ : Libm ℝ) ⟨50, 50, 0, 0.1, 100, -60, -65, 0, 2⟩
      (-35) = 100 / 4.3 := by
    simp only [tau_p]
    norm_num
  have h1 : tau_p (⟨Real.exp, Real.rpow⟩ : Libm ℝ) ⟨50, 50, 0, 0.1, 100, -60, -65, 0, 1⟩
      (-35) = 100 / 4.3 := by
    simp only [tau_p]
    norm_num
  refine ⟨h2, h1, ?_⟩
  rw [h2, h1]
  norm_num

/-! ## Dependence on the globals left by an earlier call -/

theorem frac_lt_frac {a1 b1 a2 b2 : ℝ} (ha1 : 0 < a1) (hb2 : 0 < b2)
    (ha : a1 < a2) (hb : b2 < b1) : a1 / (a1 + b1) < a2 / (a2 + b2) := by
  have hb1 : 0 < b1 := hb2.trans hb
  have ha2 : 0 < a2 := ha1.trans ha
  rw [div_lt_div_iff₀ (by positivity) (by positivity)]
  nlinarith [mul_pos ha1 hb2, mul_lt_mul_of_pos_right ha hb1, mul_lt_mul_of_pos_left hb ha1]

theorem efun_of_large (z : ℝ) (hz : 0.0001 ≤ |z|) :
    efun (⟨Real.exp, Real.rpow⟩ : Libm ℝ) z = z / (Real.exp z - 1) := by
  simp only [efun, if_neg (not_lt.mpr hz)]

theorem efun_16_lt_efun_4 :
    efun (⟨Real.exp, Real.rpow⟩ : Libm ℝ) 16 < efun (⟨Real.exp, Real.rpow⟩ : Libm ℝ) 4
      ∧ 0 < efun (⟨Real.exp, Real.rpow⟩ : Libm ℝ) 16 := by
  rw [efun_of_large 16 (by rw [abs_of_pos (by norm_num)]; norm_num),
    efun_of_large 4 (by rw [abs_of_pos (by norm_num)]; norm_num)]
  have ht : 1 < Real.exp 4 := Real.one_lt_exp_iff.mpr (by norm_num)
  have h16 : Real.exp 16 = Real.exp 4 ^ 4 := by
    rw [← Real.exp_nat_mul]; norm_num
  have ht4 : 1 < Real.exp 4 ^ 4 := one_lt_pow₀ ht (by norm_num)
  rw [h16]
  constructor
  · rw [div_lt_div_iff₀ (by linarith) (by linarith)]
    nlinarith [mul_pos (sq_pos_of_pos (sub_pos.mpr ht))
      (by positivity : (0 : ℝ) < Real.exp 4 ^ 2 + 2 * Real.exp 4 + 3)]
  · exact div_pos (by norm_num) (by linarith)

/-- At `V0 = -65` the steady state `n_inf` computed with `Vt = 0` is positive and
smaller than the one computed with `Vt = -60`. -/
theorem n_inf_stale (G Gp : Globals ℝ) (hG : G.Vt = 0) (hGp : Gp.Vt = -60) :
    0 < n_inf (⟨Real.exp, Real.rpow⟩ : Libm ℝ) G (-65) ∧
    n_inf (⟨Real.exp, Real.rpow⟩ : Libm ℝ) G (-65)
      < n_inf (⟨Real.exp, Real.rpow⟩ : Libm ℝ) Gp (-65) := by
  obtain ⟨hlt, hpos⟩ := efun_16_lt_efun_4
  have e1 : (-0.2 : ℝ) * (-65 - 0 - 15) = 16 := by norm_num
  have e2 : (-0.2 : ℝ) * (-65 - -60 - 15) = 4 := by norm_num
  have ha1 : alpha_n (⟨Real.exp, Real.rpow⟩ : Libm ℝ) G (-65)
      = 0.032 * efun (⟨Real.exp, Real.rpow⟩ : Libm ℝ) 16 / 0.2 := by
    simp only [alpha_n, hG, e1]
  have ha2 : alpha_n (⟨Real.exp, Real.rpow⟩ : Libm ℝ) Gp (-65)
      = 0.032 * efun (⟨Real.exp, Real.rpow⟩ : Libm ℝ) 4 / 0.2 := by
    simp only [alpha_n, hGp, e2]
  have hb1 : beta_n (⟨Real.exp, Real.rpow⟩ : Libm ℝ) G (-65) = 0.5 * Real.exp (75 / 40) := by
    simp only [beta_n, hG]; norm_num
  have hb2 : beta_n (⟨Real.exp, Real.rpow⟩ : Libm ℝ) Gp (-65) = 0.5 * Real.exp (15 / 40) := by
    simp only [beta_n, hGp]; norm_num
  have hapos : 0 < alpha_n (⟨Real.exp, Real.rpow⟩ : Libm ℝ) G (-65) := by
    rw [ha1]; positivity
  have hbpos : 0 < beta_n (⟨Real.exp, Real.rpow⟩ : Libm ℝ) Gp (-65) := by
    rw [hb2]; positivity
  have hbpos1 : 0 < beta_n (⟨Real.exp, Real.rpow⟩ : Libm ℝ) G (-65) := by
    rw [hb1]; positivity
  have hab : alpha_n (⟨Real.exp, Real.rpow⟩ : Libm ℝ) G (-65)
      < alpha_n (⟨Real.exp, Real.rpow⟩ : Libm ℝ) Gp (-65) := by
    rw [ha1, ha2]
    have hc : (0 : ℝ) < 0.032 / 0.2 := by norm_num
    have := mul_lt_mul_of_pos_left hlt hc
    calc (0.032 : ℝ) * efun (⟨Real.exp, Real.rpow⟩ : Libm ℝ) 16 / 0.2
        = 0.032 / 0.2 * efun (⟨Real.exp, Real.rpow⟩ : Libm ℝ) 16 := by ring
      _ < 0.032 / 0.2 * efun (⟨Real.exp, Real.rpow⟩ : Libm ℝ) 4 := this
      _ = 0.032 * efun (⟨Real.exp, Real.rpow⟩ : Libm ℝ) 4 / 0.2 := by ring
  have hbb : beta_n (⟨Real.exp, Real.rpow⟩ : Libm ℝ) Gp (-65)
      < beta_n (⟨Real.exp, Real.rpow⟩ : Libm ℝ) G (-65) := by
    rw [hb1, hb2]
    have : Real.exp (15 / 40) < Real.exp (75 / 40) := Real.exp_lt_exp.mpr (by norm_num)
    linarith
  constructor
  · simp only [n_inf]
    exact div_pos hapos (add_pos hapos hbpos1)
  · simp only [n_inf]
    exact frac_lt_frac hapos hbpos hab hbb

/-- At `V0 = -65` the steady state `h_inf` computed with `Vt = -60` is smaller
than the one computed with `Vt = 0`. -/
theorem h_inf_stale (G Gp : Globals ℝ) (hG : G.Vt = 0) (hGp : Gp.Vt = -60) :
    h_inf (⟨Real.exp, Real.rpow⟩ : Libm ℝ) Gp (-65)
      < h_inf (⟨Real.exp, Real.rpow⟩ : Libm ℝ) G (-65) := by
  have ha1 : alpha_h (⟨Real.exp, Real.rpow⟩ : Libm ℝ) G (-65) = 0.128 * Real.exp (82 / 18) := by
    simp only [alpha_h, hG]; norm_num
  have ha2 : alpha_h (⟨Real.exp, Real.rpow⟩ : Libm ℝ) Gp (-65)
      = 0.128 * Real.exp (22 / 18) := by
    simp only [alpha_h, hGp]; norm_num
  have hb1 : beta_h (⟨Real.exp, Real.rpow⟩ : Libm ℝ) G (-65) = 4 / (1 + Real.exp 21) := by
    simp only [beta_h, hG]; norm_num
  have hb2 : beta_h (⟨Real.exp, Real.rpow⟩ : Libm ℝ) Gp (-65) = 4 / (1 + Real.exp 9) := by
    simp only [beta_h, hGp]; norm_num
  simp only [h_inf]
  rw [ha1, ha2, hb1, hb2]
  have he : Real.exp (22 / 18) < Real.exp (82 / 18) := Real.exp_lt_exp.mpr (by norm_num)
  have he2 : Real.exp 9 < Real.exp 21 := Real.exp_lt_exp.mpr (by norm_num)
  apply frac_lt_frac (by positivity) (by positivity) (by linarith)
  exact div_lt_div_of_pos_left (by norm_num) (by positivity) (by linarith)

theorem V_next_form (I0 xi n m h p : ℝ) (hn : 0 < n) :
    V_next (⟨Real.exp, Real.rpow⟩ : Libm ℝ) ⟨0, 50, 0, 0.1, 100, -60, -65, 0, 1⟩ 1 I0 xi
        (-65) n m h p
      = -90 + 25 * Real.exp (-(50 * n ^ 4 + 0.1))
        + (2.5 + I0 + 0.1 * xi) * ((1 - Real.exp (-(50 * n ^ 4 + 0.1))) / (50 * n ^ 4 + 0.1)) := by
  have hg : (50 : ℝ) * n ^ 4 + 0.1 ≠ 0 := by positivity
  have e1 : (-1 : ℝ) * ((m ^ 3 * 0 * h + n ^ 4 * 50 + 0.1 + 0 * p) / 1)
      = -(50 * n ^ 4 + 0.1) := by ring
  have e2 : (m ^ 3 * 0 * h + n ^ 4 * 50 + 0.1 + 0 * p) / 1 * 1 = 50 * n ^ 4 + 0.1 := by ring
  simp only [V_next, rpow_three, rpow_four, rpow_half, C, E_Na, E_K, nois_fact,
    Real.sqrt_one, e1, e2]
  field_simp
  ring

theorem assignGlobals_example (G : Globals ℝ) (a : ℝ) :
    assignGlobals G [a, 50, 0, 0.1, 100, -60, -65, 1]
      = some ⟨a, 50, 0, 0.1, 100, -60, -65, G.I_scale, 1⟩ := by
  simp [assignGlobals]

theorem floor_two : ⌊(2 : ℝ) / 1⌋ = 2 := by norm_num

/-- The second cell of the trace of a two-step run (`dt = 1`, `tfin = 2`) with
the parameters `[0, 50, 0, 0.1, 100, -60, -65, 1]`, entered with globals `G`
whose `I_scale` is 0. -/
theorem runHH_two_steps (normal : Int → Nat → ℝ) (G : Globals ℝ) (hG : G.I_scale = 0)
    (random_seed : Int) (I0 : ℝ) :
    ∃ V, runHH (⟨Real.exp, Real.rpow⟩ : Libm ℝ) normal G [0, 50, 0, 0.1, 100, -60, -65, 1]
        random_seed (-65) [I0] 1 2 = some (⟨0, 50, 0, 0.1, 100, -60, -65, 0, 1⟩, V) ∧
      Block.load V 1 = some (V_next (⟨Real.exp, Real.rpow⟩ : Libm ℝ)
        ⟨0, 50, 0, 0.1, 100, -60, -65, 0, 1⟩ 1 I0 (normal random_seed 1) (-65)
        (n_inf ⟨Real.exp, Real.rpow⟩ G (-65)) (m_inf ⟨Real.exp, Real.rpow⟩ G (-65))
        (h_inf ⟨Real.exp, Real.rpow⟩ G (-65)) (p_inf ⟨Real.exp, Real.rpow⟩ (-65))) := by
  have hG1 := assignGlobals_example G 0
  rw [hG] at hG1
  refine ⟨_, runHH_eq _ normal G _ _ random_seed (-65) [I0] 1 2 (by rw [floor_two]; norm_num)
    (by rw [floor_two]; norm_num) hG1 (by rw [floor_two]; simp), ?_⟩
  rw [load_blk _ _ _ _ le_rfl (by rw [floor_two]; decide)]
  simp [rowAt]

/-- C1 fails on the code.  Take the parameters `[0, 50, 0, 0.1, 100, -60, -65, 1]`,
`V0 = -65`, `dt = 1`, `tfin = 2`, any seed and any noise stream.  For at least
one of the current traces `[0]` and `[1]`, the call made with zero-initialised
globals and the identical call made next (with the globals the first call has
left) both return, and return different traces: the first call computes `n[0]`
with `Vt = 0`, the second with `Vt = -60`. -/
theorem runHH_second_call_differs (normal : Int → Nat → ℝ) (random_seed : Int) :
    ∃ I : List ℝ, (I = [0] ∨ I = [1]) ∧
      ∃ G1 Va Vb,
        runHH (⟨Real.exp, Real.rpow⟩ : Libm ℝ) normal Globals.zeroInit
          [0, 50, 0, 0.1, 100, -60, -65, 1] random_seed (-65) I 1 2 = some (G1, Va) ∧
        runHH (⟨Real.exp, Real.rpow⟩ : Libm ℝ) normal G1
          [0, 50, 0, 0.1, 100, -60, -65, 1] random_seed (-65) I 1 2 = some (G1, Vb) ∧
        Va ≠ Vb := by
  obtain ⟨hna, hlt⟩ := n_inf_stale (Globals.zeroInit : Globals ℝ)
    ⟨0, 50, 0, 0.1, 100, -60, -65, 0, 1⟩ rfl rfl
  have hnb : 0 < n_inf (⟨Real.exp, Real.rpow⟩ : Libm ℝ)
      ⟨0, 50, 0, 0.1, 100, -60, -65, 0, 1⟩ (-65) := hna.trans hlt
  obtain ⟨Va0, hVa0, hla0⟩ := runHH_two_steps normal Globals.zeroInit rfl random_seed 0
  obtain ⟨Vb0, hVb0, hlb0⟩ := runHH_two_steps normal
    ⟨0, 50, 0, 0.1, 100, -60, -65, 0, 1⟩ rfl random_seed 0
  obtain ⟨Va1, hVa1, hla1⟩ := runHH_two_steps normal Globals.zeroInit rfl random_seed 1
  obtain ⟨Vb1, hVb1, hlb1⟩ := runHH_two_steps normal
    ⟨0, 50, 0, 0.1, 100, -60, -65, 0, 1⟩ rfl random_seed 1
  by_cases h0 : Va0 = Vb0
  · refine ⟨[1], Or.inr rfl, _, Va1, Vb1, hVa1, hVb1, ?_⟩
    intro h1
    rw [h0, hlb0, Option.some.injEq, V_next_form _ _ _ _ _ _ hna,
      V_next_form _ _ _ _ _ _ hnb] at hla0
    rw [h1, hlb1, Option.some.injEq, V_next_form _ _ _ _ _ _ hna,
      V_next_form _ _ _ _ _ _ hnb] at hla1
    have hexp : Real.exp (-(50 * n_inf (⟨Real.exp, Real.rpow⟩ : Libm ℝ)
          ⟨0, 50, 0, 0.1, 100, -60, -65, 0, 1⟩ (-65) ^ 4 + 0.1))
        = Real.exp (-(50 * n_inf (⟨Real.exp, Real.rpow⟩ : Libm ℝ)
          Globals.zeroInit (-65) ^ 4 + 0.1)) := by
      generalize Real.exp (-(50 * n_inf (⟨Real.exp, Real.rpow⟩ : Libm ℝ)
          ⟨0, 50, 0, 0.1, 100, -60, -65, 0, 1⟩ (-65) ^ 4 + 0.1)) = Eb at hla0 hla1 ⊢
      generalize Real.exp (-(50 * n_inf (⟨Real.exp, Real.rpow⟩ : Libm ℝ)
          Globals.zeroInit (-65) ^ 4 + 0.1)) = Ea at hla0 hla1 ⊢
      generalize (1 - Eb) / (50 * n_inf (⟨Real.exp, Real.rpow⟩ : Libm ℝ)
          ⟨0, 50, 0, 0.1, 100, -60, -65, 0, 1⟩ (-65) ^ 4 + 0.1) = fb at hla0 hla1
      generalize (1 - Ea) / (50 * n_inf (⟨Real.exp, Real.rpow⟩ : Libm ℝ)
          Globals.zeroInit (-65) ^ 4 + 0.1) = fa at hla0 hla1
      have hf : fb = fa := by linarith
      rw [hf] at hla0
      linarith
    have harg := Real.exp_injective hexp
    have hpow : n_inf (⟨Real.exp, Real.rpow⟩ : Libm ℝ) Globals.zeroInit (-65) ^ 4
        < n_inf (⟨Real.exp, Real.rpow⟩ : Libm ℝ)
          ⟨0, 50, 0, 0.1, 100, -60, -65, 0, 1⟩ (-65) ^ 4 :=
      pow_lt_pow_left₀ hlt hna.le (by norm_num)
    linarith
  · exact ⟨[0], Or.inl rfl, _, Va0, Vb0, hVa0, hVb0, h0⟩

/-- C2 fails on the code.  A call with the parameters of the specification's
example made with zero-initialised globals returns, has `Vt = -60` afterwards,
and has written `n[0]`, `m[0]`, `h[0]` as the steady states at `V0` under the
globals of the entry to the call (`Vt = 0`); `n_inf` and `h_inf` under those are
not the steady states for `Vt = parameters[5] = -60`.  Only `p[0]`, which reads
no global, is as claimed. -/
theorem runHH_initial_gating_stale (normal : Int → Nat → ℝ) (random_seed : Int) :
    ∃ G1 mem,
      runHH_state (⟨Real.exp, Real.rpow⟩ : Libm ℝ) normal Globals.zeroInit
        [50, 50, 0, 0.1, 100, -60, -65, 1] random_seed (-65) [0, 0] 1 2 = some (G1, mem) ∧
      G1.Vt = -60 ∧
      Block.load mem.n 0 = some (n_inf ⟨Real.exp, Real.rpow⟩ Globals.zeroInit (-65)) ∧
      Block.load mem.m 0 = some (m_inf ⟨Real.exp, Real.rpow⟩ Globals.zeroInit (-65)) ∧
      Block.load mem.h 0 = some (h_inf ⟨Real.exp, Real.rpow⟩ Globals.zeroInit (-65)) ∧
      Block.load mem.p 0 = some (p_inf ⟨Real.exp, Real.rpow⟩ (-65)) ∧
      n_inf (⟨Real.exp, Real.rpow⟩ : Libm ℝ) Globals.zeroInit (-65)
        < n_inf ⟨Real.exp, Real.rpow⟩ G1 (-65) ∧
      h_inf (⟨Real.exp, Real.rpow⟩ : Libm ℝ) G1 (-65)
        < h_inf ⟨Real.exp, Real.rpow⟩ Globals.zeroInit (-65) := by
  have hG1 := assignGlobals_example (Globals.zeroInit : Globals ℝ) 50
  refine ⟨_, _, runHH_state_eq _ normal Globals.zeroInit _ _ random_seed (-65) [0, 0] 1 2
    (by rw [floor_two]; norm_num) (by rw [floor_two]; norm_num) hG1
    (by rw [floor_two]; simp), rfl, ?_, ?_, ?_, ?_,
    (n_inf_stale _ _ rfl rfl).2, h_inf_stale _ _ rfl rfl⟩
  all_goals
    simp only [memAt]
    rw [load_blk _ _ _ _ le_rfl (by rw [floor_two]; decide)]
    rfl

/-! ## Positivity of the rates -/

theorem efun_pos (z : ℝ) : 0 < efun (⟨Real.exp, Real.rpow⟩ : Libm ℝ) z := by
  by_cases h : |z| < 0.0001
  · simp only [efun, if_pos h]
    have := (abs_lt.mp h).2
    norm_num at this
    linarith
  · simp only [efun, if_neg h]
    have hz : z ≠ 0 := by
      rintro rfl
      apply h
      norm_num
    rcases lt_or_gt_of_ne hz with hneg | hpos
    · have : Real.exp z < 1 := Real.exp_lt_one_iff.mpr hneg
      exact div_pos_of_neg_of_neg hneg (by linarith)
    · have : 1 < Real.exp z := Real.one_lt_exp_iff.mpr hpos
      exact div_pos hpos (by linarith)

theorem alpha_m_pos (G : Globals ℝ) (v : ℝ) :
    0 < alpha_m (⟨Real.exp, Real.rpow⟩ : Libm ℝ) G v := by
  simp only [alpha_m]
  have := efun_pos (-0.25 * (v - G.Vt - 13.0))
  positivity

theorem beta_m_pos (G : Globals ℝ) (v : ℝ) :
    0 < beta_m (⟨Real.exp, Real.rpow⟩ : Libm ℝ) G v := by
  simp only [beta_m]
  have := efun_pos (0.2 * (v - G.Vt - 40.0))
  positivity

theorem alpha_h_pos (G : Globals ℝ) (v : ℝ) :
    0 < alpha_h (⟨Real.exp, Real.rpow⟩ : Libm ℝ) G v := by
  simp only [alpha_h]
  positivity

theorem beta_h_pos (G : Globals ℝ) (v : ℝ) :
    0 < beta_h (⟨Real.exp, Real.rpow⟩ : Libm ℝ) G v := by
  simp only [beta_h]
  positivity

theorem alpha_n_pos (G : Globals ℝ) (v : ℝ) :
    0 < alpha_n (⟨Real.exp, Real.rpow⟩ : Libm ℝ) G v := by
  simp only [alpha_n]
  have := efun_pos (-0.2 * (v - G.Vt - 15))
  positivity

theorem beta_n_pos (G : Globals ℝ) (v : ℝ) :
    0 < beta_n (⟨Real.exp, Real.rpow⟩ : Libm ℝ) G v := by
  simp only [beta_n]
  positivity

theorem frac_mem_Ioo {a b : ℝ} (ha : 0 < a) (hb : 0 < b) :
    0 < a / (a + b) ∧ a / (a + b) < 1 := by
  refine ⟨div_pos ha (add_pos ha hb), ?_⟩
  rw [div_lt_one (add_pos ha hb)]
  linarith

/-- C17.  Over the reals `efun` is positive everywhere; hence the six rates
are positive for every voltage and every `Vt`, the sums `alpha_x + beta_x` are
positive, so the denominators of `m_inf`, `h_inf`, `n_inf`, `tau_m`, `tau_h`,
`tau_n` are never zero, and the three steady states lie strictly between 0
and 1. -/
theorem rates_pos (G : Globals ℝ) (v z : ℝ) :
    0 < efun (⟨Real.exp, Real.rpow⟩ : Libm ℝ) z ∧
    (0 < alpha_m (⟨Real.exp, Real.rpow⟩ : Libm ℝ) G v ∧
     0 < beta_m (⟨Real.exp, Real.rpow⟩ : Libm ℝ) G v ∧
     0 < alpha_h (⟨Real.exp, Real.rpow⟩ : Libm ℝ) G v ∧
     0 < beta_h (⟨Real.exp, Real.rpow⟩ : Libm ℝ) G v ∧
     0 < alpha_n (⟨Real.exp, Real.rpow⟩ : Libm ℝ) G v ∧
     0 < beta_n (⟨Real.exp, Real.rpow⟩ : Libm ℝ) G v) ∧
    (0 < alpha_m (⟨Real.exp, Real.rpow⟩ : Libm ℝ) G v
        + beta_m (⟨Real.exp, Real.rpow⟩ : Libm ℝ) G v ∧
     0 < alpha_h (⟨Real.exp, Real.rpow⟩ : Libm ℝ) G v
        + beta_h (⟨Real.exp, Real.rpow⟩ : Libm ℝ) G v ∧
     0 < alpha_n (⟨Real.exp, Real.rpow⟩ : Libm ℝ) G v
        + beta_n (⟨Real.exp, Real.rpow⟩ : Libm ℝ) G v) ∧
    (0 < m_inf (⟨Real.exp, Real.rpow⟩ : Libm ℝ) G v ∧
     m_inf (⟨Real.exp, Real.rpow⟩ : Libm ℝ) G v < 1) ∧
    (0 < h_inf (⟨Real.exp, Real.rpow⟩ : Libm ℝ) G v ∧
     h_inf (⟨Real.exp, Real.rpow⟩ : Libm ℝ) G v < 1) ∧
    (0 < n_inf (⟨Real.exp, Real.rpow⟩ : Libm ℝ) G v ∧
     n_inf (⟨Real.exp, Real.rpow⟩ : Libm ℝ) G v < 1) :=
  ⟨efun_pos z,
    ⟨alpha_m_pos G v, beta_m_pos G v, alpha_h_pos G v, beta_h_pos G v, alpha_n_pos G v,
      beta_n_pos G v⟩,
    ⟨add_pos (alpha_m_pos G v) (beta_m_pos G v), add_pos (alpha_h_pos G v) (beta_h_pos G v),
      add_pos (alpha_n_pos G v) (beta_n_pos G v)⟩,
    frac_mem_Ioo (alpha_m_pos G v) (beta_m_pos G v),
    frac_mem_Ioo (alpha_h_pos G v) (beta_h_pos G v),
    frac_mem_Ioo (alpha_n_pos G v) (beta_n_pos G v)⟩

/-! ## Range of the gating variables -/

theorem p_inf_mem (v : ℝ) :
    0 < p_inf (⟨Real.exp, Real.rpow⟩ : Libm ℝ) v ∧
    p_inf (⟨Real.exp, Real.rpow⟩ : Libm ℝ) v < 1 := by
  simp only [p_inf]
  have he : 0 < Real.exp (-0.1 * (v + 35.0)) := Real.exp_pos _
  constructor
  · positivity
  · rw [div_lt_one (by positivity)]
    linarith

theorem m_inf_mem (G : Globals ℝ) (v : ℝ) :
    0 < m_inf (⟨Real.exp, Real.rpow⟩ : Libm ℝ) G v ∧
    m_inf (⟨Real.exp, Real.rpow⟩ : Libm ℝ) G v < 1 :=
  frac_mem_Ioo (alpha_m_pos G v) (beta_m_pos G v)

theorem h_inf_mem (G : Globals ℝ) (v : ℝ) :
    0 < h_inf (⟨Real.exp, Real.rpow⟩ : Libm ℝ) G v ∧
    h_inf (⟨Real.exp, Real.rpow⟩ : Libm ℝ) G v < 1 :=
  frac_mem_Ioo (alpha_h_pos G v) (beta_h_pos G v)

theorem n_inf_mem (G : Globals ℝ) (v : ℝ) :
    0 < n_inf (⟨Real.exp, Real.rpow⟩ : Libm ℝ) G v ∧
    n_inf (⟨Real.exp, Real.rpow⟩ : Libm ℝ) G v < 1 :=
  frac_mem_Ioo (alpha_n_pos G v) (beta_n_pos G v)

theorem T_adj_factor_pos : 0 < T_adj_factor (⟨Real.exp, Real.rpow⟩ : Libm ℝ) := by
  rw [T_adj_factor_real]
  exact Real.rpow_pos_of_pos (by norm_num) _

theorem tau_m_pos (G : Globals ℝ) (v : ℝ) (hr : 0 < G.rate_to_SS_factor) :
    0 < tau_m (⟨Real.exp, Real.rpow⟩ : Libm ℝ) G v := by
  simp only [tau_m]
  exact div_pos (by norm_num; exact hr) (add_pos (alpha_m_pos G v) (beta_m_pos G v))

theorem tau_h_pos (G : Globals ℝ) (v : ℝ) (hr : 0 < G.rate_to_SS_factor) :
    0 < tau_h (⟨Real.exp, Real.rpow⟩ : Libm ℝ) G v := by
  simp only [tau_h]
  exact div_pos (by norm_num; exact hr) (add_pos (alpha_h_pos G v) (beta_h_pos G v))

theorem tau_n_pos (G : Globals ℝ) (v : ℝ) (hr : 0 < G.rate_to_SS_factor) :
    0 < tau_n (⟨Real.exp, Real.rpow⟩ : Libm ℝ) G v := by
  simp only [tau_n]
  exact div_pos (by norm_num; exact hr) (add_pos (alpha_n_pos G v) (beta_n_pos G v))

theorem tau_p_pos (G : Globals ℝ) (v : ℝ) (ht : 0 < G.tau_max) :
    0 < tau_p (⟨Real.exp, Real.rpow⟩ : Libm ℝ) G v := by
  simp only [tau_p]
  have h1 : 0 < Real.exp (0.05 * (v + 35.0)) := Real.exp_pos _
  have h2 : 0 < Real.exp (-0.05 * (v + 35.0)) := Real.exp_pos _
  exact div_pos ht (by positivity)

/-- One exponential-Euler update of a gating variable stays in `[0, 1]`. -/
theorem gate_next_mem (dt x_inf tau_x x1 : ℝ) (hdt : 0 < dt) (htau : 0 < tau_x)
    (hx0 : 0 ≤ x_inf) (hx1 : x_inf ≤ 1) (h0 : 0 ≤ x1) (h1 : x1 ≤ 1) :
    0 ≤ gate_next (⟨Real.exp, Real.rpow⟩ : Libm ℝ) dt x_inf tau_x x1 ∧
    gate_next (⟨Real.exp, Real.rpow⟩ : Libm ℝ) dt x_inf tau_x x1 ≤ 1 := by
  simp only [gate_next]
  have hT := T_adj_factor_pos
  have hneg : -dt * T_adj_factor (⟨Real.exp, Real.rpow⟩ : Libm ℝ) / tau_x ≤ 0 := by
    apply div_nonpos_of_nonpos_of_nonneg _ htau.le
    nlinarith
  have he0 : 0 < Real.exp (-dt * T_adj_factor (⟨Real.exp, Real.rpow⟩ : Libm ℝ) / tau_x) :=
    Real.exp_pos _
  have he1 : Real.exp (-dt * T_adj_factor (⟨Real.exp, Real.rpow⟩ : Libm ℝ) / tau_x) ≤ 1 :=
    Real.exp_le_one_iff.mpr hneg
  generalize Real.exp (-dt * T_adj_factor (⟨Real.exp, Real.rpow⟩ : Libm ℝ) / tau_x) = e
    at he0 he1
  constructor
  · nlinarith [mul_nonneg he0.le h0, mul_nonneg (sub_nonneg.mpr he1) hx0]
  · nlinarith [mul_nonneg he0.le (sub_nonneg.mpr h1),
      mul_nonneg (sub_nonneg.mpr he1) (sub_nonneg.mpr hx1)]

/-- Every row of a run has its four gating values in `[0, 1]`, whatever the
globals on entry are. -/
theorem rowAt_gating_mem (normal : Int → Nat → ℝ) (G G1 : Globals ℝ) (random_seed : Int)
    (V0 : ℝ) (I : List ℝ) (dt : ℝ) (hdt : 0 < dt) (hr : 0 < G1.rate_to_SS_factor)
    (ht : 0 < G1.tau_max) (i : Nat) :
    (0 ≤ (rowAt (⟨Real.exp, Real.rpow⟩ : Libm ℝ) normal G G1 random_seed V0 I dt i).n ∧
     (rowAt (⟨Real.exp, Real.rpow⟩ : Libm ℝ) normal G G1 random_seed V0 I dt i).n ≤ 1) ∧
    (0 ≤ (rowAt (⟨Real.exp, Real.rpow⟩ : Libm ℝ) normal G G1 random_seed V0 I dt i).m ∧
     (rowAt (⟨Real.exp, Real.rpow⟩ : Libm ℝ) normal G G1 random_seed V0 I dt i).m ≤ 1) ∧
    (0 ≤ (rowAt (⟨Real.exp, Real.rpow⟩ : Libm ℝ) normal G G1 random_seed V0 I dt i).h ∧
     (rowAt (⟨Real.exp, Real.rpow⟩ : Libm ℝ) normal G G1 random_seed V0 I dt i).h ≤ 1) ∧
    (0 ≤ (rowAt (⟨Real.exp, Real.rpow⟩ : Libm ℝ) normal G G1 random_seed V0 I dt i).p ∧
     (rowAt (⟨Real.exp, Real.rpow⟩ : Libm ℝ) normal G G1 random_seed V0 I dt i).p ≤ 1) := by
  induction i with
  | zero =>
    simp only [rowAt]
    have hm := m_inf_mem G V0
    have hh := h_inf_mem G V0
    have hn := n_inf_mem G V0
    have hp := p_inf_mem V0
    exact ⟨⟨hn.1.le, hn.2.le⟩, ⟨hm.1.le, hm.2.le⟩, ⟨hh.1.le, hh.2.le⟩, ⟨hp.1.le, hp.2.le⟩⟩
  | succ k ih =>
    obtain ⟨hn, hm, hh, hp⟩ := ih
    simp only [rowAt]
    generalize V_next (⟨Real.exp, Real.rpow⟩ : Libm ℝ) G1 dt (I.getD k 0)
      (normal random_seed (k + 1))
      (rowAt (⟨Real.exp, Real.rpow⟩ : Libm ℝ) normal G G1 random_seed V0 I dt k).V
      (rowAt (⟨Real.exp, Real.rpow⟩ : Libm ℝ) normal G G1 random_seed V0 I dt k).n
      (rowAt (⟨Real.exp, Real.rpow⟩ : Libm ℝ) normal G G1 random_seed V0 I dt k).m
      (rowAt (⟨Real.exp, Real.rpow⟩ : Libm ℝ) normal G G1 random_seed V0 I dt k).h
      (rowAt (⟨Real.exp, Real.rpow⟩ : Libm ℝ) normal G G1 random_seed V0 I dt k).p = Vi
    have hmi := m_inf_mem G1 Vi
    have hhi := h_inf_mem G1 Vi
    have hni := n_inf_mem G1 Vi
    have hpi := p_inf_mem Vi
    exact ⟨gate_next_mem dt _ _ _ hdt (tau_n_pos G1 Vi hr) hni.1.le hni.2.le hn.1 hn.2,
      gate_next_mem dt _ _ _ hdt (tau_m_pos G1 Vi hr) hmi.1.le hmi.2.le hm.1 hm.2,
      gate_next_mem dt _ _ _ hdt (tau_h_pos G1 Vi hr) hhi.1.le hhi.2.le hh.1 hh.2,
      gate_next_mem dt _ _ _ hdt (tau_p_pos G1 Vi ht) hpi.1.le hpi.2.le hp.1 hp.2⟩

theorem assignGlobals_list {α : Type} (G : Globals α) (a0 a1 a2 a3 a4 a5 a6 a7 : α) :
    assignGlobals G [a0, a1, a2, a3, a4, a5, a6, a7]
      = some ⟨a0, a1, a2, a3, a4, a5, a6, G.I_scale, a7⟩ := by
  simp [assignGlobals]

/-! ## Range of the voltage without drive -/

theorem V_next_real (G : Globals ℝ) (dt I1 xi V1 n m h p : ℝ) :
    V_next (⟨Real.exp, Real.rpow⟩ : Libm ℝ) G dt I1 xi V1 n m h p
      = (m ^ 3 * G.gbar_Na * h * 53 + n ^ 4 * G.gbar_K * (-90) + G.g_leak * G.E_leak
          + G.gbar_M * p * (-90) + I1 + 0.1 * xi / √dt)
          / (m ^ 3 * G.gbar_Na * h + n ^ 4 * G.gbar_K + G.g_leak + G.gbar_M * p)
        + (V1 - (m ^ 3 * G.gbar_Na * h * 53 + n ^ 4 * G.gbar_K * (-90) + G.g_leak * G.E_leak
          + G.gbar_M * p * (-90) + I1 + 0.1 * xi / √dt)
          / (m ^ 3 * G.gbar_Na * h + n ^ 4 * G.gbar_K + G.g_leak + G.gbar_M * p))
          * Real.exp (-dt * (m ^ 3 * G.gbar_Na * h + n ^ 4 * G.gbar_K + G.g_leak
              + G.gbar_M * p)) := by
  simp only [V_next, rpow_three, rpow_four, rpow_half, C, E_Na, E_K, nois_fact]
  norm_num

/-- Without injected current and noise, one voltage update stays between `lo`
and `hi` when these enclose the previous voltage and the three reversal
potentials, the weights being non-negative and the leak conductance positive. -/
theorem V_next_range (G : Globals ℝ) (dt V1 n m h p lo hi : ℝ) (hdt : 0 < dt)
    (hm : 0 ≤ m) (hh : 0 ≤ h) (hp : 0 ≤ p)
    (hNa : 0 ≤ G.gbar_Na) (hK : 0 ≤ G.gbar_K) (hM : 0 ≤ G.gbar_M) (hl : 0 < G.g_leak)
    (hlo1 : lo ≤ -90) (hlo2 : lo ≤ G.E_leak) (hlo3 : lo ≤ V1)
    (hhi1 : 53 ≤ hi) (hhi2 : G.E_leak ≤ hi) (hhi3 : V1 ≤ hi) :
    lo ≤ V_next (⟨Real.exp, Real.rpow⟩ : Libm ℝ) G dt 0 0 V1 n m h p ∧
    V_next (⟨Real.exp, Real.rpow⟩ : Libm ℝ) G dt 0 0 V1 n m h p ≤ hi := by
  rw [V_next_real]
  have hwNa : 0 ≤ m ^ 3 * G.gbar_Na * h := by positivity
  have hwK : 0 ≤ n ^ 4 * G.gbar_K := by positivity
  have hwM : 0 ≤ G.gbar_M * p := by positivity
  generalize m ^ 3 * G.gbar_Na * h = wNa at hwNa ⊢
  generalize n ^ 4 * G.gbar_K = wK at hwK ⊢
  generalize G.gbar_M * p = wM at hwM ⊢
  have hg : 0 < wNa + wK + G.g_leak + wM := by linarith
  have hexp0 : 0 < Real.exp (-dt * (wNa + wK + G.g_leak + wM)) := Real.exp_pos _
  have hexp1 : Real.exp (-dt * (wNa + wK + G.g_leak + wM)) ≤ 1 := by
    apply Real.exp_le_one_iff.mpr
    nlinarith
  generalize Real.exp (-dt * (wNa + wK + G.g_leak + wM)) = e at hexp0 hexp1
  have hnum : wNa * 53 + wK * (-90) + G.g_leak * G.E_leak + wM * (-90) + 0 + 0.1 * 0 / √dt
      = wNa * 53 + wK * (-90) + G.g_leak * G.E_leak + wM * (-90) := by
    simp
  rw [hnum]
  have hVlo : lo ≤ (wNa * 53 + wK * (-90) + G.g_leak * G.E_leak + wM * (-90))
      / (wNa + wK + G.g_leak + wM) := by
    rw [le_div_iff₀ hg]
    nlinarith [mul_nonneg hwNa (by linarith : (0 : ℝ) ≤ 53 - lo),
      mul_nonneg hwK (by linarith : (0 : ℝ) ≤ -90 - lo),
      mul_nonneg hl.le (by linarith : (0 : ℝ) ≤ G.E_leak - lo),
      mul_nonneg hwM (by linarith : (0 : ℝ) ≤ -90 - lo)]
  have hVhi : (wNa * 53 + wK * (-90) + G.g_leak * G.E_leak + wM * (-90))
      / (wNa + wK + G.g_leak + wM) ≤ hi := by
    rw [div_le_iff₀ hg]
    nlinarith [mul_nonneg hwNa (by linarith : (0 : ℝ) ≤ hi - 53),
      mul_nonneg hwK (by linarith : (0 : ℝ) ≤ hi - -90),
      mul_nonneg hl.le (by linarith : (0 : ℝ) ≤ hi - G.E_leak),
      mul_nonneg hwM (by linarith : (0 : ℝ) ≤ hi - -90)]
  generalize (wNa * 53 + wK * (-90) + G.g_leak * G.E_leak + wM * (-90))
      / (wNa + wK + G.g_leak + wM) = Vinf at hVlo hVhi
  constructor
  · nlinarith [mul_nonneg hexp0.le (by linarith : (0 : ℝ) ≤ V1 - lo),
      mul_nonneg (sub_nonneg.mpr hexp1) (by linarith : (0 : ℝ) ≤ Vinf - lo)]
  · nlinarith [mul_nonneg hexp0.le (by linarith : (0 : ℝ) ≤ hi - V1),
      mul_nonneg (sub_nonneg.mpr hexp1) (by linarith : (0 : ℝ) ≤ hi - Vinf)]

theorem getD_of_all_zero (I : List ℝ) (hI0 : ∀ x ∈ I, x = 0) (i : Nat) : I.getD i 0 = 0 := by
  rw [List.getD_eq_getElem?_getD]
  by_cases h : i < I.length
  · rw [List.getElem?_eq_getElem h]
    exact hI0 _ (List.getElem_mem h)
  · rw [List.getElem?_eq_none (by omega)]
    rfl

theorem rowAt_V_range (normal : Int → Nat → ℝ) (G G1 : Globals ℝ) (random_seed : Int)
    (V0 : ℝ) (I : List ℝ) (dt lo hi : ℝ) (hI0 : ∀ x ∈ I, x = 0)
    (hxi : ∀ k, normal random_seed k = 0) (hdt : 0 < dt)
    (hr : 0 < G1.rate_to_SS_factor) (ht : 0 < G1.tau_max)
    (hNa : 0 ≤ G1.gbar_Na) (hK : 0 ≤ G1.gbar_K) (hM : 0 ≤ G1.gbar_M) (hl : 0 < G1.g_leak)
    (hlo1 : lo ≤ -90) (hlo2 : lo ≤ G1.E_leak) (hlo3 : lo ≤ V0)
    (hhi1 : 53 ≤ hi) (hhi2 : G1.E_leak ≤ hi) (hhi3 : V0 ≤ hi) (i : Nat) :
    lo ≤ (rowAt (⟨Real.exp, Real.rpow⟩ : Libm ℝ) normal G G1 random_seed V0 I dt i).V ∧
    (rowAt (⟨Real.exp, Real.rpow⟩ : Libm ℝ) normal G G1 random_seed V0 I dt i).V ≤ hi := by
  induction i with
  | zero => exact ⟨hlo3, hhi3⟩
  | succ k ih =>
    obtain ⟨-, hm, hh, hp⟩ := rowAt_gating_mem normal G G1 random_seed V0 I dt hdt hr ht k
    simp only [rowAt, getD_of_all_zero I hI0 k, hxi (k + 1)]
    exact V_next_range G1 dt _ _ _ _ _ lo hi hdt hm.1 hh.1 hp.1 hNa hK hM hl hlo1 hlo2 ih.1
      hhi1 hhi2 ih.2

/-- C19.  Over the reals, in a run of `runHH` that stays within bounds, with
`I` identically zero, every noise draw zero, `dt > 0`, `g_leak > 0`, the three
other conductances non-negative, `rate_to_SS_factor > 0` and `tau_max > 0`, the
call returns and every `V[i]` lies between `min(V0, E_K, E_leak)` and
`max(V0, E_Na, E_leak)` with `E_K = -90` and `E_Na = 53`. -/
theorem runHH_voltage_range (normal : Int → Nat → ℝ) (G : Globals ℝ)
    (gbar_Na gbar_K gbar_M g_leak tau_max Vt E_leak rate_to_SS_factor : ℝ)
    (random_seed : Int) (V0 : ℝ) (I : List ℝ) (dt tfin : ℝ)
    (hN1 : 1 ≤ ⌊tfin / dt⌋) (hN2 : ⌊tfin / dt⌋ ≤ 2147483647)
    (hI : ⌊tfin / dt⌋.toNat - 1 ≤ I.length)
    (hI0 : ∀ x ∈ I, x = 0) (hxi : ∀ k, normal random_seed k = 0)
    (hdt : 0 < dt) (hl : 0 < g_leak) (hNa : 0 ≤ gbar_Na) (hK : 0 ≤ gbar_K)
    (hM : 0 ≤ gbar_M) (hr : 0 < rate_to_SS_factor) (ht : 0 < tau_max) :
    ∃ G1 V,
      runHH (⟨Real.exp, Real.rpow⟩ : Libm ℝ) normal G
        [gbar_Na, gbar_K, gbar_M, g_leak, tau_max, Vt, E_leak, rate_to_SS_factor]
        random_seed V0 I dt tfin = some (G1, V) ∧
      ∀ i : Nat, i < ⌊tfin / dt⌋.toNat →
        ∃ v : ℝ, Block.load V i = some v ∧
          min V0 (min (-90) E_leak) ≤ v ∧ v ≤ max V0 (max 53 E_leak) := by
  have hG1 := assignGlobals_list G gbar_Na gbar_K gbar_M g_leak tau_max Vt E_leak
    rate_to_SS_factor
  refine ⟨_, _, runHH_eq _ normal G _ _ random_seed V0 I dt tfin hN1 hN2 hG1 hI, ?_⟩
  intro i hi
  refine ⟨_, load_blk _ _ _ _ le_rfl hi, ?_⟩
  exact rowAt_V_range normal G
    ⟨gbar_Na, gbar_K, gbar_M, g_leak, tau_max, Vt, E_leak, G.I_scale, rate_to_SS_factor⟩
    random_seed V0 I dt _ _ hI0 hxi hdt hr ht hNa hK hM hl
    ((min_le_right _ _).trans (min_le_left _ _)) ((min_le_right _ _).trans (min_le_right _ _))
    (min_le_left _ _) ((le_max_left _ _).trans (le_max_right _ _))
    ((le_max_right _ _).trans (le_max_right _ _)) (le_max_left _ _) i

/-- C19, an instance: the spec's example parameters, three steps without
drive. -/
theorem runHH_voltage_range_witness :
    ∃ G1 V,
      runHH (⟨Real.exp, Real.rpow⟩ : Libm ℝ) (fun _ _ => 0) Globals.zeroInit
        [50, 50, 0, 0.1, 100, -60, -65, 1] 0 (-65) [0, 0, 0] 1 3 = some (G1, V) ∧
      ∀ i : Nat, i < ⌊(3 : ℝ) / 1⌋.toNat →
        ∃ v : ℝ, Block.load V i = some v ∧
          min (-65) (min (-90) (-65)) ≤ v ∧ v ≤ max (-65) (max 53 (-65)) :=
  runHH_voltage_range (fun _ _ => 0) Globals.zeroInit 50 50 0 0.1 100 (-60) (-65) 1 0 (-65)
    [0, 0, 0] 1 3 (by norm_num) (by norm_num) (by norm_num) (by simp) (fun _ => rfl)
    (by norm_num) (by norm_num) (by norm_num) (by norm_num) (by norm_num) (by norm_num)
    (by norm_num)

/-! ## Equilibrium -/

theorem gate_next_fixed {α : Type} [LinearOrderedField α] (L : Libm α) (dt x tau_x : α) :
    gate_next L dt x tau_x x = x := by
  simp [gate_next]

theorem V_next_fixed (G : Globals ℝ) (dt V0 n m h p : ℝ)
    (hbal : m ^ 3 * G.gbar_Na * h * (53 - V0) + n ^ 4 * G.gbar_K * (-90 - V0)
      + G.g_leak * (G.E_leak - V0) + G.gbar_M * p * (-90 - V0) = 0)
    (hg : 0 < m ^ 3 * G.gbar_Na * h + n ^ 4 * G.gbar_K + G.g_leak + G.gbar_M * p) :
    V_next (⟨Real.exp, Real.rpow⟩ : Libm ℝ) G dt 0 0 V0 n m h p = V0 := by
  rw [V_next_real]
  have hnum : (m ^ 3 * G.gbar_Na * h * 53 + n ^ 4 * G.gbar_K * (-90) + G.g_leak * G.E_leak
      + G.gbar_M * p * (-90) + 0 + 0.1 * 0 / √dt)
      / (m ^ 3 * G.gbar_Na * h + n ^ 4 * G.gbar_K + G.g_leak + G.gbar_M * p) = V0 := by
    rw [div_eq_iff hg.ne']
    simp only [mul_zero, zero_div, add_zero]
    linarith
  rw [hnum]
  simp

/-- If the globals on entry already hold the `Vt` of the call, `I` and the noise
are zero, and `V0` balances the currents at the steady-state gating values with
a positive total conductance, every row of the run equals row 0. -/
theorem rowAt_fixed (normal : Int → Nat → ℝ) (G G1 : Globals ℝ) (random_seed : Int)
    (V0 : ℝ) (I : List ℝ) (dt : ℝ) (hI0 : ∀ x ∈ I, x = 0)
    (hxi : ∀ k, normal random_seed k = 0) (hVt : G.Vt = G1.Vt)
    (hbal : m_inf (⟨Real.exp, Real.rpow⟩ : Libm ℝ) G1 V0 ^ 3 * G1.gbar_Na
        * h_inf (⟨Real.exp, Real.rpow⟩ : Libm ℝ) G1 V0 * (53 - V0)
      + n_inf (⟨Real.exp, Real.rpow⟩ : Libm ℝ) G1 V0 ^ 4 * G1.gbar_K * (-90 - V0)
      + G1.g_leak * (G1.E_leak - V0)
      + G1.gbar_M * p_inf (⟨Real.exp, Real.rpow⟩ : Libm ℝ) V0 * (-90 - V0) = 0)
    (hg : 0 < m_inf (⟨Real.exp, Real.rpow⟩ : Libm ℝ) G1 V0 ^ 3 * G1.gbar_Na
        * h_inf (⟨Real.exp, Real.rpow⟩ : Libm ℝ) G1 V0
      + n_inf (⟨Real.exp, Real.rpow⟩ : Libm ℝ) G1 V0 ^ 4 * G1.gbar_K + G1.g_leak
      + G1.gbar_M * p_inf (⟨Real.exp, Real.rpow⟩ : Libm ℝ) V0) (i : Nat) :
    rowAt (⟨Real.exp, Real.rpow⟩ : Libm ℝ) normal G G1 random_seed V0 I dt i
      = { V := V0, n := n_inf ⟨Real.exp, Real.rpow⟩ G1 V0,
          m := m_inf ⟨Real.exp, Real.rpow⟩ G1 V0, h := h_inf ⟨Real.exp, Real.rpow⟩ G1 V0,
          p := p_inf ⟨Real.exp, Real.rpow⟩ V0 } := by
  induction i with
  | zero =>
    simp only [rowAt, n_inf, m_inf, h_inf, alpha_n, beta_n, alpha_m, beta_m, alpha_h, beta_h,
      hVt]
  | succ k ih =>
    simp only [rowAt, ih, getD_of_all_zero I hI0 k, hxi (k + 1),
      V_next_fixed G1 dt V0 _ _ _ _ hbal hg, gate_next_fixed]

/-- The fixed-point property for a call entered with the `Vt` of its own
parameters already in the global: with `I` and the noise zero and `V0` a resting
potential of the parameter set, every cell of the five arrays keeps its initial
value. -/
theorem runHH_rest_fixed_of_same_Vt (normal : Int → Nat → ℝ) (G : Globals ℝ)
    (gbar_Na gbar_K gbar_M g_leak tau_max Vt E_leak rate_to_SS_factor : ℝ)
    (random_seed : Int) (V0 : ℝ) (I : List ℝ) (dt tfin : ℝ)
    (hN1 : 1 ≤ ⌊tfin / dt⌋) (hN2 : ⌊tfin / dt⌋ ≤ 2147483647)
    (hI : ⌊tfin / dt⌋.toNat - 1 ≤ I.length)
    (hI0 : ∀ x ∈ I, x = 0) (hxi : ∀ k, normal random_seed k = 0) (hVt : G.Vt = Vt)
    (m0 h0 n0 p0 : ℝ)
    (hm0 : m0 = m_inf (⟨Real.exp, Real.rpow⟩ : Libm ℝ)
      ⟨gbar_Na, gbar_K, gbar_M, g_leak, tau_max, Vt, E_leak, G.I_scale, rate_to_SS_factor⟩ V0)
    (hh0 : h0 = h_inf (⟨Real.exp, Real.rpow⟩ : Libm ℝ)
      ⟨gbar_Na, gbar_K, gbar_M, g_leak, tau_max, Vt, E_leak, G.I_scale, rate_to_SS_factor⟩ V0)
    (hn0 : n0 = n_inf (⟨Real.exp, Real.rpow⟩ : Libm ℝ)
      ⟨gbar_Na, gbar_K, gbar_M, g_leak, tau_max, Vt, E_leak, G.I_scale, rate_to_SS_factor⟩ V0)
    (hp0 : p0 = p_inf (⟨Real.exp, Real.rpow⟩ : Libm ℝ) V0)
    (hbal : m0 ^ 3 * gbar_Na * h0 * (53 - V0) + n0 ^ 4 * gbar_K * (-90 - V0)
      + g_leak * (E_leak - V0) + gbar_M * p0 * (-90 - V0) = 0)
    (hg : 0 < m0 ^ 3 * gbar_Na * h0 + n0 ^ 4 * gbar_K + g_leak + gbar_M * p0) :
    ∃ G1 mem,
      runHH_state (⟨Real.exp, Real.rpow⟩ : Libm ℝ) normal G
        [gbar_Na, gbar_K, gbar_M, g_leak, tau_max, Vt, E_leak, rate_to_SS_factor]
        random_seed V0 I dt tfin = some (G1, mem) ∧
      ∀ i : Nat, i < ⌊tfin / dt⌋.toNat →
        Block.load mem.V i = some V0 ∧ Block.load mem.m i = some m0 ∧
        Block.load mem.h i = some h0 ∧ Block.load mem.n i = some n0 ∧
        Block.load mem.p i = some p0 := by
  have hG1 := assignGlobals_list G gbar_Na gbar_K gbar_M g_leak tau_max Vt E_leak
    rate_to_SS_factor
  refine ⟨_, _, runHH_state_eq _ normal G _ _ random_seed V0 I dt tfin hN1 hN2 hG1 hI, ?_⟩
  intro i hi
  subst hm0 hh0 hn0 hp0
  have hrow := rowAt_fixed normal G
    ⟨gbar_Na, gbar_K, gbar_M, g_leak, tau_max, Vt, E_leak, G.I_scale, rate_to_SS_factor⟩
    random_seed V0 I dt hI0 hxi hVt hbal hg i
  simp only [memAt]
  rw [load_blk _ _ _ _ le_rfl hi, load_blk _ _ _ _ le_rfl hi, load_blk _ _ _ _ le_rfl hi,
    load_blk _ _ _ _ le_rfl hi, load_blk _ _ _ _ le_rfl hi, hrow]
  exact ⟨rfl, rfl, rfl, rfl, rfl⟩

/-- C12 fails on the code.  Parameters `[0, 0, 0, 0.1, 100, -60, -65, 1]`,
`V0 = -65`, `I = [0, 0]`, every noise draw zero, `dt = 1`, `tfin = 2`, called
with zero-initialised globals.  `V0` is a resting potential of the parameter set
(only the leak conducts and `E_leak = V0`; the total conductance is 0.1), the
call returns, but `n[0]` and `h[0]` are the steady states for `Vt = 0`, not the
`n0`, `h0` of the call's parameters (`Vt = -60`): `n[0] < n0` and `h0 < h[0]`. -/
theorem runHH_rest_not_fixed :
    ∃ G1 mem,
      runHH_state (⟨Real.exp, Real.rpow⟩ : Libm ℝ) (fun _ _ => 0) Globals.zeroInit
        [0, 0, 0, 0.1, 100, -60, -65, 1] 0 (-65) [0, 0] 1 2 = some (G1, mem) ∧
      (m_inf (⟨Real.exp, Real.rpow⟩ : Libm ℝ) G1 (-65) ^ 3 * G1.gbar_Na
          * h_inf (⟨Real.exp, Real.rpow⟩ : Libm ℝ) G1 (-65) * (53 - -65)
        + n_inf (⟨Real.exp, Real.rpow⟩ : Libm ℝ) G1 (-65) ^ 4 * G1.gbar_K * (-90 - -65)
        + G1.g_leak * (G1.E_leak - -65)
        + G1.gbar_M * p_inf (⟨Real.exp, Real.rpow⟩ : Libm ℝ) (-65) * (-90 - -65) = 0) ∧
      (0 < m_inf (⟨Real.exp, Real.rpow⟩ : Libm ℝ) G1 (-65) ^ 3 * G1.gbar_Na
          * h_inf (⟨Real.exp, Real.rpow⟩ : Libm ℝ) G1 (-65)
        + n_inf (⟨Real.exp, Real.rpow⟩ : Libm ℝ) G1 (-65) ^ 4 * G1.gbar_K + G1.g_leak
        + G1.gbar_M * p_inf (⟨Real.exp, Real.rpow⟩ : Libm ℝ) (-65)) ∧
      (∃ n, Block.load mem.n 0 = some n ∧
        n < n_inf (⟨Real.exp, Real.rpow⟩ : Libm ℝ) G1 (-65)) ∧
      (∃ h, Block.load mem.h 0 = some h ∧
        h_inf (⟨Real.exp, Real.rpow⟩ : Libm ℝ) G1 (-65) < h) := by
  have hG1 := assignGlobals_list (Globals.zeroInit : Globals ℝ) 0 0 0 0.1 100 (-60) (-65) 1
  refine ⟨_, _, runHH_state_eq _ _ Globals.zeroInit _ _ 0 (-65) [0, 0] 1 2
    (by rw [floor_two]; norm_num) (by rw [floor_two]; norm_num) hG1
    (by rw [floor_two]; simp), ?_, ?_, ?_, ?_⟩
  · norm_num
  · norm_num
  · refine ⟨_, load_blk _ _ _ _ le_rfl (by rw [floor_two]; decide), ?_⟩
    exact (n_inf_stale _ _ rfl rfl).2
  · refine ⟨_, load_blk _ _ _ _ le_rfl (by rw [floor_two]; decide), ?_⟩
    exact h_inf_stale _ _ rfl rfl

/-! ## Longer runs extend shorter ones -/

theorem blk_take {α : Type} (f : Nat → α) (n1 n2 : Nat) (h : n1 ≤ n2) :
    (blk f n2 n2).take n1 = blk f n1 n1 := by
  apply List.ext_getElem?
  intro j
  rw [List.getElem?_take, blk_getElem? f n2 n2 j le_rfl, blk_getElem? f n1 n1 j le_rfl]
  by_cases hj : j < n1
  · have hj2 : j < n2 := by omega
    simp [hj, hj2]
  · simp [hj]

/-- C11.  For `dt > 0` and `tfin1 ≤ tfin2` with `1 ≤ floor(tfin1/dt)`,
`floor(tfin2/dt)` fitting an `int`, the eight parameters present and at least
`floor(tfin2/dt)` current samples, the two calls made from the same globals with
the same seed both return, and the trace for `tfin1` is the trace for `tfin2`
cut after its first `floor(tfin1/dt)` cells. -/
theorem runHH_prefix {α : Type} [LinearOrderedField α] [FloorRing α]
    (L : Libm α) (normal : Int → Nat → α) (G : Globals α) (parameters : List α)
    (random_seed : Int) (V0 : α) (I : List α) (dt tfin1 tfin2 : α)
    (hdt : 0 < dt) (hle : tfin1 ≤ tfin2) (hN1 : 1 ≤ ⌊tfin1 / dt⌋)
    (hN2 : ⌊tfin2 / dt⌋ ≤ 2147483647) (hp : 8 ≤ parameters.length)
    (hI : ⌊tfin2 / dt⌋ ≤ (I.length : ℤ)) :
    ∃ G1 Va Vb,
      runHH L normal G parameters random_seed V0 I dt tfin1 = some (G1, Va) ∧
      runHH L normal G parameters random_seed V0 I dt tfin2 = some (G1, Vb) ∧
      (Va.length : ℤ) = ⌊tfin1 / dt⌋ ∧ (Vb.length : ℤ) = ⌊tfin2 / dt⌋ ∧
      Va = Vb.take ⌊tfin1 / dt⌋.toNat := by
  have hmono : ⌊tfin1 / dt⌋ ≤ ⌊tfin2 / dt⌋ :=
    Int.floor_mono (div_le_div_of_nonneg_right hle hdt.le)
  obtain ⟨G1, hG1, -⟩ := assignGlobals_eq G parameters hp
  refine ⟨G1, _, _,
    runHH_eq L normal G G1 parameters random_seed V0 I dt tfin1 hN1 (by omega) hG1 (by omega),
    runHH_eq L normal G G1 parameters random_seed V0 I dt tfin2 (by omega) hN2 hG1 (by omega),
    ?_, ?_, ?_⟩
  · rw [blk_length _ _ _ le_rfl]; omega
  · rw [blk_length _ _ _ le_rfl]; omega
  · rw [blk_take _ _ _ (by omega)]

/-- C11, an instance: two steps are the first two of three. -/
theorem runHH_prefix_witness :
    ∃ G1 Va Vb,
      runHH (⟨Real.exp, Real.rpow⟩ : Libm ℝ) (fun _ _ => 0) Globals.zeroInit
        [50, 50, 0, 0.1, 100, -60, -65, 1] 0 (-65) [0, 0, 0] 1 2 = some (G1, Va) ∧
      runHH (⟨Real.exp, Real.rpow⟩ : Libm ℝ) (fun _ _ => 0) Globals.zeroInit
        [50, 50, 0, 0.1, 100, -60, -65, 1] 0 (-65) [0, 0, 0] 1 3 = some (G1, Vb) ∧
      (Va.length : ℤ) = ⌊(2 : ℝ) / 1⌋ ∧ (Vb.length : ℤ) = ⌊(3 : ℝ) / 1⌋ ∧
      Va = Vb.take ⌊(2 : ℝ) / 1⌋.toNat :=
  runHH_prefix (⟨Real.exp, Real.rpow⟩ : Libm ℝ) (fun _ _ => 0) Globals.zeroInit
    [50, 50, 0, 0.1, 100, -60, -65, 1] 0 (-65) [0, 0, 0] 1 2 3 (by norm_num) (by norm_num)
    (by norm_num) (by norm_num) (by simp) (by norm_num)

/-! ## When the run returns -/

theorem assignGlobals_fault {α : Type} (G : Globals α) (parameters : List α)
    (hp : parameters.length < 8) : assignGlobals G parameters = none := by
  have h7 : parameters[7]? = none := List.getElem?_eq_none (by omega)
  simp [assignGlobals, h7]

theorem toInt_eq_some_pos {α : Type} [LinearOrderedField α] [FloorRing α] (x : α)
    (size : Int) (h : toInt x = some size) (h1 : 1 ≤ size) :
    size = ⌊x⌋ ∧ 1 ≤ ⌊x⌋ ∧ ⌊x⌋ ≤ 2147483647 := by
  unfold toInt at h
  by_cases hx : 0 ≤ x
  · simp only [if_pos hx] at h
    split_ifs at h with hr
    simp only [Option.some.injEq] at h
    subst h
    exact ⟨rfl, h1, hr.2⟩
  · simp only [if_neg hx] at h
    split_ifs at h with hr
    simp only [Option.some.injEq] at h
    have : ⌈x⌉ ≤ 0 := Int.ceil_le.mpr (by simpa using (not_le.mp hx).le)
    omega

theorem loopBody_fault {α : Type} [LinearOrderedField α] (L : Libm α)
    (normal : Int → Nat → α) (G1 : Globals α) (random_seed : Int) (I : List α) (dt : α)
    (T : Nat → Row α) (size i : Nat) (hi1 : 1 ≤ i) (hi2 : i < size)
    (hI : I.length ≤ i - 1) :
    loopBody L normal G1 random_seed I dt (memAt T size i) i = none := by
  have hIk : I[i - 1]? = none := List.getElem?_eq_none hI
  simp only [loopBody, memAt, Option.bind_eq_bind, Option.pure_def]
  rw [load_blk _ _ _ _ hi2.le (by omega), load_blk _ _ _ _ hi2.le (by omega),
    load_blk _ _ _ _ hi2.le (by omega), load_blk _ _ _ _ hi2.le (by omega), hIk]
  rfl

theorem loop_fault {α : Type} [LinearOrderedField α] (L : Libm α)
    (normal : Int → Nat → α) (G G1 : Globals α)
    (random_seed : Int) (V0 : α) (I : List α) (dt : α) (size k : Nat)
    (hk : k + 1 ≤ size) (hI : I.length < k) :
    (List.range' 1 k).foldlM (loopBody L normal G1 random_seed I dt)
        (memAt (rowAt L normal G G1 random_seed V0 I dt) size 1) = none := by
  obtain ⟨d, rfl⟩ : ∃ d, k = I.length + (d + 1) := ⟨k - I.length - 1, by omega⟩
  have hsplit : List.range' 1 (I.length + (d + 1))
      = List.range' 1 I.length ++ (1 + I.length) :: List.range' (1 + I.length + 1) d := by
    rw [← List.range'_succ, ← Nat.add_comm (d + 1), ← List.range'_append_1]
  rw [hsplit, List.foldlM_append,
    loop_eq L normal G G1 random_seed V0 I dt size I.length (by omega) le_rfl]
  simp only [Option.bind_eq_bind, Option.some_bind, List.foldlM_cons]
  rw [Nat.add_comm 1 I.length,
    loopBody_fault L normal G1 random_seed I dt _ size (I.length + 1) (by omega) (by omega)
      (by omega)]
  rfl

theorem runHH_state_none_iff {α : Type} [LinearOrderedField α] [FloorRing α]
    (L : Libm α) (normal : Int → Nat → α) (G : Globals α) (parameters : List α)
    (random_seed : Int) (V0 : α) (I : List α) (dt tfin : α) :
    runHH_state L normal G parameters random_seed V0 I dt tfin = none ↔
      ¬ ∃ size : Int, toInt (tfin / dt) = some size ∧ 1 ≤ size ∧ 8 ≤ parameters.length ∧
          size.toNat - 1 ≤ I.length := by
  have h0 : tfin - (0.0 : α) = tfin := by norm_num
  constructor
  · rintro hnone ⟨size, hsz, h1, hp, hI⟩
    obtain ⟨rfl, hN1, hN2⟩ := toInt_eq_some_pos _ _ hsz h1
    obtain ⟨G1, hG1, -⟩ := assignGlobals_eq G parameters hp
    rw [runHH_state_eq L normal G G1 parameters random_seed V0 I dt tfin hN1 hN2 hG1 hI]
      at hnone
    exact Option.noConfusion hnone
  · intro hne
    cases hsz : toInt (tfin / dt) with
    | none => simp only [runHH_state, h0, hsz, Option.bind_eq_bind, Option.none_bind]
    | some size =>
      by_cases h1 : 1 ≤ size
      · by_cases hp : 8 ≤ parameters.length
        · obtain ⟨G1, hG1, -⟩ := assignGlobals_eq G parameters hp
          have hI : I.length < size.toNat - 1 := by
            by_contra hI
            exact hne ⟨size, hsz, h1, hp, by omega⟩
          simp only [runHH_state, h0, hsz, Option.bind_eq_bind, Option.some_bind, hG1,
            initMem_eq L G size V0 (rowAt L normal G G1 random_seed V0 I dt) rfl h1,
            loop_fault L normal G G1 random_seed V0 I dt size.toNat (size.toNat - 1)
              (by omega) hI, Option.none_bind]
        · simp only [runHH_state, h0, hsz, Option.bind_eq_bind, Option.some_bind,
            initMem_eq L G size V0 (rowAt L normal G G random_seed V0 I dt) rfl h1,
            assignGlobals_fault G parameters (by omega), Option.none_bind]
      · simp only [runHH_state, h0, hsz, Option.bind_eq_bind, Option.some_bind,
          initMem_fault L G size V0 (by omega), Option.none_bind]

/-- C13 (amended).  The simulator has no `InvalidArgument`: a call either
returns a trace or runs into an out-of-bounds access.  `runHH` returns a trace
exactly when `size = int(tfin/dt)` is defined and at least 1, the eight
parameters are present and `I` has at least `size - 1` samples; the exported
operation returns an array exactly when, in addition, `I` has at most `size`
samples.  In particular `tfin ≤ 0 < dt` gives no trace. -/
theorem runHH_returns_iff {α : Type} [LinearOrderedField α] [FloorRing α]
    (L : Libm α) (normal : Int → Nat → α) (G : Globals α) (parameters : List α)
    (random_seed : Int) (V0 : α) (I : List α) (dt tfin : α) :
    ((runHH L normal G parameters random_seed V0 I dt tfin).isSome = true ↔
      ∃ size : Int, toInt (tfin / dt) = some size ∧ 1 ≤ size ∧ 8 ≤ parameters.length ∧
        size.toNat - 1 ≤ I.length) ∧
    ((wrapper L normal G parameters random_seed V0 I dt tfin).isSome = true ↔
      ∃ size : Int, toInt (tfin / dt) = some size ∧ 1 ≤ size ∧ 8 ≤ parameters.length ∧
        size.toNat - 1 ≤ I.length ∧ I.length ≤ size.toNat) ∧
    (0 < dt → tfin ≤ 0 →
      runHH L normal G parameters random_seed V0 I dt tfin = none ∧
      wrapper L normal G parameters random_seed V0 I dt tfin = none) := by
  have hiff := runHH_state_none_iff L normal G parameters random_seed V0 I dt tfin
  have hrun : (runHH L normal G parameters random_seed V0 I dt tfin).isSome = true ↔
      ∃ size : Int, toInt (tfin / dt) = some size ∧ 1 ≤ size ∧ 8 ≤ parameters.length ∧
        size.toNat - 1 ≤ I.length := by
    constructor
    · intro h
      by_contra hne
      rw [runHH, hiff.mpr hne] at h
      simp at h
    · intro h
      cases hs : runHH_state L normal G parameters random_seed V0 I dt tfin with
      | none => exact absurd h (hiff.mp hs)
      | some r => rw [runHH, hs]; rfl
  refine ⟨hrun, ?_, ?_⟩
  · constructor
    · intro hw
      cases hr : runHH L normal G parameters random_seed V0 I dt tfin with
      | none =>
        simp [wrapper, hr] at hw
      | some r =>
        obtain ⟨size, hsz, h1, hp, hI⟩ := hrun.mp (by rw [hr]; rfl)
        refine ⟨size, hsz, h1, hp, hI, ?_⟩
        obtain ⟨rfl, hN1, hN2⟩ := toInt_eq_some_pos _ _ hsz h1
        by_contra hlong
        rw [wrapper_fault_of_long_input L normal G parameters random_seed V0 I dt tfin hN1 hN2
          hp (by omega)] at hw
        simp at hw
    · rintro ⟨size, hsz, h1, hp, hI, hI2⟩
      obtain ⟨rfl, hN1, hN2⟩ := toInt_eq_some_pos _ _ hsz h1
      obtain ⟨G1, hG1, -⟩ := assignGlobals_eq G parameters hp
      rw [wrapper_eq L normal G G1 parameters random_seed V0 I dt tfin hN1 hN2 hG1 hI hI2]
      rfl
  · intro hdt htfin
    have hx : tfin / dt ≤ 0 := div_nonpos_of_nonpos_of_nonneg htfin hdt.le
    have hnot : ¬ ∃ size : Int, toInt (tfin / dt) = some size ∧ 1 ≤ size ∧
        8 ≤ parameters.length ∧ size.toNat - 1 ≤ I.length := by
      rintro ⟨size, hsz, h1, -, -⟩
      obtain ⟨-, hN1, -⟩ := toInt_eq_some_pos _ _ hsz h1
      have : ⌊tfin / dt⌋ ≤ ⌊(0 : α)⌋ := Int.floor_mono hx
      rw [Int.floor_zero] at this
      omega
    have hnone : runHH L normal G parameters random_seed V0 I dt tfin = none := by
      rw [runHH, hiff.mpr hnot]
      rfl
    refine ⟨hnone, ?_⟩
    simp only [wrapper, hnone, Option.bind_eq_bind, Option.none_bind]

/-- C13 as stated fails in both directions.  With `dt = 1`, `tfin = 2` and the
one-sample trace `I = [0]`, `len(I) < floor(tfin/dt)`, yet `runHH` and the
exported operation return a trace instead of failing (the loop reads `I[0]`
only).  With `dt = 1`, `tfin = 1/2` and `I = []` none of the three conditions
holds, yet no trace is produced. -/
theorem no_argument_validation :
    (((([0] : List ℝ).length : ℕ) : ℤ) < ⌊(2 : ℝ) / 1⌋ ∧
      (runHH (⟨Real.exp, Real.rpow⟩ : Libm ℝ) (fun _ _ => 0) Globals.zeroInit
        [50, 50, 0, 0.1, 100, -60, -65, 1] 0 (-65) [0] 1 2).isSome = true ∧
      (wrapper (⟨Real.exp, Real.rpow⟩ : Libm ℝ) (fun _ _ => 0) Globals.zeroInit
        [50, 50, 0, 0.1, 100, -60, -65, 1] 0 (-65) [0] 1 2).isSome = true) ∧
    ((0 : ℝ) < 1 / 2 ∧ (0 : ℝ) < 1 ∧
      ⌊(1 / 2 : ℝ) / 1⌋ ≤ ((([] : List ℝ).length : ℕ) : ℤ) ∧
      runHH (⟨Real.exp, Real.rpow⟩ : Libm ℝ) (fun _ _ => 0) Globals.zeroInit
        [50, 50, 0, 0.1, 100, -60, -65, 1] 0 (-65) [] 1 (1 / 2) = none) := by
  have hG1 := assignGlobals_list (Globals.zeroInit : Globals ℝ) 50 50 0 0.1 100 (-60) (-65) 1
  have hfl : ⌊(1 / 2 : ℝ) / 1⌋ = 0 := by
    rw [Int.floor_eq_iff]; norm_num
  refine ⟨⟨by rw [floor_two]; simp, ?_, ?_⟩, by norm_num, by norm_num, by rw [hfl]; simp,
    runHH_fault _ _ _ _ _ _ _ _ _ (by norm_num) (by norm_num)⟩
  · rw [runHH_eq _ _ _ _ _ 0 (-65) [0] 1 2 (by rw [floor_two]; norm_num)
      (by rw [floor_two]; norm_num) hG1 (by rw [floor_two]; simp)]
    rfl
  · rw [wrapper_eq _ _ _ _ _ 0 (-65) [0] 1 2 (by rw [floor_two]; norm_num)
      (by rw [floor_two]; norm_num) hG1 (by rw [floor_two]; simp) (by rw [floor_two]; simp)]
    rfl

/-- C13, instances: the first sample of a two-step run makes it return, and a
non-positive duration gives no trace. -/
theorem runHH_returns_iff_witness :
    (runHH (⟨Real.exp, Real.rpow⟩ : Libm ℝ) (fun _ _ => 0) Globals.zeroInit
        [50, 50, 0, 0.1, 100, -60, -65, 1] 0 (-65) [0, 0] 1 (-1) = none ∧
     wrapper (⟨Real.exp, Real.rpow⟩ : Libm ℝ) (fun _ _ => 0) Globals.zeroInit
        [50, 50, 0, 0.1, 100, -60, -65, 1] 0 (-65) [0, 0] 1 (-1) = none) :=
  (runHH_returns_iff (⟨Real.exp, Real.rpow⟩ : Libm ℝ) (fun _ _ => 0) Globals.zeroInit
    [50, 50, 0, 0.1, 100, -60, -65, 1] 0 (-65) [0, 0] 1 (-1)).2.2 (by norm_num) (by norm_num)

/-! ## Index safety -/

theorem blk_congr {α : Type} (f g : Nat → α) (size c : Nat) (h : ∀ j, j < c → f j = g j) :
    blk f size c = blk g size c := by
  unfold blk
  congr 1
  apply List.map_congr_left
  intro j hj
  rw [h j (List.mem_range.mp hj)]

theorem getD_take {α : Type} (I : List α) (k i : Nat) (d : α) (hi : i < k) :
    (I.take k).getD i d = I.getD i d := by
  rw [List.getD_eq_getElem?_getD, List.getD_eq_getElem?_getD, List.getElem?_take, if_pos hi]

theorem rowAt_take {α : Type} [LinearOrderedField α] (L : Libm α) (normal : Int → Nat → α)
    (G G1 : Globals α) (random_seed : Int) (V0 : α) (I : List α) (dt : α) (k : Nat) :
    ∀ j, j ≤ k →
      rowAt L normal G G1 random_seed V0 (I.take k) dt j
        = rowAt L normal G G1 random_seed V0 I dt j := by
  intro j
  induction j with
  | zero => intro _; rfl
  | succ i ih =>
    intro hi
    simp only [rowAt, ih (by omega), getD_take I k i 0 (by omega)]

theorem memAt_congr {α : Type} (T T2 : Nat → Row α) (size c : Nat)
    (h : ∀ j, j < c → T j = T2 j) : memAt T size c = memAt T2 size c := by
  simp only [memAt]
  rw [blk_congr (fun j => (T j).V) (fun j => (T2 j).V) size c (fun j hj => by simp only [h j hj]),
    blk_congr (fun j => (T j).n) (fun j => (T2 j).n) size c (fun j hj => by simp only [h j hj]),
    blk_congr (fun j => (T j).m) (fun j => (T2 j).m) size c (fun j hj => by simp only [h j hj]),
    blk_congr (fun j => (T j).h) (fun j => (T2 j).h) size c (fun j hj => by simp only [h j hj]),
    blk_congr (fun j => (T j).p) (fun j => (T2 j).p) size c (fun j hj => by simp only [h j hj])]

/-- C15.  If `N = int(tfin/dt)` is at least 1, the parameter vector has 8
elements and `I` has at least `N` samples, `runHH` runs without any
out-of-bounds access: it returns, each of the five arrays has exactly `N`
cells, and the run made with `I` cut after its first `N - 1` samples returns
the same arrays (the samples `I[N-1]` and later are never read).  If `N = 0`
the write `V[0] = V0` is outside the zero-cell block and the run faults. -/
theorem runHH_index_safety {α : Type} [LinearOrderedField α] [FloorRing α]
    (L : Libm α) (normal : Int → Nat → α) (G : Globals α) (parameters : List α)
    (random_seed : Int) (V0 : α) (I : List α) (dt tfin : α) (N : Int) :
    (toInt (tfin / dt) = some N → 1 ≤ N → parameters.length = 8 → N ≤ (I.length : ℤ) →
      ∃ G1 mem,
        runHH_state L normal G parameters random_seed V0 I dt tfin = some (G1, mem) ∧
        (mem.V.length = N.toNat ∧ mem.n.length = N.toNat ∧ mem.m.length = N.toNat ∧
          mem.h.length = N.toNat ∧ mem.p.length = N.toNat) ∧
        runHH_state L normal G parameters random_seed V0 (I.take (N.toNat - 1)) dt tfin
          = some (G1, mem)) ∧
    (toInt (tfin / dt) = some 0 →
      Block.store (Block.alloc (0 : Int).toNat : Block α) 0 V0 = none ∧
      runHH_state L normal G parameters random_seed V0 I dt tfin = none) := by
  constructor
  · intro hsz h1 hp hI
    obtain ⟨rfl, hN1, hN2⟩ := toInt_eq_some_pos _ _ hsz h1
    obtain ⟨G1, hG1, -⟩ := assignGlobals_eq G parameters (by omega)
    refine ⟨G1, _, runHH_state_eq L normal G G1 parameters random_seed V0 I dt tfin hN1 hN2
      hG1 (by omega), ⟨?_, ?_, ?_, ?_, ?_⟩, ?_⟩
    · exact blk_length _ _ _ le_rfl
    · exact blk_length _ _ _ le_rfl
    · exact blk_length _ _ _ le_rfl
    · exact blk_length _ _ _ le_rfl
    · exact blk_length _ _ _ le_rfl
    · rw [runHH_state_eq L normal G G1 parameters random_seed V0 _ dt tfin hN1 hN2 hG1
        (by rw [List.length_take]; omega)]
      have hrow := rowAt_take L normal G G1 random_seed V0 I dt (⌊tfin / dt⌋.toNat - 1)
      rw [memAt_congr _ (rowAt L normal G G1 random_seed V0 I dt) _ _
        (fun j hj => hrow j (by omega))]
  · intro hsz
    have h0 : tfin - (0.0 : α) = tfin := by norm_num
    refine ⟨store_fault _ _ _ (by simp [Block.alloc]), ?_⟩
    simp only [runHH_state, h0, hsz, Option.bind_eq_bind, Option.some_bind,
      initMem_fault L G 0 V0 le_rfl, Option.none_bind]

/-- C15, instances: a three-step run with three samples, and a run with
`N = 0`. -/
theorem runHH_index_safety_witness :
    (∃ G1 mem,
      runHH_state (⟨Real.exp, Real.rpow⟩ : Libm ℝ) (fun _ _ => 0) Globals.zeroInit
        [50, 50, 0, 0.1, 100, -60, -65, 1] 0 (-65) [0, 0, 0] 1 3 = some (G1, mem) ∧
      (mem.V.length = (3 : Int).toNat ∧ mem.n.length = (3 : Int).toNat ∧
        mem.m.length = (3 : Int).toNat ∧ mem.h.length = (3 : Int).toNat ∧
        mem.p.length = (3 : Int).toNat) ∧
      runHH_state (⟨Real.exp, Real.rpow⟩ : Libm ℝ) (fun _ _ => 0) Globals.zeroInit
        [50, 50, 0, 0.1, 100, -60, -65, 1] 0 (-65)
        (([0, 0, 0] : List ℝ).take ((3 : Int).toNat - 1)) 1 3 = some (G1, mem)) ∧
    (Block.store (Block.alloc (0 : Int).toNat : Block ℝ) 0 (-65) = none ∧
      runHH_state (⟨Real.exp, Real.rpow⟩ : Libm ℝ) (fun _ _ => 0) Globals.zeroInit
        [50, 50, 0, 0.1, 100, -60, -65, 1] 0 (-65) [0, 0, 0] 1 (1 / 2) = none) :=
  have h3 : toInt ((3 : ℝ) / 1) = some 3 := by
    rw [toInt_of_floor _ (by norm_num) (by norm_num)]; norm_num
  have h0 : toInt ((1 / 2 : ℝ) / 1) = some 0 := by
    have hfl : ⌊(1 / 2 : ℝ) / 1⌋ = 0 := by rw [Int.floor_eq_iff]; norm_num
    have hx : (0 : ℝ) ≤ 1 / 2 / 1 := by norm_num
    simp only [toInt, if_pos hx, hfl]
    rfl
  ⟨(runHH_index_safety (⟨Real.exp, Real.rpow⟩ : Libm ℝ) (fun _ _ => 0) Globals.zeroInit
      [50, 50, 0, 0.1, 100, -60, -65, 1] 0 (-65) [0, 0, 0] 1 3 3).1 h3 (by norm_num) rfl
      (by simp),
    (runHH_index_safety (⟨Real.exp, Real.rpow⟩ : Libm ℝ) (fun _ _ => 0) Globals.zeroInit
      [50, 50, 0, 0.1, 100, -60, -65, 1] 0 (-65) [0, 0, 0] 1 (1 / 2) 0).2 h0⟩

/-! ## The globals after a call -/

theorem assignGlobals_fields {α : Type} (G G1 : Globals α) (parameters : List α)
    (h : assignGlobals G parameters = some G1) :
    parameters[0]? = some G1.gbar_Na ∧ parameters[1]? = some G1.gbar_K ∧
    parameters[2]? = some G1.gbar_M ∧ parameters[3]? = some G1.g_leak ∧
    parameters[4]? = some G1.tau_max ∧ parameters[5]? = some G1.Vt ∧
    parameters[6]? = some G1.E_leak ∧ parameters[7]? = some G1.rate_to_SS_factor ∧
    G1.I_scale = G.I_scale := by
  by_cases hp : 8 ≤ parameters.length
  · obtain ⟨G2, hG2, h0, h1, h2, h3, h4, h5, h6, h7, h8⟩ := assignGlobals_eq G parameters hp
    rw [h, Option.some.injEq] at hG2
    subst hG2
    exact ⟨h0, h1, h2, h3, h4, h5, h6, h7, h8⟩
  · rw [assignGlobals_fault G parameters (by omega)] at h
    exact Option.noConfusion h

theorem assignGlobals_I_scale {α : Type} (G : Globals α) (s : α) (parameters : List α) :
    assignGlobals { G with I_scale := s } parameters
      = (assignGlobals G parameters).map (fun g => { g with I_scale := s }) := by
  by_cases hp : 8 ≤ parameters.length
  · match parameters, hp with
    | a0 :: a1 :: a2 :: a3 :: a4 :: a5 :: a6 :: a7 :: rest, _ => simp [assignGlobals]
  · rw [assignGlobals_fault _ parameters (by omega), assignGlobals_fault _ parameters (by omega)]
    rfl

theorem runHH_state_I_scale {α : Type} [LinearOrderedField α] [FloorRing α]
    (L : Libm α) (normal : Int → Nat → α) (G : Globals α) (s : α) (parameters : List α)
    (random_seed : Int) (V0 : α) (I : List α) (dt tfin : α) :
    runHH_state L normal { G with I_scale := s } parameters random_seed V0 I dt tfin
      = (runHH_state L normal G parameters random_seed V0 I dt tfin).map
          (fun r => ({ r.1 with I_scale := s }, r.2)) := by
  have hinit : ∀ size : Int, initMem L { G with I_scale := s } size V0 = initMem L G size V0 :=
    fun _ => rfl
  have hbody : ∀ G1 : Globals α, loopBody L normal { G1 with I_scale := s } random_seed I dt
      = loopBody L normal G1 random_seed I dt := fun _ => rfl
  simp only [runHH_state, hinit, assignGlobals_I_scale]
  cases toInt ((tfin - 0.0) / dt) with
  | none => rfl
  | some size =>
    simp only [Option.bind_eq_bind, Option.some_bind]
    cases initMem L G size V0 with
    | none => rfl
    | some mem =>
      simp only [Option.some_bind]
      cases assignGlobals G parameters with
      | none => rfl
      | some G1 =>
        simp only [Option.map_some', Option.some_bind, hbody]
        cases (List.range' 1 (size.toNat - 1)).foldlM (loopBody L normal G1 random_seed I dt)
          mem <;> rfl

theorem runHH_state_assign {α : Type} [LinearOrderedField α] [FloorRing α]
    (L : Libm α) (normal : Int → Nat → α) (G G1 : Globals α) (parameters : List α)
    (random_seed : Int) (V0 : α) (I : List α) (dt tfin : α) (mem : Mem α)
    (h : runHH_state L normal G parameters random_seed V0 I dt tfin = some (G1, mem)) :
    assignGlobals G parameters = some G1 := by
  simp only [runHH_state, Option.bind_eq_bind, Option.bind_eq_some, Option.pure_def,
    Option.some.injEq, Prod.mk.injEq] at h
  obtain ⟨size, -, mem0, -, G2, hG2, mem2, -, rfl, -⟩ := h
  exact hG2

/-- C16.  After a call of `runHH` that returns, the globals hold the parameter
vector in order (`gbar_Na = parameters[0]`, …, `rate_to_SS_factor =
parameters[7]`) and `I_scale` has the value it had on entry; the returned trace
is the same whatever value `I_scale` has on entry; and the call does return
when the run is within bounds. -/
theorem runHH_globals_frame {α : Type} [LinearOrderedField α] [FloorRing α]
    (L : Libm α) (normal : Int → Nat → α) (G : Globals α) (parameters : List α)
    (random_seed : Int) (V0 : α) (I : List α) (dt tfin : α) :
    (∀ G1 V, runHH L normal G parameters random_seed V0 I dt tfin = some (G1, V) →
      parameters[0]? = some G1.gbar_Na ∧ parameters[1]? = some G1.gbar_K ∧
      parameters[2]? = some G1.gbar_M ∧ parameters[3]? = some G1.g_leak ∧
      parameters[4]? = some G1.tau_max ∧ parameters[5]? = some G1.Vt ∧
      parameters[6]? = some G1.E_leak ∧ parameters[7]? = some G1.rate_to_SS_factor ∧
      G1.I_scale = G.I_scale) ∧
    (∀ s : α,
      (runHH L normal { G with I_scale := s } parameters random_seed V0 I dt tfin).map
          (fun r => r.2)
        = (runHH L normal G parameters random_seed V0 I dt tfin).map (fun r => r.2)) ∧
    (1 ≤ ⌊tfin / dt⌋ → ⌊tfin / dt⌋ ≤ 2147483647 → 8 ≤ parameters.length →
      ⌊tfin / dt⌋.toNat - 1 ≤ I.length →
      ∃ G1 V, runHH L normal G parameters random_seed V0 I dt tfin = some (G1, V)) := by
  refine ⟨?_, ?_, ?_⟩
  · intro G1 V h
    simp only [runHH, Option.map_eq_some', Prod.mk.injEq] at h
    obtain ⟨⟨G2, mem⟩, hst, rfl, -⟩ := h
    exact assignGlobals_fields G G2 parameters
      (runHH_state_assign L normal G G2 parameters random_seed V0 I dt tfin mem hst)
  · intro s
    rw [runHH, runHH, runHH_state_I_scale]
    cases runHH_state L normal G parameters random_seed V0 I dt tfin <;> rfl
  · intro hN1 hN2 hp hI
    obtain ⟨G1, hG1, -⟩ := assignGlobals_eq G parameters hp
    exact ⟨G1, _, runHH_eq L normal G G1 parameters random_seed V0 I dt tfin hN1 hN2 hG1 hI⟩

/-- C16, an instance: the spec's example, entered with `I_scale = 7`. -/
theorem runHH_globals_frame_witness :
    ∃ G1 V, runHH (⟨Real.exp, Real.rpow⟩ : Libm ℝ) (fun _ _ => 0)
        ⟨1, 2, 3, 4, 5, 6, 0, 7, 8⟩ [50, 50, 0, 0.1, 100, -60, -65, 1] 0 (-65) [0, 0, 0] 1 3
        = some (G1, V) ∧
      (([50, 50, 0, 0.1, 100, -60, -65, 1] : List ℝ)[0]? = some G1.gbar_Na ∧
       ([50, 50, 0, 0.1, 100, -60, -65, 1] : List ℝ)[1]? = some G1.gbar_K ∧
       ([50, 50, 0, 0.1, 100, -60, -65, 1] : List ℝ)[2]? = some G1.gbar_M ∧
       ([50, 50, 0, 0.1, 100, -60, -65, 1] : List ℝ)[3]? = some G1.g_leak ∧
       ([50, 50, 0, 0.1, 100, -60, -65, 1] : List ℝ)[4]? = some G1.tau_max ∧
       ([50, 50, 0, 0.1, 100, -60, -65, 1] : List ℝ)[5]? = some G1.Vt ∧
       ([50, 50, 0, 0.1, 100, -60, -65, 1] : List ℝ)[6]? = some G1.E_leak ∧
       ([50, 50, 0, 0.1, 100, -60, -65, 1] : List ℝ)[7]? = some G1.rate_to_SS_factor ∧
       G1.I_scale = 7) :=
  have h := runHH_globals_frame (⟨Real.exp, Real.rpow⟩ : Libm ℝ) (fun _ _ => 0)
    ⟨1, 2, 3, 4, 5, 6, 0, 7, 8⟩ [50, 50, 0, 0.1, 100, -60, -65, 1] 0 (-65) [0, 0, 0] 1 3
  match h.2.2 (by norm_num) (by norm_num) (by simp) (by norm_num) with
  | ⟨G1, V, hrun⟩ => ⟨G1, V, hrun, h.1 G1 V hrun⟩

/-! ## Accuracy of the small-argument branch of `efun` -/

theorem exp_pade_bounds (w : ℝ) (h0 : 0 ≤ w) (h1 : w ≤ 1 / 2) :
    Real.exp w * (2 - w) ≤ 2 + w ∧
    1 + w / 2 + w ^ 2 / 12 ≤ Real.exp w * (1 - w / 2 + w ^ 2 / 12) := by
  have hb := Real.exp_bound (x := w) (by rw [abs_of_nonneg h0]; linarith) (n := 6)
    (by norm_num)
  rw [abs_of_nonneg h0] at hb
  simp only [Finset.sum_range_succ, Finset.sum_range_zero, Nat.factorial, Nat.succ_eq_add_one]
    at hb
  norm_num at hb
  obtain ⟨hlo, hhi⟩ := abs_le.mp hb
  have hw2 : 0 ≤ w ^ 2 := by positivity
  have hw3 : 0 ≤ w ^ 3 := by positivity
  have hw4 : 0 ≤ w ^ 4 := by positivity
  have hw5 : 0 ≤ w ^ 5 := by positivity
  have hw6 : 0 ≤ w ^ 6 := by positivity
  have hw7 : 0 ≤ w ^ 7 := by positivity
  have hw8 : 0 ≤ w ^ 8 := by positivity
  have h6 : w ^ 6 ≤ w ^ 5 / 2 := by
    have : w ^ 6 = w ^ 5 * w := by ring
    rw [this]
    nlinarith
  have h6' : w ^ 6 ≤ w ^ 3 / 8 := by
    have : w ^ 6 = w ^ 3 * w ^ 3 := by ring
    rw [this]
    have hw3' : w ^ 3 ≤ 1 / 8 := by
      calc w ^ 3 ≤ (1 / 2) ^ 3 := pow_le_pow_left₀ h0 h1 3
        _ = 1 / 8 := by norm_num
    nlinarith
  have h7 : w ^ 7 ≤ w ^ 6 := by
    have : w ^ 7 = w ^ 6 * w := by ring
    rw [this]
    nlinarith
  have h8 : w ^ 8 ≤ w ^ 6 := by
    have : w ^ 8 = w ^ 6 * w ^ 2 := by ring
    rw [this]
    have : w ^ 2 ≤ 1 := by nlinarith
    nlinarith
  constructor
  · have hpos : 0 ≤ 2 - w := by linarith
    have := mul_le_mul_of_nonneg_right (sub_le_iff_le_add'.mp hhi) hpos
    nlinarith
  · have hpos : 0 ≤ 1 - w / 2 + w ^ 2 / 12 := by nlinarith
    have := mul_le_mul_of_nonneg_right (neg_le_sub_iff_le_add'.mp hlo) hpos
    nlinarith

/-- C18.  Over the reals, for `0 < |z| < 0.0001` the value `efun z = 1 - z/2`
is at most the exact `z / (exp z - 1)` and differs from it by at most `z^2/12`,
which is below `1e-9`. -/
theorem efun_small_accuracy (z : ℝ) (h0 : 0 < |z|) (h1 : |z| < 0.0001) :
    efun (⟨Real.exp, Real.rpow⟩ : Libm ℝ) z = 1 - z / 2 ∧
    efun (⟨Real.exp, Real.rpow⟩ : Libm ℝ) z ≤ z / (Real.exp z - 1) ∧
    |efun (⟨Real.exp, Real.rpow⟩ : Libm ℝ) z - z / (Real.exp z - 1)| ≤ z ^ 2 / 12 ∧
    z ^ 2 / 12 < 0.000000001 := by
  have hef : efun (⟨Real.exp, Real.rpow⟩ : Libm ℝ) z = 1 - z / 2 := by
    simp only [efun, if_pos h1]
  have hz : z ≠ 0 := abs_pos.mp h0
  obtain ⟨hzlo, hzhi⟩ := abs_lt.mp h1
  have hsq : z ^ 2 / 12 < 0.000000001 := by
    have : z ^ 2 < 0.0001 ^ 2 := by
      rw [← sq_abs z]
      exact pow_lt_pow_left₀ h1 (abs_nonneg z) (by norm_num)
    norm_num at this ⊢
    linarith
  have key : 1 - z / 2 ≤ z / (Real.exp z - 1) ∧
      z / (Real.exp z - 1) ≤ 1 - z / 2 + z ^ 2 / 12 := by
    rcases lt_or_gt_of_ne hz with hneg | hpos
    · obtain ⟨hL1, hL2⟩ := exp_pade_bounds (-z) (by linarith) (by norm_num at hzlo ⊢; linarith)
      have hx : 0 < Real.exp z := Real.exp_pos z
      have hxE : Real.exp z * Real.exp (-z) = 1 := by
        rw [← Real.exp_add]; simp
      have hd : Real.exp z - 1 < 0 := by
        have := Real.exp_lt_one_iff.mpr hneg
        linarith
      have hL1x := mul_le_mul_of_nonneg_left hL1 hx.le
      have hL2x := mul_le_mul_of_nonneg_left hL2 hx.le
      rw [← mul_assoc, hxE] at hL1x hL2x
      constructor
      · rw [le_div_iff_of_neg hd]
        nlinarith
      · rw [div_le_iff_of_neg hd]
        nlinarith
    · obtain ⟨hL1, hL2⟩ := exp_pade_bounds z hpos.le (by norm_num at hzhi ⊢; linarith)
      have hd : 0 < Real.exp z - 1 := by
        have := Real.one_lt_exp_iff.mpr hpos
        linarith
      constructor
      · rw [le_div_iff₀ hd]
        nlinarith
      · rw [div_le_iff₀ hd]
        nlinarith
  refine ⟨hef, ?_, ?_, hsq⟩
  · rw [hef]; exact key.1
  · rw [hef, abs_le]
    constructor
    · linarith [key.2]
    · have : (0 : ℝ) ≤ z ^ 2 / 12 := by positivity
      linarith [key.1]

/-- C18, an instance: `z = 0.00005`. -/
theorem efun_small_accuracy_witness :
    efun (⟨Real.exp, Real.rpow⟩ : Libm ℝ) 0.00005 = 1 - 0.00005 / 2 ∧
    efun (⟨Real.exp, Real.rpow⟩ : Libm ℝ) 0.00005
      ≤ 0.00005 / (Real.exp 0.00005 - 1) ∧
    |efun (⟨Real.exp, Real.rpow⟩ : Libm ℝ) 0.00005 - 0.00005 / (Real.exp 0.00005 - 1)|
      ≤ (0.00005 : ℝ) ^ 2 / 12 ∧
    (0.00005 : ℝ) ^ 2 / 12 < 0.000000001 :=
  efun_small_accuracy 0.00005 (by rw [abs_of_pos (by norm_num)]; norm_num)
    (by rw [abs_of_pos (by norm_num)]; norm_num)

/-! ## Range of the gating variables in a run without division by zero -/

section Checked

variable {α : Type} [LinearOrderedField α]

theorem loopBody_checked_some (L : Libm α) (normal : Int → Nat → α) (G : Globals α)
    (random_seed : Int) (I : List α) (dt : α) (mem mem2 : Mem α) (i : Nat)
    (h : loopBody_checked L normal G random_seed I dt mem i = some mem2) :
    loopBody L normal G random_seed I dt mem i = some mem2 := by
  simp only [loopBody_checked, Option.bind_eq_bind, Option.bind_eq_some] at h
  obtain ⟨m1, -, h1, -, n1, -, p1, -, I1, -, V1, -, h⟩ := h
  split_ifs at h
  exact h

theorem loop_checked_some (L : Libm α) (normal : Int → Nat → α) (G : Globals α)
    (random_seed : Int) (I : List α) (dt : α) (l : List Nat) :
    ∀ mem mem2 : Mem α,
      l.foldlM (loopBody_checked L normal G random_seed I dt) mem = some mem2 →
      l.foldlM (loopBody L normal G random_seed I dt) mem = some mem2 := by
  induction l with
  | nil => intro mem mem2 h; exact h
  | cons i l ih =>
    intro mem mem2 h
    simp only [List.foldlM_cons, Option.bind_eq_bind, Option.bind_eq_some] at h ⊢
    obtain ⟨mem1, h1, h2⟩ := h
    exact ⟨mem1, loopBody_checked_some L normal G random_seed I dt mem mem1 i h1,
      ih mem1 mem2 h2⟩

theorem runHH_state_checked_some [FloorRing α] (L : Libm α) (normal : Int → Nat → α)
    (G : Globals α) (parameters : List α) (random_seed : Int) (V0 : α) (I : List α)
    (dt tfin : α) (r : Globals α × Mem α)
    (h : runHH_state_checked L normal G parameters random_seed V0 I dt tfin = some r) :
    runHH_state L normal G parameters random_seed V0 I dt tfin = some r := by
  simp only [runHH_state_checked, runHH_state, Option.bind_eq_bind, Option.bind_eq_some,
    Option.pure_def] at h ⊢
  obtain ⟨size, hsz, mem0, hmem0, G1, hG1, mem1, hloop, hr⟩ := h
  exact ⟨size, hsz, mem0, hmem0, G1, hG1, mem1,
    loop_checked_some L normal G1 random_seed I dt _ mem0 mem1 hloop, hr⟩

/-- The divisors of iteration `k + 1`, read from row `k` of the run. -/
theorem loopBody_checked_eq (L : Libm α) (normal : Int → Nat → α) (G G1 : Globals α)
    (random_seed : Int) (V0 : α) (I : List α) (dt : α) (size k : Nat)
    (hi2 : k + 1 < size) (hI : k < I.length)
    (hnz : ¬ (tau_V_inv L G1 (rowAt L normal G G1 random_seed V0 I dt k).n
          (rowAt L normal G G1 random_seed V0 I dt k).m
          (rowAt L normal G G1 random_seed V0 I dt k).h
          (rowAt L normal G G1 random_seed V0 I dt k).p * C = 0
        ∨ L.pow dt 0.5 = 0
        ∨ tau_n L G1 (rowAt L normal G G1 random_seed V0 I dt (k + 1)).V = 0
        ∨ tau_m L G1 (rowAt L normal G G1 random_seed V0 I dt (k + 1)).V = 0
        ∨ tau_h L G1 (rowAt L normal G G1 random_seed V0 I dt (k + 1)).V = 0
        ∨ tau_p L G1 (rowAt L normal G G1 random_seed V0 I dt (k + 1)).V = 0)) :
    loopBody_checked L normal G1 random_seed I dt
        (memAt (rowAt L normal G G1 random_seed V0 I dt) size (k + 1)) (k + 1)
      = some (memAt (rowAt L normal G G1 random_seed V0 I dt) size (k + 2)) := by
  have hIk : I[k]? = some (I.getD k 0) := by
    rw [List.getD_eq_getElem?_getD, List.getElem?_eq_getElem hI]
    rfl
  have hbody := loopBody_eq L normal G G1 random_seed V0 I dt size (k + 1) (by omega) hi2
    (by simpa using hI)
  simp only [rowAt] at hnz
  simp only [loopBody_checked, Nat.add_sub_cancel, Option.bind_eq_bind]
  simp only [memAt] at hbody ⊢
  rw [load_blk _ _ _ _ hi2.le (by omega), load_blk _ _ _ _ hi2.le (by omega),
    load_blk _ _ _ _ hi2.le (by omega), load_blk _ _ _ _ hi2.le (by omega),
    load_blk _ _ _ _ hi2.le (by omega), hIk]
  simp only [Option.some_bind]
  rw [if_neg hnz]
  exact hbody

theorem loop_checked_eq (L : Libm α) (normal : Int → Nat → α) (G G1 : Globals α)
    (random_seed : Int) (V0 : α) (I : List α) (dt : α) (size : Nat)
    (hnz : ∀ k : Nat, ¬ (tau_V_inv L G1 (rowAt L normal G G1 random_seed V0 I dt k).n
          (rowAt L normal G G1 random_seed V0 I dt k).m
          (rowAt L normal G G1 random_seed V0 I dt k).h
          (rowAt L normal G G1 random_seed V0 I dt k).p * C = 0
        ∨ L.pow dt 0.5 = 0
        ∨ tau_n L G1 (rowAt L normal G G1 random_seed V0 I dt (k + 1)).V = 0
        ∨ tau_m L G1 (rowAt L normal G G1 random_seed V0 I dt (k + 1)).V = 0
        ∨ tau_h L G1 (rowAt L normal G G1 random_seed V0 I dt (k + 1)).V = 0
        ∨ tau_p L G1 (rowAt L normal G G1 random_seed V0 I dt (k + 1)).V = 0)) :
    ∀ k : Nat, k + 1 ≤ size → k ≤ I.length →
      (List.range' 1 k).foldlM (loopBody_checked L normal G1 random_seed I dt)
          (memAt (rowAt L normal G G1 random_seed V0 I dt) size 1)
        = some (memAt (rowAt L normal G G1 random_seed V0 I dt) size (k + 1)) := by
  intro k
  induction k with
  | zero => intro _ _; rfl
  | succ k ih =>
    intro h1 h2
    rw [List.range'_1_concat, List.foldlM_append, ih (by omega) (by omega)]
    simp only [Option.bind_eq_bind, Option.some_bind, List.foldlM_cons, List.foldlM_nil]
    rw [Nat.add_comm 1 k, loopBody_checked_eq L normal G G1 random_seed V0 I dt size k
      (by omega) (by omega) (hnz k)]
    rfl

theorem runHH_state_checked_eq [FloorRing α] (L : Libm α) (normal : Int → Nat → α)
    (G G1 : Globals α) (parameters : List α) (random_seed : Int) (V0 : α) (I : List α)
    (dt tfin : α) (hN1 : 1 ≤ ⌊tfin / dt⌋) (hN2 : ⌊tfin / dt⌋ ≤ 2147483647)
    (hG1 : assignGlobals G parameters = some G1)
    (hI : ⌊tfin / dt⌋.toNat - 1 ≤ I.length)
    (hnz : ∀ k : Nat, ¬ (tau_V_inv L G1 (rowAt L normal G G1 random_seed V0 I dt k).n
          (rowAt L normal G G1 random_seed V0 I dt k).m
          (rowAt L normal G G1 random_seed V0 I dt k).h
          (rowAt L normal G G1 random_seed V0 I dt k).p * C = 0
        ∨ L.pow dt 0.5 = 0
        ∨ tau_n L G1 (rowAt L normal G G1 random_seed V0 I dt (k + 1)).V = 0
        ∨ tau_m L G1 (rowAt L normal G G1 random_seed V0 I dt (k + 1)).V = 0
        ∨ tau_h L G1 (rowAt L normal G G1 random_seed V0 I dt (k + 1)).V = 0
        ∨ tau_p L G1 (rowAt L normal G G1 random_seed V0 I dt (k + 1)).V = 0)) :
    runHH_state_checked L normal G parameters random_seed V0 I dt tfin
      = some (G1, memAt (rowAt L normal G G1 random_seed V0 I dt)
          ⌊tfin / dt⌋.toNat ⌊tfin / dt⌋.toNat) := by
  have h0 : tfin - (0.0 : α) = tfin := by norm_num
  have hsz : ⌊tfin / dt⌋.toNat - 1 + 1 = ⌊tfin / dt⌋.toNat := by omega
  simp only [runHH_state_checked, h0, toInt_of_floor (tfin / dt) hN1 hN2, Option.bind_eq_bind,
    Option.some_bind, Option.pure_def, hG1,
    initMem_eq L G ⌊tfin / dt⌋ V0 (rowAt L normal G G1 random_seed V0 I dt) rfl hN1,
    loop_checked_eq L normal G G1 random_seed V0 I dt ⌊tfin / dt⌋.toNat hnz
      (⌊tfin / dt⌋.toNat - 1) (by omega) hI, hsz]

end Checked

/-- With the four conductances zero the divisor `tau_V_inv * C` of line 175 is
zero, so an iteration has no value. -/
theorem loopBody_checked_zero {α : Type} [LinearOrderedField α] (L : Libm α)
    (normal : Int → Nat → α) (G : Globals α) (hNa : G.gbar_Na = 0) (hK : G.gbar_K = 0)
    (hM : G.gbar_M = 0) (hl : G.g_leak = 0) (random_seed : Int) (I : List α) (dt : α)
    (mem : Mem α) (i : Nat) :
    loopBody_checked L normal G random_seed I dt mem i = none := by
  rw [Option.eq_none_iff_forall_not_mem]
  intro mem2 h
  simp only [Option.mem_def, loopBody_checked, Option.bind_eq_bind, Option.bind_eq_some] at h
  obtain ⟨m1, -, h1, -, n1, -, p1, -, I1, -, V1, -, h⟩ := h
  have hz : tau_V_inv L G n1 m1 h1 p1 * C = 0 := by
    simp [tau_V_inv, hNa, hK, hM, hl]
  rw [if_pos (Or.inl hz)] at h
  exact Option.noConfusion h

theorem runHH_state_checked_zero {α : Type} [LinearOrderedField α] [FloorRing α]
    (L : Libm α) (normal : Int → Nat → α) (G : Globals α) (a4 a5 a6 a7 : α)
    (random_seed : Int) (V0 : α) (I : List α) (dt tfin : α)
    (hN1 : 2 ≤ ⌊tfin / dt⌋) (hN2 : ⌊tfin / dt⌋ ≤ 2147483647) :
    runHH_state_checked L normal G [0, 0, 0, 0, a4, a5, a6, a7] random_seed V0 I dt tfin
      = none := by
  rw [Option.eq_none_iff_forall_not_mem]
  intro r h
  have h0 : tfin - (0.0 : α) = tfin := by norm_num
  obtain ⟨k, hk⟩ : ∃ k : Nat, ⌊tfin / dt⌋.toNat - 1 = k + 1 := ⟨⌊tfin / dt⌋.toNat - 2, by omega⟩
  simp only [Option.mem_def, runHH_state_checked, h0,
    toInt_of_floor (tfin / dt) (by omega) hN2, assignGlobals_list, Option.bind_eq_bind,
    Option.some_bind, Option.bind_eq_some, hk, List.range'_succ, List.foldlM_cons] at h
  obtain ⟨mem0, -, mem1, ⟨mem2, hbody, -⟩, -⟩ := h
  rw [loopBody_checked_zero L normal _ rfl rfl rfl rfl] at hbody
  exact Option.noConfusion hbody

/-- One exponential-Euler update of a gating variable stays positive. -/
theorem gate_next_pos (dt x_inf tau_x x1 : ℝ) (hdt : 0 < dt) (htau : 0 < tau_x)
    (hx0 : 0 < x_inf) (h0 : 0 < x1) :
    0 < gate_next (⟨Real.exp, Real.rpow⟩ : Libm ℝ) dt x_inf tau_x x1 := by
  simp only [gate_next]
  have hT := T_adj_factor_pos
  have hneg : -dt * T_adj_factor (⟨Real.exp, Real.rpow⟩ : Libm ℝ) / tau_x ≤ 0 := by
    apply div_nonpos_of_nonpos_of_nonneg _ htau.le
    nlinarith
  have he0 : 0 < Real.exp (-dt * T_adj_factor (⟨Real.exp, Real.rpow⟩ : Libm ℝ) / tau_x) :=
    Real.exp_pos _
  have he1 : Real.exp (-dt * T_adj_factor (⟨Real.exp, Real.rpow⟩ : Libm ℝ) / tau_x) ≤ 1 :=
    Real.exp_le_one_iff.mpr hneg
  generalize Real.exp (-dt * T_adj_factor (⟨Real.exp, Real.rpow⟩ : Libm ℝ) / tau_x) = e
    at he0 he1
  nlinarith [mul_pos he0 h0, mul_nonneg (sub_nonneg.mpr he1) hx0.le]

/-- Every row of a run has its four gating values positive. -/
theorem rowAt_gating_pos (normal : Int → Nat → ℝ) (G G1 : Globals ℝ) (random_seed : Int)
    (V0 : ℝ) (I : List ℝ) (dt : ℝ) (hdt : 0 < dt) (hr : 0 < G1.rate_to_SS_factor)
    (ht : 0 < G1.tau_max) (i : Nat) :
    0 < (rowAt (⟨Real.exp, Real.rpow⟩ : Libm ℝ) normal G G1 random_seed V0 I dt i).n ∧
    0 < (rowAt (⟨Real.exp, Real.rpow⟩ : Libm ℝ) normal G G1 random_seed V0 I dt i).m ∧
    0 < (rowAt (⟨Real.exp, Real.rpow⟩ : Libm ℝ) normal G G1 random_seed V0 I dt i).h ∧
    0 < (rowAt (⟨Real.exp, Real.rpow⟩ : Libm ℝ) normal G G1 random_seed V0 I dt i).p := by
  induction i with
  | zero =>
    simp only [rowAt]
    exact ⟨(n_inf_mem G V0).1, (m_inf_mem G V0).1, (h_inf_mem G V0).1, (p_inf_mem V0).1⟩
  | succ k ih =>
    obtain ⟨hn, hm, hh, hp⟩ := ih
    simp only [rowAt]
    generalize V_next (⟨Real.exp, Real.rpow⟩ : Libm ℝ) G1 dt (I.getD k 0)
      (normal random_seed (k + 1))
      (rowAt (⟨Real.exp, Real.rpow⟩ : Libm ℝ) normal G G1 random_seed V0 I dt k).V
      (rowAt (⟨Real.exp, Real.rpow⟩ : Libm ℝ) normal G G1 random_seed V0 I dt k).n
      (rowAt (⟨Real.exp, Real.rpow⟩ : Libm ℝ) normal G G1 random_seed V0 I dt k).m
      (rowAt (⟨Real.exp, Real.rpow⟩ : Libm ℝ) normal G G1 random_seed V0 I dt k).h
      (rowAt (⟨Real.exp, Real.rpow⟩ : Libm ℝ) normal G G1 random_seed V0 I dt k).p = Vi
    exact ⟨gate_next_pos dt _ _ _ hdt (tau_n_pos G1 Vi hr) (n_inf_mem G1 Vi).1 hn,
      gate_next_pos dt _ _ _ hdt (tau_m_pos G1 Vi hr) (m_inf_mem G1 Vi).1 hm,
      gate_next_pos dt _ _ _ hdt (tau_h_pos G1 Vi hr) (h_inf_mem G1 Vi).1 hh,
      gate_next_pos dt _ _ _ hdt (tau_p_pos G1 Vi ht) (p_inf_mem Vi).1 hp⟩

/-- The divisor of line 175 is positive when the gating values are positive and
the conductances are non-negative and not all zero. -/
theorem tau_V_inv_pos (G : Globals ℝ) (n m h p : ℝ) (hn : 0 < n) (hm : 0 < m) (hh : 0 < h)
    (hp : 0 < p) (hNa : 0 ≤ G.gbar_Na) (hK : 0 ≤ G.gbar_K) (hM : 0 ≤ G.gbar_M)
    (hl : 0 ≤ G.g_leak) (hsum : 0 < G.gbar_Na + G.gbar_K + G.gbar_M + G.g_leak) :
    0 < tau_V_inv (⟨Real.exp, Real.rpow⟩ : Libm ℝ) G n m h p * C := by
  simp only [tau_V_inv, rpow_three, rpow_four, C, div_one, mul_one]
  have t1 : 0 ≤ m ^ 3 * G.gbar_Na * h := by positivity
  have t2 : 0 ≤ n ^ 4 * G.gbar_K := by positivity
  have t3 : 0 ≤ G.gbar_M * p := by positivity
  rcases hNa.lt_or_eq with h1 | h1
  · have : 0 < m ^ 3 * G.gbar_Na * h := by positivity
    linarith
  rcases hK.lt_or_eq with h2 | h2
  · have : 0 < n ^ 4 * G.gbar_K := by positivity
    linarith
  rcases hM.lt_or_eq with h3 | h3
  · have : 0 < G.gbar_M * p := by positivity
    linarith
  · have : 0 < G.g_leak := by linarith
    linarith

/-- No divisor of the loop is zero in a run over the reals with `dt > 0`,
`rate_to_SS_factor > 0`, `tau_max > 0` and non-negative conductances that are
not all zero. -/
theorem rowAt_divisors_ne_zero (normal : Int → Nat → ℝ) (G G1 : Globals ℝ)
    (random_seed : Int) (V0 : ℝ) (I : List ℝ) (dt : ℝ) (hdt : 0 < dt)
    (hr : 0 < G1.rate_to_SS_factor) (ht : 0 < G1.tau_max)
    (hNa : 0 ≤ G1.gbar_Na) (hK : 0 ≤ G1.gbar_K) (hM : 0 ≤ G1.gbar_M) (hl : 0 ≤ G1.g_leak)
    (hsum : 0 < G1.gbar_Na + G1.gbar_K + G1.gbar_M + G1.g_leak) (k : Nat) :
    ¬ (tau_V_inv (⟨Real.exp, Real.rpow⟩ : Libm ℝ) G1
          (rowAt (⟨Real.exp, Real.rpow⟩ : Libm ℝ) normal G G1 random_seed V0 I dt k).n
          (rowAt (⟨Real.exp, Real.rpow⟩ : Libm ℝ) normal G G1 random_seed V0 I dt k).m
          (rowAt (⟨Real.exp, Real.rpow⟩ : Libm ℝ) normal G G1 random_seed V0 I dt k).h
          (rowAt (⟨Real.exp, Real.rpow⟩ : Libm ℝ) normal G G1 random_seed V0 I dt k).p * C = 0
        ∨ (⟨Real.exp, Real.rpow⟩ : Libm ℝ).pow dt 0.5 = 0
        ∨ tau_n (⟨Real.exp, Real.rpow⟩ : Libm ℝ) G1
            (rowAt (⟨Real.exp, Real.rpow⟩ : Libm ℝ) normal G G1 random_seed V0 I dt (k + 1)).V = 0
        ∨ tau_m (⟨Real.exp, Real.rpow⟩ : Libm ℝ) G1
            (rowAt (⟨Real.exp, Real.rpow⟩ : Libm ℝ) normal G G1 random_seed V0 I dt (k + 1)).V = 0
        ∨ tau_h (⟨Real.exp, Real.rpow⟩ : Libm ℝ) G1
            (rowAt (⟨Real.exp, Real.rpow⟩ : Libm ℝ) normal G G1 random_seed V0 I dt (k + 1)).V = 0
        ∨ tau_p (⟨Real.exp, Real.rpow⟩ : Libm ℝ) G1
            (rowAt (⟨Real.exp, Real.rpow⟩ : Libm ℝ) normal G G1 random_seed V0 I dt (k + 1)).V
              = 0) := by
  obtain ⟨hn, hm, hh, hp⟩ := rowAt_gating_pos normal G G1 random_seed V0 I dt hdt hr ht k
  have hsq : (⟨Real.exp, Real.rpow⟩ : Libm ℝ).pow dt 0.5 ≠ 0 := by
    show Real.rpow dt 0.5 ≠ 0
    rw [rpow_half]
    exact (Real.sqrt_pos.mpr hdt).ne'
  rintro (h | h | h | h | h | h)
  · exact (tau_V_inv_pos G1 _ _ _ _ hn hm hh hp hNa hK hM hl hsum).ne' h
  · exact hsq h
  · exact (tau_n_pos G1 _ hr).ne' h
  · exact (tau_m_pos G1 _ hr).ne' h
  · exact (tau_h_pos G1 _ hr).ne' h
  · exact (tau_p_pos G1 _ ht).ne' h

/-- C14 (amended).  Over the reals, for a call of `runHH` within bounds with
`dt > 0`, `rate_to_SS_factor > 0` and `tau_max > 0`, whatever `V0`, `I`, the
noise draws and the globals on entry (so also the prior `Vt`) are: a run in
which no iteration divides by zero is a run of `runHH`, and every cell `n[i]`,
`m[i]`, `h[i]`, `p[i]`, `0 ≤ i < N`, holds a value of `[0, 1]`; and the run
divides by zero nowhere, so returns, when the four conductances are
non-negative and not all zero. -/
theorem runHH_gating_range_checked (normal : Int → Nat → ℝ) (G : Globals ℝ)
    (gbar_Na gbar_K gbar_M g_leak tau_max Vt E_leak rate_to_SS_factor : ℝ)
    (random_seed : Int) (V0 : ℝ) (I : List ℝ) (dt tfin : ℝ)
    (hN1 : 1 ≤ ⌊tfin / dt⌋) (hN2 : ⌊tfin / dt⌋ ≤ 2147483647)
    (hI : ⌊tfin / dt⌋.toNat - 1 ≤ I.length)
    (hdt : 0 < dt) (hr : 0 < rate_to_SS_factor) (ht : 0 < tau_max) :
    (∀ G1 mem,
      runHH_state_checked (⟨Real.exp, Real.rpow⟩ : Libm ℝ) normal G
        [gbar_Na, gbar_K, gbar_M, g_leak, tau_max, Vt, E_leak, rate_to_SS_factor]
        random_seed V0 I dt tfin = some (G1, mem) →
      runHH_state (⟨Real.exp, Real.rpow⟩ : Libm ℝ) normal G
        [gbar_Na, gbar_K, gbar_M, g_leak, tau_max, Vt, E_leak, rate_to_SS_factor]
        random_seed V0 I dt tfin = some (G1, mem) ∧
      ∀ i : Nat, i < ⌊tfin / dt⌋.toNat →
        ∃ n m h p : ℝ,
          Block.load mem.n i = some n ∧ Block.load mem.m i = some m ∧
          Block.load mem.h i = some h ∧ Block.load mem.p i = some p ∧
          (0 ≤ n ∧ n ≤ 1) ∧ (0 ≤ m ∧ m ≤ 1) ∧ (0 ≤ h ∧ h ≤ 1) ∧ (0 ≤ p ∧ p ≤ 1)) ∧
    (0 ≤ gbar_Na → 0 ≤ gbar_K → 0 ≤ gbar_M → 0 ≤ g_leak →
      0 < gbar_Na + gbar_K + gbar_M + g_leak →
      ∃ G1 mem,
        runHH_state_checked (⟨Real.exp, Real.rpow⟩ : Libm ℝ) normal G
          [gbar_Na, gbar_K, gbar_M, g_leak, tau_max, Vt, E_leak, rate_to_SS_factor]
          random_seed V0 I dt tfin = some (G1, mem)) := by
  have hG1 := assignGlobals_list G gbar_Na gbar_K gbar_M g_leak tau_max Vt E_leak
    rate_to_SS_factor
  constructor
  · intro G1 mem hc
    have hu := runHH_state_checked_some _ normal G _ random_seed V0 I dt tfin _ hc
    refine ⟨hu, ?_⟩
    rw [runHH_state_eq _ normal G _ _ random_seed V0 I dt tfin hN1 hN2 hG1 hI] at hu
    have hmem := (Prod.mk.inj (Option.some.inj hu)).2
    subst hmem
    intro i hi
    obtain ⟨hn, hm, hh, hp⟩ := rowAt_gating_mem normal G
      ⟨gbar_Na, gbar_K, gbar_M, g_leak, tau_max, Vt, E_leak, G.I_scale, rate_to_SS_factor⟩
      random_seed V0 I dt hdt hr ht i
    exact ⟨_, _, _, _, load_blk _ _ _ _ le_rfl hi, load_blk _ _ _ _ le_rfl hi,
      load_blk _ _ _ _ le_rfl hi, load_blk _ _ _ _ le_rfl hi, hn, hm, hh, hp⟩
  · intro hNa hK hM hl hsum
    exact ⟨_, _, runHH_state_checked_eq _ normal G _ _ random_seed V0 I dt tfin hN1 hN2 hG1 hI
      (rowAt_divisors_ne_zero normal G
        ⟨gbar_Na, gbar_K, gbar_M, g_leak, tau_max, Vt, E_leak, G.I_scale, rate_to_SS_factor⟩
        random_seed V0 I dt hdt hr ht hNa hK hM hl hsum)⟩

/-- C14 (amended), an instance: the spec's example parameters, three steps,
entered with zero-initialised globals; the run divides by zero nowhere. -/
theorem runHH_gating_range_checked_witness :
    (∀ G1 mem,
      runHH_state_checked (⟨Real.exp, Real.rpow⟩ : Libm ℝ) (fun _ _ => 0) Globals.zeroInit
        [50, 50, 0, 0.1, 100, -60, -65, 1] 0 (-65) [0, 0, 0] 1 3 = some (G1, mem) →
      runHH_state (⟨Real.exp, Real.rpow⟩ : Libm ℝ) (fun _ _ => 0) Globals.zeroInit
        [50, 50, 0, 0.1, 100, -60, -65, 1] 0 (-65) [0, 0, 0] 1 3 = some (G1, mem) ∧
      ∀ i : Nat, i < ⌊(3 : ℝ) / 1⌋.toNat →
        ∃ n m h p : ℝ,
          Block.load mem.n i = some n ∧ Block.load mem.m i = some m ∧
          Block.load mem.h i = some h ∧ Block.load mem.p i = some p ∧
          (0 ≤ n ∧ n ≤ 1) ∧ (0 ≤ m ∧ m ≤ 1) ∧ (0 ≤ h ∧ h ≤ 1) ∧ (0 ≤ p ∧ p ≤ 1)) ∧
    (∃ G1 mem,
      runHH_state_checked (⟨Real.exp, Real.rpow⟩ : Libm ℝ) (fun _ _ => 0) Globals.zeroInit
        [50, 50, 0, 0.1, 100, -60, -65, 1] 0 (-65) [0, 0, 0] 1 3 = some (G1, mem)) :=
  (runHH_gating_range_checked (fun _ _ => 0) Globals.zeroInit 50 50 0 0.1 100 (-60) (-65) 1 0
    (-65) [0, 0, 0] 1 3 (by norm_num) (by norm_num) (by norm_num) (by norm_num) (by norm_num)
    (by norm_num)).imp id
    (fun h => h (by norm_num) (by norm_num) (by norm_num) (by norm_num) (by norm_num))

/-- C14 as stated fails for zero conductances.  With parameters
`[0, 0, 0, 0, 100, -60, -65, 1]`, `I = [1, 1]`, `dt = 1`, `tfin = 3` the
hypotheses `dt > 0`, `rate_to_SS_factor > 0`, `tau_max > 0` hold and the call
stays within bounds, but the first iteration divides by `tau_V_inv * C = 0`
(line 175), for every noise and seed: the cells from index 1 on have no real
value, so none in `[0, 1]`. -/
theorem runHH_zero_conductance_no_value :
    (0 : ℝ) < 1 ∧ (0 : ℝ) < 1 ∧ (0 : ℝ) < 100 ∧
    (∃ r, runHH_state (⟨Real.exp, Real.rpow⟩ : Libm ℝ) (fun _ _ => 0) Globals.zeroInit
      [0, 0, 0, 0, 100, -60, -65, 1] 0 (-65) [1, 1] 1 3 = some r) ∧
    ¬ ∃ (normal : Int → Nat → ℝ) (random_seed : Int) (r : Globals ℝ × Mem ℝ),
      runHH_state_checked (⟨Real.exp, Real.rpow⟩ : Libm ℝ) normal Globals.zeroInit
        [0, 0, 0, 0, 100, -60, -65, 1] random_seed (-65) [1, 1] 1 3 = some r := by
  have hfl : ⌊(3 : ℝ) / 1⌋ = 3 := by norm_num
  refine ⟨by norm_num, by norm_num, by norm_num, ?_, ?_⟩
  · exact ⟨_, runHH_state_eq _ (fun _ _ => 0) Globals.zeroInit _ _ 0 (-65) [1, 1] 1 3
      (by rw [hfl]; decide) (by rw [hfl]; decide) (assignGlobals_list _ _ _ _ _ _ _ _ _)
      (by rw [hfl]; decide)⟩
  · rintro ⟨normal, random_seed, r, h⟩
    rw [runHH_state_checked_zero _ normal Globals.zeroInit _ _ _ _ random_seed (-65) [1, 1] 1 3
      (by rw [hfl]; decide) (by rw [hfl]; decide)] at h
    exact Option.noConfusion h

end HHsim
